import Mathlib

/-!
# CinderBox2D — verification of the world step pipeline and friction joint

Shallow embedding of `src/CinderBox2D/Dynamics/cb2World.cpp` and
`src/CinderBox2D/Dynamics/Joints/cb2FrictionJoint.cpp`.

Modelling conventions:
* C++ `float` arithmetic is embedded as exact arithmetic (`ℚ`, and `ℝ` where
  the source computes square roots and trigonometric functions); the claims
  are settled for the exact-arithmetic semantics of the source algorithms.
* Heap objects linked by pointers are embedded as index-addressed lists; a
  body/joint/contact is identified by its index, mirroring pointer identity.
* External collaborators that are not part of this repository's sources under
  `src/` (broad-phase, contact manager, island solver internals, shape
  geometry) are either passed in as function parameters or modelled from the
  spec; such definitions carry a doc comment starting `Modelled from the
  spec:`.
* `cb2Assert` is a debug-build-only check; in the embedding each assertion of
  interest is modelled as an explicit boolean predicate, and the code's
  release behaviour (fall through) is what the transition functions do.
-/

namespace CinderBox2D

/-! ## Float validity (cb2FrictionJoint.cpp SetMaxForce / SetMaxTorque)

A C `float` is finite, NaN, or an infinity.  Only the finiteness structure
matters for the setter assertions, so a float is embedded as a rational
tagged with the non-finite cases. -/

inductive CFloat
  | fin (q : ℚ)
  | nan
  | inf
  | ninf
deriving DecidableEq

/-- Modelled from the spec: `cb2::isValid` (math header, not under `src/`)
holds exactly for finite values — "force/torque limits must be finite and
non-negative", excluding NaN and infinities. -/
def cb2IsValid : CFloat → Bool
  | .fin _ => true
  | .nan => false
  | .inf => false
  | .ninf => false

/-- The C comparison `x >= 0.0f`: NaN compares false, +inf compares true. -/
def cb2Ge0 : CFloat → Bool
  | .fin q => decide (0 ≤ q)
  | .nan => false
  | .inf => true
  | .ninf => false

/-- The two limit fields of `cb2FrictionJoint` touched by the setters. -/
structure FrictionLimits where
  maxForce : CFloat
  maxTorque : CFloat
deriving DecidableEq

/-- The assertion `cb2Assert(cb2::isValid(force) && force >= 0.0f)` of
`cb2FrictionJoint::SetMaxForce` (cb2FrictionJoint.cpp:217). -/
def setMaxForceAssertOK (force : CFloat) : Bool :=
  cb2IsValid force && cb2Ge0 force

/-- `cb2FrictionJoint::SetMaxForce` (cb2FrictionJoint.cpp:215-219): stores the
value unconditionally (the assertion is debug-only). -/
def setMaxForce (j : FrictionLimits) (force : CFloat) : FrictionLimits :=
  { j with maxForce := force }

/-- The assertion of `cb2FrictionJoint::SetMaxTorque` (cb2FrictionJoint.cpp:228). -/
def setMaxTorqueAssertOK (torque : CFloat) : Bool :=
  cb2IsValid torque && cb2Ge0 torque

/-- `cb2FrictionJoint::SetMaxTorque` (cb2FrictionJoint.cpp:226-230). -/
def setMaxTorque (j : FrictionLimits) (torque : CFloat) : FrictionLimits :=
  { j with maxTorque := torque }

/-! ## World lifecycle and `Step` control flow (cb2World.cpp)

Only the state observable by claims C4, C5, C6 and C10 is carried: the locked
flag, the step bookkeeping flags, bodies with their awake flag / force /
transform-position data, joints, and contacts with their filter flag.
`CreateBody` appends at a stable index (pointer identity in the source). -/

structure WBody where
  awake : Bool
  force : ℚ × ℚ
  torque : ℚ
  xfp : ℚ × ℚ
  sweepC0 : ℚ × ℚ
  sweepC : ℚ × ℚ
deriving DecidableEq

structure WJoint where
  bodyA : ℕ
  bodyB : ℕ
  collideConnected : Bool
deriving DecidableEq

structure WContact where
  a : ℕ
  b : ℕ
  filterFlag : Bool
deriving DecidableEq

/-- World state: destroyed bodies leave a `none` slot so that indices held by
joints stay stable (in the source, pointers are never renumbered). -/
structure WWorld where
  locked : Bool
  clearForcesFlag : Bool
  newFixtureFlag : Bool
  stepComplete : Bool
  continuousPhysics : Bool
  warmStarting : Bool
  inv_dt0 : ℚ
  bodies : List (Option WBody)
  joints : List WJoint
  contacts : List WContact
deriving DecidableEq

/-- The `cb2World` constructor state (cb2World.cpp:37-64): unlocked,
`m_flags = e_clearForces`, `m_stepComplete = true`, continuous physics and
warm starting on, `m_inv_dt0 = 0`, empty lists. -/
def initialWorld : WWorld :=
  { locked := false
    clearForcesFlag := true
    newFixtureFlag := false
    stepComplete := true
    continuousPhysics := true
    warmStarting := true
    inv_dt0 := 0
    bodies := []
    joints := []
    contacts := [] }

structure WBodyDef where
  awake : Bool
  position : ℚ × ℚ

structure WJointDef where
  bodyA : ℕ
  bodyB : ℕ
  collideConnected : Bool

/-- `b->SetAwake(true)` on the body slot `i` (no-op on a destroyed slot). -/
def setAwake : List (Option WBody) → ℕ → List (Option WBody)
  | [], _ => []
  | ob :: bs, 0 => (ob.map fun b => { b with awake := true }) :: bs
  | ob :: bs, n + 1 => ob :: setAwake bs n

/-- The awake flag of body `i`, or `none` when there is no such body. -/
def awakeAt (w : WWorld) (i : ℕ) : Option Bool :=
  match w.bodies.get? i with
  | some (some b) => some b.awake
  | _ => none

/-- The contact-filtering loop of `CreateJoint` / `DestroyJoint`
(cb2World.cpp:250-265 and 349-364): walk the contacts incident to `bodyB`
and flag those whose other endpoint is `bodyA`. -/
def flagContactsForFiltering (cs : List WContact) (bodyA bodyB : ℕ) : List WContact :=
  cs.map fun c =>
    if (c.a = bodyB ∧ c.b = bodyA) ∨ (c.b = bodyB ∧ c.a = bodyA) then
      { c with filterFlag := true }
    else c

/-- `cb2World::CreateBody` (cb2World.cpp:107-129): NULL and no change when
locked; otherwise allocate a new body and link it into the world list. -/
def createBody (w : WWorld) (bd : WBodyDef) : Option ℕ × WWorld :=
  if w.locked then (none, w)
  else
    (some w.bodies.length,
      { w with
          bodies := w.bodies ++
            [some { awake := bd.awake, force := (0, 0), torque := 0,
                    xfp := bd.position, sweepC0 := bd.position,
                    sweepC := bd.position }] })

/-- `cb2World::CreateJoint` (cb2World.cpp:212-270): NULL and no change when
locked; otherwise link the joint and, when `collideConnected` is false, flag
the contacts between the two bodies for filtering.  Note (line 267 of the
source): creating a joint does not wake the bodies. -/
def createJoint (w : WWorld) (jd : WJointDef) : Option ℕ × WWorld :=
  if w.locked then (none, w)
  else
    let w₁ := { w with joints := w.joints ++ [⟨jd.bodyA, jd.bodyB, jd.collideConnected⟩] }
    let w₂ :=
      if jd.collideConnected = false then
        { w₁ with contacts := flagContactsForFiltering w₁.contacts jd.bodyA jd.bodyB }
      else w₁
    (some w.joints.length, w₂)

/-- `cb2World::DestroyJoint` (cb2World.cpp:272-365): no change when locked;
otherwise unlink the joint, wake both connected bodies (lines 302-304), and
flag contacts between the pair for filtering when `collideConnected` was
false. -/
def destroyJoint (w : WWorld) (ji : ℕ) : WWorld :=
  if w.locked then w
  else
    match w.joints.get? ji with
    | none => w
    | some j =>
      { w with
          bodies := setAwake (setAwake w.bodies j.bodyA) j.bodyB
          joints := w.joints.eraseIdx ji
          contacts :=
            if j.collideConnected = false then
              flagContactsForFiltering w.contacts j.bodyA j.bodyB
            else w.contacts }

/-- `cb2World::DestroyBody` (cb2World.cpp:131-210): no change when locked;
otherwise destroy the attached joints (each of which wakes the other body,
via `DestroyJoint`), the attached contacts, and the body itself.  Filter
flagging by the destroyed joints only touches contacts incident to `bi`,
which are destroyed in the same call, so it has no net effect. -/
def destroyBody (w : WWorld) (bi : ℕ) : WWorld :=
  if w.locked then w
  else
    { w with
        bodies :=
          (w.joints.foldl
            (fun bs j =>
              if j.bodyA = bi ∨ j.bodyB = bi then setAwake (setAwake bs j.bodyA) j.bodyB
              else bs)
            w.bodies).set bi none
        joints := w.joints.filter fun j => !(j.bodyA == bi || j.bodyB == bi)
        contacts := w.contacts.filter fun c => !(c.a == bi || c.b == bi) }

/-- `cb2World::ShiftOrigin` (cb2World.cpp:1259-1280): no change when locked;
otherwise rebase every body's transform position and sweep centers.  (The
joint and broad-phase `ShiftOrigin` calls touch collaborator state outside
the modelled fields.) -/
def shiftOrigin (w : WWorld) (o : ℚ × ℚ) : WWorld :=
  if w.locked then w
  else
    { w with
        bodies := w.bodies.map (Option.map fun b =>
          { b with
              xfp := (b.xfp.1 - o.1, b.xfp.2 - o.2)
              sweepC0 := (b.sweepC0.1 - o.1, b.sweepC0.2 - o.2)
              sweepC := (b.sweepC.1 - o.1, b.sweepC.2 - o.2) }) }

/-- `cb2World::ClearForces` (cb2World.cpp:965-972). -/
def clearForces (w : WWorld) : WWorld :=
  { w with
      bodies := w.bodies.map (Option.map fun b =>
        { b with force := (0, 0), torque := 0 }) }

/-- The `cb2TimeStep` record built by `Step`.  The source field `dtRatio` is
named `dtr` here. -/
structure TimeStepQ where
  dt : ℚ
  inv_dt : ℚ
  dtr : ℚ
  velocityIterations : ℕ
  positionIterations : ℕ
  warmStarting : Bool
deriving DecidableEq

/-- The time-step construction of `cb2World::Step` (cb2World.cpp:910-925):
`inv_dt = 1/dt` when `dt > 0` else `0`, and `dtRatio = m_inv_dt0 * dt`. -/
def mkTimeStep (w : WWorld) (dt : ℚ) (vi pIter : ℕ) : TimeStepQ :=
  { dt := dt
    inv_dt := if dt > 0 then 1 / dt else 0
    dtr := w.inv_dt0 * dt
    velocityIterations := vi
    positionIterations := pIter
    warmStarting := w.warmStarting }

/-- Modelled from the spec: the spec's words define `dtRatio` as "the ratio
of this step's `1/dt` to the previous step's `1/dt`", i.e.
`(1/dt) / inv_dt0`; used to compare against the formula computed by the
source. -/
def specDtRatioOf (inv_dt0 dt : ℚ) : ℚ :=
  (1 / dt) / inv_dt0

/-- `cb2World::Step` (cb2World.cpp:897-963).  External collaborators and the
two solver passes appear as function parameters: `findNewF` is
`ContactManager::FindNewContacts`, `collideF` is `ContactManager::Collide`
(both outside `src/`), `solveF` is `Solve` and `toiF` is `SolveTOI`, so that
claims about which of them a call invokes are expressible. -/
def step (collideF findNewF : WWorld → WWorld)
    (solveF toiF : WWorld → TimeStepQ → WWorld)
    (w : WWorld) (dt : ℚ) (vi pIter : ℕ) : WWorld :=
  let w0 := if w.newFixtureFlag then { findNewF w with newFixtureFlag := false } else w
  let w1 := { w0 with locked := true }
  let st := mkTimeStep w1 dt vi pIter
  let w2 := collideF w1
  let w3 := if w2.stepComplete ∧ dt > 0 then solveF w2 st else w2
  let w4 := if w3.continuousPhysics ∧ dt > 0 then toiF w3 st else w3
  let w5 := if dt > 0 then { w4 with inv_dt0 := st.inv_dt } else w4
  let w6 := if w5.clearForcesFlag then clearForces w5 else w5
  { w6 with locked := false }

/-- What `Step` computes when both solver passes are skipped: contact update,
then the optional force clearing, with the lock released — used to state that
`dt <= 0` invokes neither `Solve` nor `SolveTOI`. -/
def stepSkipSolvers (collideF findNewF : WWorld → WWorld) (w : WWorld) : WWorld :=
  let w0 := if w.newFixtureFlag then { findNewF w with newFixtureFlag := false } else w
  let w2 := collideF { w0 with locked := true }
  let w6 := if w2.clearForcesFlag then clearForces w2 else w2
  { w6 with locked := false }

/-- A concrete three-body world with one joint, used as evaluation input. -/
def c10World : WWorld :=
  { initialWorld with
      bodies := [some ⟨false, (0, 0), 0, (0, 0), (0, 0), (0, 0)⟩,
                 some ⟨false, (0, 0), 0, (0, 0), (0, 0), (0, 0)⟩,
                 some ⟨false, (0, 0), 0, (0, 0), (0, 0), (0, 0)⟩]
      joints := [⟨0, 1, true⟩] }

/-! ## Island decomposition (cb2World::Solve, cb2World.cpp:386-574)

The constraint graph: bodies indexed by position, contacts and joints by
their index in the world lists.  A body's contact-edge (joint-edge) list is
embedded as the incident contacts (joints) in world-list order; edge-list
order only affects traversal order, not island membership.  `Island::Solve`
itself mutates only velocities, positions and awake flags of bodies that are
already island-flagged, so it cannot change which bodies the remaining seeds
collect; it is therefore not part of this decomposition model, while the
post-solve static-flag clearing (cb2World.cpp:536-545) is. -/

inductive BType
  | bstatic
  | kinematic
  | dynamic
deriving DecidableEq

structure BodyM where
  btype : BType
  awake : Bool
  active : Bool
deriving DecidableEq

structure ContactM where
  a : ℕ
  b : ℕ
  enabled : Bool
  touching : Bool
  sensorA : Bool
  sensorB : Bool
deriving DecidableEq

structure JointM where
  a : ℕ
  b : ℕ
deriving DecidableEq

structure WorldM where
  bodies : List BodyM
  contacts : List ContactM
  joints : List JointM
deriving DecidableEq

/-- Body lookup; a slot outside the list is an inactive asleep static body
(never reachable in a well-formed world). -/
def bdy (w : WorldM) (i : ℕ) : BodyM :=
  w.bodies.getD i ⟨BType.bstatic, false, false⟩

/-- The `other` pointer of body `i`'s edge node for this contact. -/
def ContactM.otherEnd (c : ContactM) (i : ℕ) : ℕ :=
  if c.a = i then c.b else c.a

/-- The `other` pointer of body `i`'s edge node for this joint. -/
def JointM.otherEnd (j : JointM) (i : ℕ) : ℕ :=
  if j.a = i then j.b else j.a

/-- "Is this contact solid and touching?" and "Skip sensors."
(cb2World.cpp:469-482). -/
def cOK (c : ContactM) : Bool :=
  c.enabled && c.touching && !c.sensorA && !c.sensorB

/-- Well-formed world: both endpoints of every contact are active bodies.
This is the invariant `cb2Assert(b->IsActive())` (cb2World.cpp:445) relies
on: deactivating a body destroys all its contacts, so a contact never links
an inactive body. -/
def wfWorld (w : WorldM) : Prop :=
  ∀ c ∈ w.contacts, (bdy w c.a).active = true ∧ (bdy w c.b).active = true

/-- The traversal state of one DFS (cb2World.cpp:434-528): island flags,
bodies woken by `SetAwake(true)`, the island under construction and the
stack. -/
structure SState where
  bflag : Finset ℕ
  cflag : Finset ℕ
  jflag : Finset ℕ
  woken : Finset ℕ
  islB : List ℕ
  islC : List ℕ
  islJ : List ℕ
  stack : List ℕ
deriving DecidableEq

/-- One contact-edge visit of the popped body `b` (cb2World.cpp:459-498):
skip contacts already in an island, non-solid, non-touching or sensor
contacts; otherwise add the contact to the island and push the other body
unless it is already flagged. -/
def contactStep (w : WorldM) (b : ℕ) (s : SState) (ci : ℕ) : SState :=
  match w.contacts.get? ci with
  | none => s
  | some c =>
    if ¬(c.a = b ∨ c.b = b) then s
    else if ci ∈ s.cflag then s
    else if ¬cOK c = true then s
    else
      let s1 := { s with cflag := insert ci s.cflag, islC := s.islC ++ [ci] }
      let other := c.otherEnd b
      if other ∈ s1.bflag then s1
      else { s1 with bflag := insert other s1.bflag, stack := other :: s1.stack }

def processContacts (w : WorldM) (b : ℕ) (s : SState) : SState :=
  (List.range w.contacts.length).foldl (contactStep w b) s

/-- One joint-edge visit of the popped body `b` (cb2World.cpp:500-527):
skip joints already in an island and joints whose other body is inactive;
otherwise add the joint and push the other body unless flagged. -/
def jointStep (w : WorldM) (b : ℕ) (s : SState) (ji : ℕ) : SState :=
  match w.joints.get? ji with
  | none => s
  | some j =>
    if ¬(j.a = b ∨ j.b = b) then s
    else if ji ∈ s.jflag then s
    else
      let other := j.otherEnd b
      if ¬(bdy w other).active = true then s
      else
        let s1 := { s with jflag := insert ji s.jflag, islJ := s.islJ ++ [ji] }
        if other ∈ s1.bflag then s1
        else { s1 with bflag := insert other s1.bflag, stack := other :: s1.stack }

def processJoints (w : WorldM) (b : ℕ) (s : SState) : SState :=
  (List.range w.joints.length).foldl (jointStep w b) s

/-- The depth-first search loop (cb2World.cpp:441-528): pop a body, add it to
the island and wake it; a static body terminates propagation (its edges are
not traversed), otherwise traverse its contact then joint edges.  Structural
fuel replaces the C++ `while (stackCount > 0)`; `dfsFuel` below always
suffices. -/
def dfsLoop (w : WorldM) : ℕ → SState → SState
  | 0, s => s
  | fuel + 1, s =>
    match s.stack with
    | [] => s
    | b :: rest =>
      let s1 := { s with stack := rest, islB := s.islB ++ [b], woken := insert b s.woken }
      if (bdy w b).btype = BType.bstatic then dfsLoop w fuel s1
      else dfsLoop w fuel (processJoints w b (processContacts w b s1))

/-- Every body index the search can ever push: the body-list range together
with all contact and joint endpoints. -/
def univIdx (w : WorldM) : Finset ℕ :=
  Finset.range w.bodies.length ∪
    w.contacts.foldr (fun c t => insert c.a (insert c.b t)) ∅ ∪
    w.joints.foldr (fun j t => insert j.a (insert j.b t)) ∅

/-- Termination measure of the DFS: unflagged reachable bodies count twice,
stack entries once; every loop iteration strictly decreases it. -/
def dfsMeasure (w : WorldM) (s : SState) : ℕ :=
  2 * ((univIdx w) \ s.bflag).card + s.stack.length

/-- Enough fuel for any single DFS. -/
def dfsFuel (w : WorldM) : ℕ :=
  2 * (univIdx w).card + 1

/-- One island as collected by the search: bodies, contacts and joints in
insertion order. -/
structure IslandR where
  bodies : List ℕ
  contacts : List ℕ
  joints : List ℕ
deriving DecidableEq

/-- The state of the seed loop (cb2World.cpp:416-546). -/
structure PassState where
  bflag : Finset ℕ
  cflag : Finset ℕ
  jflag : Finset ℕ
  woken : Finset ℕ
  islands : List IslandR
deriving DecidableEq

/-- One iteration of the seed loop: skip flagged, non-awake, inactive or
static seeds; otherwise run the DFS, record the island, and clear the island
flag of its static members (post-solve cleanup, cb2World.cpp:536-545).  A
body is awake if its flag was set at pass start or the pass woke it; bodies
put to sleep by `Island::Solve` are island-flagged and hence skipped by the
first test either way. -/
def seedStep (w : WorldM) (p : PassState) (seed : ℕ) : PassState :=
  if seed ∈ p.bflag then p
  else if ¬(((bdy w seed).awake = true ∨ seed ∈ p.woken) ∧ (bdy w seed).active = true) then p
  else if (bdy w seed).btype = BType.bstatic then p
  else
    let s1 := dfsLoop w (dfsFuel w)
      ⟨insert seed p.bflag, p.cflag, p.jflag, p.woken, [], [], [], [seed]⟩
    ⟨s1.islB.foldl
        (fun fs i => if (bdy w i).btype = BType.bstatic then fs.erase i else fs)
        s1.bflag,
      s1.cflag, s1.jflag, s1.woken, p.islands ++ [⟨s1.islB, s1.islC, s1.islJ⟩]⟩

/-- The full decomposition pass of `cb2World::Solve`: all island flags start
cleared (cb2World.cpp:399-411), then every body is tried as a seed. -/
def solvePass (w : WorldM) : PassState :=
  (List.range w.bodies.length).foldl (seedStep w) ⟨∅, ∅, ∅, ∅, []⟩

/-- The islands built (and immediately solved) by one `Solve` pass. -/
def islandsOf (w : WorldM) : List IslandR :=
  (solvePass w).islands

/-- The state after popping body `b` off the stack: `b` joins the island and
is woken (cb2World.cpp:443-449). -/
def popState (s : SState) (b : ℕ) (rest : List ℕ) : SState :=
  { s with stack := rest, islB := s.islB ++ [b], woken := insert b s.woken }

/-- Invariant of the seed loop relating the island flags to the islands
completed so far: flagged bodies are exactly the non-static island members,
a non-static body (a contact, a joint) belongs to at most one island, every
island contact/joint has both endpoints inside its island, and every island
is closed under qualifying edges at its non-static members. -/
structure PassInv (w : WorldM) (p : PassState) : Prop where
  staticsClear : ∀ x ∈ p.bflag, (bdy w x).btype ≠ BType.bstatic
  flagIsland : ∀ x ∈ p.bflag, ∃ k I, p.islands.get? k = some I ∧ x ∈ I.bodies
  islandFlagged : ∀ k I, p.islands.get? k = some I → ∀ x ∈ I.bodies,
      (bdy w x).btype ≠ BType.bstatic → x ∈ p.bflag
  islandActive : ∀ k I, p.islands.get? k = some I → ∀ x ∈ I.bodies,
      (bdy w x).active = true
  uniqB : ∀ k1 I1 k2 I2 x, p.islands.get? k1 = some I1 →
      p.islands.get? k2 = some I2 → x ∈ I1.bodies → x ∈ I2.bodies →
      (bdy w x).btype ≠ BType.bstatic → k1 = k2
  cflagIsland : ∀ ci ∈ p.cflag, ∃ k I c, p.islands.get? k = some I ∧
      ci ∈ I.contacts ∧ w.contacts.get? ci = some c ∧
      c.a ∈ I.bodies ∧ c.b ∈ I.bodies
  islandCFlag : ∀ k I, p.islands.get? k = some I → ∀ ci ∈ I.contacts, ci ∈ p.cflag
  uniqC : ∀ k1 I1 k2 I2 ci, p.islands.get? k1 = some I1 →
      p.islands.get? k2 = some I2 → ci ∈ I1.contacts → ci ∈ I2.contacts → k1 = k2
  closureC : ∀ k I, p.islands.get? k = some I → ∀ x ∈ I.bodies,
      (bdy w x).btype ≠ BType.bstatic → ∀ ci c, w.contacts.get? ci = some c →
      cOK c = true → (c.a = x ∨ c.b = x) → ci ∈ I.contacts
  jflagIsland : ∀ ji ∈ p.jflag, ∃ k I j, p.islands.get? k = some I ∧
      ji ∈ I.joints ∧ w.joints.get? ji = some j ∧
      j.a ∈ I.bodies ∧ j.b ∈ I.bodies
  islandJFlag : ∀ k I, p.islands.get? k = some I → ∀ ji ∈ I.joints, ji ∈ p.jflag
  uniqJ : ∀ k1 I1 k2 I2 ji, p.islands.get? k1 = some I1 →
      p.islands.get? k2 = some I2 → ji ∈ I1.joints → ji ∈ I2.joints → k1 = k2
  closureJ : ∀ k I, p.islands.get? k = some I → ∀ x ∈ I.bodies,
      (bdy w x).btype ≠ BType.bstatic → ∀ ji j, w.joints.get? ji = some j →
      (j.a = x ∨ j.b = x) → (bdy w (j.otherEnd x)).active = true → ji ∈ I.joints

/-- Invariant of one running DFS relative to the pass state `p` it started
from: the island flags are the old flags plus the bodies collected or
stacked, the newly collected entities were not flagged before, collected
bodies are active, and every collected contact/joint has both endpoints
collected or stacked. -/
structure DfsInv (w : WorldM) (p : PassState) (s : SState) : Prop where
  bflagIff : ∀ x, x ∈ s.bflag ↔ (x ∈ p.bflag ∨ x ∈ s.islB ∨ x ∈ s.stack)
  cflagIff : ∀ ci, ci ∈ s.cflag ↔ (ci ∈ p.cflag ∨ ci ∈ s.islC)
  jflagIff : ∀ ji, ji ∈ s.jflag ↔ (ji ∈ p.jflag ∨ ji ∈ s.islJ)
  newB : ∀ x, x ∈ s.islB ∨ x ∈ s.stack → x ∉ p.bflag
  newC : ∀ ci ∈ s.islC, ci ∉ p.cflag
  newJ : ∀ ji ∈ s.islJ, ji ∉ p.jflag
  activeB : ∀ x, x ∈ s.islB ∨ x ∈ s.stack → (bdy w x).active = true
  endsC : ∀ ci ∈ s.islC, ∃ c, w.contacts.get? ci = some c ∧ cOK c = true ∧
      (c.a ∈ s.islB ∨ c.a ∈ s.stack) ∧ (c.b ∈ s.islB ∨ c.b ∈ s.stack)
  endsJ : ∀ ji ∈ s.islJ, ∃ j, w.joints.get? ji = some j ∧
      (j.a ∈ s.islB ∨ j.a ∈ s.stack) ∧ (j.b ∈ s.islB ∨ j.b ∈ s.stack)

/-- Closure of the DFS state: every already-processed (popped, non-static)
island body has all its qualifying contact and joint edges flagged. -/
def DfsClosure (w : WorldM) (s : SState) : Prop :=
  ∀ x ∈ s.islB, (bdy w x).btype ≠ BType.bstatic → x ∉ s.stack →
    (∀ ci c, w.contacts.get? ci = some c → cOK c = true → (c.a = x ∨ c.b = x) →
      ci ∈ s.cflag) ∧
    (∀ ji j, w.joints.get? ji = some j → (j.a = x ∨ j.b = x) →
      (bdy w (j.otherEnd x)).active = true → ji ∈ s.jflag)

/-- The `dynamicA - static - dynamicB` chain world: body 1 is static, bodies
0 and 2 are awake dynamic, linked only by two touching contacts. -/
def chainW : WorldM :=
  { bodies := [⟨BType.dynamic, true, true⟩, ⟨BType.bstatic, true, true⟩,
               ⟨BType.dynamic, true, true⟩]
    contacts := [⟨0, 1, true, true, false, false⟩, ⟨1, 2, true, true, false, false⟩]
    joints := [] }

/-- Two dynamic bodies, each jointed to its own static body, and a joint
between the two static bodies; all bodies active. -/
def cexStaticJointW : WorldM :=
  { bodies := [⟨BType.dynamic, true, true⟩, ⟨BType.bstatic, true, true⟩,
               ⟨BType.bstatic, true, true⟩, ⟨BType.dynamic, true, true⟩]
    contacts := []
    joints := [⟨0, 1⟩, ⟨1, 2⟩, ⟨2, 3⟩] }

/-! ## Continuous collision: the TOI event loop (cb2World::SolveTOI, cb2World.cpp:577-895)

The loop state keeps, per body, the sweep interpolation origin `alpha0`
(the only sweep component the TOI bookkeeping reads or writes), the body
type and the awake/bullet/island flags; per contact, the endpoints, the
enabled/touching/sensor/island flags and the TOI cache (`toiFlag`,
`toiCount`, `toi`).  The geometric work — `cb2TimeOfImpact`,
`cb2Contact::Update` (including user PreSolve enabling/disabling) and
`FindNewContacts` — lives in collaborators outside `src/` and enters the
model as oracle streams consumed in call order. -/

structure TBody where
  alpha0 : ℚ
  btype : BType
  awake : Bool
  bullet : Bool
  islandFlag : Bool
deriving DecidableEq

structure TContact where
  a : ℕ
  b : ℕ
  enabled : Bool
  touching : Bool
  sensor : Bool
  islandFlag : Bool
  toiFlag : Bool
  toiCount : ℕ
  toi : ℚ
deriving DecidableEq

/-- `cb2_maxSubSteps` (settings header). -/
def cb2_maxSubSteps : ℕ := 8

/-- `cb2_maxTOIContacts` (settings header). -/
def cb2_maxTOIContacts : ℕ := 32

/-- `cb2_epsilon` = `FLT_EPSILON` = 2^-23, as an exact rational. -/
def cb2_epsilonQ : ℚ := 1 / 8388608

def tbdy (bodies : List TBody) (i : ℕ) : TBody :=
  bodies.getD i ⟨0, BType.bstatic, false, false, false⟩

def setTB (bodies : List TBody) (i : ℕ) (f : TBody → TBody) : List TBody :=
  match bodies.get? i with
  | some b => bodies.set i (f b)
  | none => bodies

/-- `body->Advance(a)`: the sweep is re-centered at time fraction `a`
(`Sweep::Advance` sets `alpha0 := a`). -/
def advanceTB (bodies : List TBody) (i : ℕ) (a : ℚ) : List TBody :=
  setTB bodies i fun b => { b with alpha0 := a }

def wakeTB (bodies : List TBody) (i : ℕ) : List TBody :=
  setTB bodies i fun b => { b with awake := true }

def islandTB (bodies : List TBody) (i : ℕ) (v : Bool) : List TBody :=
  setTB bodies i fun b => { b with islandFlag := v }

/-- `activeA = bA->IsAwake() && typeA != cb2_staticBody` (cb2World.cpp:643). -/
def tactiveB (bodies : List TBody) (i : ℕ) : Bool :=
  (tbdy bodies i).awake && !((tbdy bodies i).btype == BType.bstatic)

/-- `collideA = bA->IsBullet() || typeA != cb2_dynamicBody` (cb2World.cpp:652). -/
def tcollideB (bodies : List TBody) (i : ℕ) : Bool :=
  (tbdy bodies i).bullet || !((tbdy bodies i).btype == BType.dynamic)

/-- External collaborators of the TOI loop as oracle streams, consumed in
call order: `cb2TimeOfImpact` output (`t` and whether `state == e_touching`),
`cb2Contact::Update` outcomes (enabled, touching) and the contacts created
by `FindNewContacts`. -/
structure TOIEnv where
  beta : ℕ → ℚ
  betaTouch : ℕ → Bool
  upd : ℕ → Bool × Bool
  news : ℕ → List TContact

structure TState where
  bodies : List TBody
  contacts : List TContact
  subStepping : Bool
  stepComplete : Bool
  done : Bool
  lastMin : ℚ
  betaN : ℕ
  updN : ℕ
  newsN : ℕ
deriving DecidableEq

/-- Accumulator of the minimum-TOI scan (cb2World.cpp:601-713). -/
structure ScanAcc where
  bodies : List TBody
  contacts : List TContact
  minIdx : Option ℕ
  minAlpha : ℚ
  betaN : ℕ
deriving DecidableEq

/-- The TOI-fraction of a contact as the scan computes it
(cb2World.cpp:661-701): the common sweep start time `alpha0`, the
`cb2TimeOfImpact` answer `beta` on the remaining interval, giving
`alpha = min(alpha0 + (1 - alpha0) * beta, 1)` when the solver reports
`e_touching` and `1` otherwise. -/
def scanAlpha (env : TOIEnv) (acc : ScanAcc) (c : TContact) : ℚ :=
  let alpha0 := max (tbdy acc.bodies c.a).alpha0 (tbdy acc.bodies c.b).alpha0
  if env.betaTouch acc.betaN then
    min (alpha0 + (1 - alpha0) * env.beta acc.betaN) 1
  else 1

/-- The computed branch of one scan visit (cb2World.cpp:661-712):
synchronize the two sweeps to the later start time (`Sweep::Advance` on the
lagging body), query `cb2TimeOfImpact`, cache the result on the contact and
take the minimum. -/
def scanWork (env : TOIEnv) (acc : ScanAcc) (ci : ℕ) (c : TContact) : ScanAcc :=
  let bA := tbdy acc.bodies c.a
  let bB := tbdy acc.bodies c.b
  let alpha0 := max bA.alpha0 bB.alpha0
  let bodies1 :=
    if bA.alpha0 < bB.alpha0 then advanceTB acc.bodies c.a alpha0
    else if bB.alpha0 < bA.alpha0 then advanceTB acc.bodies c.b alpha0
    else acc.bodies
  let alpha := scanAlpha env acc c
  let acc1 : ScanAcc :=
    { acc with
        bodies := bodies1
        contacts := acc.contacts.set ci { c with toi := alpha, toiFlag := true }
        betaN := acc.betaN + 1 }
  if alpha < acc1.minAlpha then { acc1 with minIdx := some ci, minAlpha := alpha }
  else acc1

/-- One contact visit of the minimum-TOI scan (cb2World.cpp:605-713): skip
disabled contacts and contacts past the sub-step budget; use the cached TOI
when valid, otherwise skip sensors, fully inactive pairs and non-bullet
dynamic-dynamic pairs, and compute and cache the TOI; finally take the
minimum. -/
def toiScanStep (env : TOIEnv) (acc : ScanAcc) (ci : ℕ) : ScanAcc :=
  match acc.contacts.get? ci with
  | none => acc
  | some c =>
    if c.enabled = false then acc
    else if cb2_maxSubSteps < c.toiCount then acc
    else if c.toiFlag then
      if c.toi < acc.minAlpha then { acc with minIdx := some ci, minAlpha := c.toi }
      else acc
    else
      if c.sensor then acc
      else if tactiveB acc.bodies c.a = false ∧ tactiveB acc.bodies c.b = false then acc
      else if tcollideB acc.bodies c.a = false ∧ tcollideB acc.bodies c.b = false then acc
      else scanWork env acc ci c

def toiScan (env : TOIEnv) (st : TState) : ScanAcc :=
  (List.range st.contacts.length).foldl (toiScanStep env)
    ⟨st.bodies, st.contacts, none, 1, st.betaN⟩

/-- Accumulator of the TOI island build (cb2World.cpp:754-854). -/
structure BuildAcc where
  bodies : List TBody
  contacts : List TContact
  islB : List ℕ
  islC : List ℕ
  updN : ℕ
  stop : Bool
deriving DecidableEq

/-- One contact-edge visit of the TOI island build for island body `body`
(cb2World.cpp:771-852): stop at capacity; skip contacts already in the
island, non-bullet dynamic partners and sensors; tentatively advance the
other body, run the narrow-phase update, restore on disabled/not-touching,
otherwise add the contact (and, if new, the other body) to the island. -/
def buildStep (env : TOIEnv) (m : ℚ) (body : ℕ) (acc : BuildAcc) (ci : ℕ) : BuildAcc :=
  if acc.stop then acc
  else
    match acc.contacts.get? ci with
    | none => acc
    | some c =>
      if ¬(c.a = body ∨ c.b = body) then acc
      else if acc.islB.length = 2 * cb2_maxTOIContacts then { acc with stop := true }
      else if acc.islC.length = cb2_maxTOIContacts then { acc with stop := true }
      else if c.islandFlag then acc
      else
        let other := if c.a = body then c.b else c.a
        let bo := tbdy acc.bodies other
        if bo.btype = BType.dynamic ∧ (tbdy acc.bodies body).bullet = false ∧
            bo.bullet = false then acc
        else if c.sensor then acc
        else
          let bodies1 := if bo.islandFlag then acc.bodies else advanceTB acc.bodies other m
          let u := env.upd acc.updN
          let c1 : TContact := { c with enabled := u.1, touching := u.2 }
          if u.1 = false ∨ u.2 = false then
            { acc with contacts := acc.contacts.set ci c1, updN := acc.updN + 1 }
          else
            let contacts2 := acc.contacts.set ci { c1 with islandFlag := true }
            if bo.islandFlag then
              { acc with
                  bodies := bodies1
                  contacts := contacts2
                  islC := acc.islC ++ [ci]
                  updN := acc.updN + 1 }
            else
              let bodies2 := islandTB bodies1 other true
              let bodies3 :=
                if bo.btype = BType.bstatic then bodies2 else wakeTB bodies2 other
              { acc with
                  bodies := bodies3
                  contacts := contacts2
                  islB := acc.islB ++ [other]
                  islC := acc.islC ++ [ci]
                  updN := acc.updN + 1 }

/-- The edge loop of one island body (cb2World.cpp:766-771): only dynamic
bodies contribute their contact edges; the capacity `break` only exits this
body's loop. -/
def buildBody (env : TOIEnv) (m : ℚ) (body : ℕ) (acc : BuildAcc) : BuildAcc :=
  if (tbdy acc.bodies body).btype = BType.dynamic then
    { (List.range acc.contacts.length).foldl (buildStep env m body)
        { acc with stop := false } with stop := false }
  else acc

/-- Post-solve flag reset and TOI invalidation (cb2World.cpp:865-883): clear
every island body's island flag; for dynamic island bodies, clear the TOI
cache and island flag of all their contacts. -/
def invalStep (pr : List TBody × List TContact) (bi : ℕ) : List TBody × List TContact :=
  let bodies1 := islandTB pr.1 bi false
  if (tbdy pr.1 bi).btype = BType.dynamic then
    (bodies1, pr.2.map fun c =>
      if c.a = bi ∨ c.b = bi then { c with toiFlag := false, islandFlag := false } else c)
  else (bodies1, pr.2)

def invalidateIsland (bodies : List TBody) (contacts : List TContact)
    (islB : List ℕ) : List TBody × List TContact :=
  islB.foldl invalStep (bodies, contacts)

/-- Modelled from the spec: `FindNewContacts` "queries the broad-phase for
newly-overlapping fixture-proxy pairs and creates Contact objects ... not
already present".  Within the TOI loop only the island's dynamic bodies had
their fixtures synchronized against the broad-phase (cb2World.cpp:866-887),
so a newly created contact is incident to one of them; a fresh contact
starts enabled with a zeroed TOI cache (the `cb2Contact` constructor). -/
def newContacts (bodies : List TBody) (islB : List ℕ) (l : List TContact) : List TContact :=
  (l.filter fun nc => islB.any fun bi =>
      decide ((tbdy bodies bi).btype = BType.dynamic) && (nc.a == bi || nc.b == bi)).map
    fun nc => { nc with
                enabled := true
                islandFlag := false
                toiFlag := false
                toiCount := 0
                toi := 1 }

/-- One iteration of the TOI event loop `for (;;)` (cb2World.cpp:599-894).
After the loop has broken (`done`), further iterations are the identity.
`lastMin` records the last selected minimum TOI fraction. -/
def toiIter (env : TOIEnv) (st : TState) : TState :=
  if st.done then st
  else
    let sc := toiScan env st
    match sc.minIdx with
    | none =>
      { st with
          bodies := sc.bodies
          contacts := sc.contacts
          betaN := sc.betaN
          stepComplete := true
          done := true }
    | some ci =>
      if 1 - 10 * cb2_epsilonQ < sc.minAlpha then
        { st with
            bodies := sc.bodies
            contacts := sc.contacts
            betaN := sc.betaN
            stepComplete := true
            done := true }
      else
        match sc.contacts.get? ci with
        | none =>
          { st with
              bodies := sc.bodies
              contacts := sc.contacts
              betaN := sc.betaN
              stepComplete := true
              done := true }
        | some c =>
          let m := sc.minAlpha
          let bodies1 := advanceTB (advanceTB sc.bodies c.a m) c.b m
          let u := env.upd st.updN
          let c1 : TContact :=
            { c with
                enabled := u.1
                touching := u.2
                toiFlag := false
                toiCount := c.toiCount + 1 }
          if u.1 = false ∨ u.2 = false then
            { st with
                bodies := sc.bodies
                contacts := sc.contacts.set ci { c1 with enabled := false }
                betaN := sc.betaN
                updN := st.updN + 1
                lastMin := m }
          else
            let bodies2 := wakeTB (wakeTB bodies1 c.a) c.b
            let bodies3 := islandTB (islandTB bodies2 c.a true) c.b true
            let contacts3 := sc.contacts.set ci { c1 with islandFlag := true }
            let acc1 := buildBody env m c.a
              ⟨bodies3, contacts3, [c.a, c.b], [ci], st.updN + 1, false⟩
            let acc2 := buildBody env m c.b acc1
            let pr := invalidateIsland acc2.bodies acc2.contacts acc2.islB
            let st2 : TState :=
              { st with
                  bodies := pr.1
                  contacts := pr.2 ++ newContacts pr.1 acc2.islB (env.news st.newsN)
                  betaN := sc.betaN
                  updN := acc2.updN
                  newsN := st.newsN + 1
                  lastMin := m }
            if st.subStepping then { st2 with stepComplete := false, done := true }
            else st2

def toiIterN (env : TOIEnv) : ℕ → TState → TState
  | 0, st => st
  | k + 1, st => toiIterN env k (toiIter env st)

/-- The entry normalization of `SolveTOI` under `m_stepComplete`
(cb2World.cpp:581-596): clear body island flags and sweep `alpha0`,
invalidate every contact's TOI cache and island flag. -/
def solveTOIInit (st : TState) : TState :=
  { st with
      bodies := st.bodies.map fun b => { b with islandFlag := false, alpha0 := 0 }
      contacts := st.contacts.map fun c =>
        { c with toiFlag := false, islandFlag := false, toiCount := 0, toi := 1 }
      done := false
      lastMin := 0 }

/-- Every contact links at least one dynamic body — the invariant asserted
at cb2World.cpp:641 (`typeA == cb2_dynamicBody || typeB == cb2_dynamicBody`;
pairs of non-dynamic bodies never produce contacts). -/
def twf (st : TState) : Prop :=
  ∀ c ∈ st.contacts, (tbdy st.bodies c.a).btype = BType.dynamic ∨
    (tbdy st.bodies c.b).btype = BType.dynamic

/-- The TOI loop invariant: cached TOIs of usable contacts are at least the
last selected minimum and lie in `[0,1]`; usable uncached contacts that the
scan would compute have a sweep start at least the last selected minimum;
the last selected minimum and all sweep starts lie in `[0,1]`; every contact
has a dynamic endpoint. -/
structure TInv (st : TState) : Prop where
  flagBound : ∀ c ∈ st.contacts, c.enabled = true → c.toiCount ≤ cb2_maxSubSteps →
      c.toiFlag = true → st.lastMin ≤ c.toi
  unflagBound : ∀ c ∈ st.contacts, c.enabled = true → c.toiCount ≤ cb2_maxSubSteps →
      c.toiFlag = false → c.sensor = false →
      (tactiveB st.bodies c.a = true ∨ tactiveB st.bodies c.b = true) →
      (tcollideB st.bodies c.a = true ∨ tcollideB st.bodies c.b = true) →
      st.lastMin ≤ max (tbdy st.bodies c.a).alpha0 (tbdy st.bodies c.b).alpha0
  minLo : 0 ≤ st.lastMin
  minHi : st.lastMin ≤ 1
  alphaLo : ∀ i, 0 ≤ (tbdy st.bodies i).alpha0
  alphaHi : ∀ i, (tbdy st.bodies i).alpha0 ≤ 1
  toiBounds : ∀ c ∈ st.contacts, c.toiFlag = true → 0 ≤ c.toi ∧ c.toi ≤ 1
  dynEnd : ∀ c ∈ st.contacts, (tbdy st.bodies c.a).btype = BType.dynamic ∨
      (tbdy st.bodies c.b).btype = BType.dynamic
  endLt : ∀ c ∈ st.contacts, c.a < st.bodies.length ∧ c.b < st.bodies.length

/-- Invariant of the minimum-TOI scan fold, relative to the iteration entry
state `st`: body flags are untouched and sweep starts only grow within
`[0,1]`; a contact slot is either untouched or freshly cached within budget
with a TOI in `[lastMin, 1]`; the running minimum stays in `[lastMin, 1]`;
the running minimum contact, if any, is enabled, within budget, and cached
at exactly the running minimum. -/
structure SP (env : TOIEnv) (st : TState) (acc : ScanAcc) : Prop where
  clen : acc.contacts.length = st.contacts.length
  blen : acc.bodies.length = st.bodies.length
  bpres : ∀ j, (tbdy acc.bodies j).awake = (tbdy st.bodies j).awake ∧
      (tbdy acc.bodies j).btype = (tbdy st.bodies j).btype ∧
      (tbdy acc.bodies j).bullet = (tbdy st.bodies j).bullet ∧
      (tbdy acc.bodies j).islandFlag = (tbdy st.bodies j).islandFlag
  amono : ∀ j, (tbdy st.bodies j).alpha0 ≤ (tbdy acc.bodies j).alpha0
  ahi : ∀ j, (tbdy acc.bodies j).alpha0 ≤ 1
  alo : ∀ j, 0 ≤ (tbdy acc.bodies j).alpha0
  crel : ∀ k, acc.contacts.get? k = st.contacts.get? k ∨
      (∃ c c', st.contacts.get? k = some c ∧ acc.contacts.get? k = some c' ∧
        c'.a = c.a ∧ c'.b = c.b ∧ c'.enabled = c.enabled ∧ c'.touching = c.touching ∧
        c'.sensor = c.sensor ∧ c'.islandFlag = c.islandFlag ∧
        c'.toiCount = c.toiCount ∧ c.toiCount ≤ cb2_maxSubSteps ∧
        c'.toiFlag = true ∧ st.lastMin ≤ c'.toi ∧ 0 ≤ c'.toi ∧ c'.toi ≤ 1)
  mlo : st.lastMin ≤ acc.minAlpha
  mhi : acc.minAlpha ≤ 1
  sel : ∀ ci, acc.minIdx = some ci → ∃ c', acc.contacts.get? ci = some c' ∧
      c'.enabled = true ∧ c'.toiCount ≤ cb2_maxSubSteps ∧ c'.toiFlag = true ∧
      c'.toi = acc.minAlpha

/-- Post-visit facts of the scan at contact slot `ci`: a cached usable
contact is bounded below by the running minimum, and no usable, uncached,
computable contact remains at this slot. -/
def ScanDone (ci : ℕ) (acc : ScanAcc) : Prop :=
  (∀ c', acc.contacts.get? ci = some c' → c'.enabled = true →
      c'.toiCount ≤ cb2_maxSubSteps → c'.toiFlag = true → acc.minAlpha ≤ c'.toi) ∧
  (∀ c', acc.contacts.get? ci = some c' → c'.enabled = true →
      c'.toiCount ≤ cb2_maxSubSteps → c'.toiFlag = false → c'.sensor = false →
      (tactiveB acc.bodies c'.a = true ∨ tactiveB acc.bodies c'.b = true) →
      (tcollideB acc.bodies c'.a = true ∨ tcollideB acc.bodies c'.b = true) → False)

/-- Invariant of the TOI island build fold, relative to the iteration entry
state `st`, the scan result `sc`, the selected minimum `m` and the two seed
bodies `cA`, `cB`: body types and bullet flags are untouched; every sweep
start is either the scan's or `m`; newly awake bodies are island members;
island members sit at sweep start `m` and include the seeds; a contact slot
is either the scan's or has the same endpoints, a TOI count at least the
scan's, and is incident to a dynamic island member. -/
structure BP (st : TState) (sc : ScanAcc) (m : ℚ) (cA cB : ℕ) (acc : BuildAcc) : Prop where
  clen : acc.contacts.length = st.contacts.length
  blen : acc.bodies.length = st.bodies.length
  bpres : ∀ j, (tbdy acc.bodies j).btype = (tbdy sc.bodies j).btype ∧
      (tbdy acc.bodies j).bullet = (tbdy sc.bodies j).bullet
  balpha : ∀ j, (tbdy acc.bodies j).alpha0 = (tbdy sc.bodies j).alpha0 ∨
      (tbdy acc.bodies j).alpha0 = m
  bawake : ∀ j, (tbdy acc.bodies j).awake = true →
      (tbdy sc.bodies j).awake = true ∨ j ∈ acc.islB
  bmem : ∀ bi ∈ acc.islB, (tbdy acc.bodies bi).alpha0 = m
  cain : cA ∈ acc.islB
  cbin : cB ∈ acc.islB
  ends : ∀ k c2, acc.contacts.get? k = some c2 →
      c2.a < acc.bodies.length ∧ c2.b < acc.bodies.length
  bcrel : ∀ k, acc.contacts.get? k = sc.contacts.get? k ∨
      (∃ csc c2, sc.contacts.get? k = some csc ∧ acc.contacts.get? k = some c2 ∧
        c2.a = csc.a ∧ c2.b = csc.b ∧ csc.toiCount ≤ c2.toiCount ∧
        (∃ bi ∈ acc.islB, (tbdy acc.bodies bi).btype = BType.dynamic ∧
          (c2.a = bi ∨ c2.b = bi)))

/-- A concrete TOI oracle: every `cb2TimeOfImpact` call reports touching at
half the remaining interval, every `cb2Contact::Update` reports an enabled,
touching contact, and no new contacts appear. -/
def toiEnvW : TOIEnv :=
  ⟨fun _ => 1, fun _ => true, fun _ => (true, true), fun _ => []⟩

/-- A concrete world for the TOI loop: two awake dynamic bullets sharing one
enabled contact. -/
def toiW : TState :=
  { bodies := [⟨0, BType.dynamic, true, true, false⟩, ⟨0, BType.dynamic, true, true, false⟩]
    contacts := [⟨0, 1, true, false, false, false, false, 0, 1⟩]
    subStepping := false
    stepComplete := true
    done := false
    lastMin := 0
    betaN := 0
    updN := 0
    newsN := 0 }

/-- A mid-step TOI world: the single contact has exhausted its sub-step
budget (`toiCount = 9 > cb2_maxSubSteps`). -/
def toiW8 : TState :=
  { bodies := [⟨0, BType.dynamic, true, true, false⟩, ⟨0, BType.dynamic, true, true, false⟩]
    contacts := [⟨0, 1, true, true, false, false, false, 9, 1⟩]
    subStepping := false
    stepComplete := false
    done := false
    lastMin := 0
    betaN := 0
    updN := 0
    newsN := 0 }

/-! ## Friction joint solver (cb2FrictionJoint.cpp)

The solver works on C `float` vectors; it computes square roots (vector
normalization) and sines/cosines (rotations), so this part of the embedding
lives over `ℝ`. -/

structure V2 where
  x : ℝ
  y : ℝ

noncomputable def V2.add (a b : V2) : V2 := ⟨a.x + b.x, a.y + b.y⟩

noncomputable def V2.sub (a b : V2) : V2 := ⟨a.x - b.x, a.y - b.y⟩

noncomputable def V2.neg (a : V2) : V2 := ⟨-a.x, -a.y⟩

noncomputable def V2.smul (s : ℝ) (a : V2) : V2 := ⟨s * a.x, s * a.y⟩

noncomputable def V2.zero : V2 := ⟨0, 0⟩

/-- `cb2Cross(Vec2f, Vec2f)`: the scalar 2D cross product. -/
noncomputable def cb2CrossVV (a b : V2) : ℝ := a.x * b.y - a.y * b.x

/-- `cb2Cross(float, Vec2f)`: `w k % (rx i + ry j) = w * (-ry i + rx j)`
(identity quoted at cb2FrictionJoint.cpp:28). -/
noncomputable def cb2CrossSV (s : ℝ) (a : V2) : V2 := ⟨-s * a.y, s * a.x⟩

noncomputable def V2.lengthSquared (a : V2) : ℝ := a.x * a.x + a.y * a.y

noncomputable def V2.length (a : V2) : ℝ := Real.sqrt a.lengthSquared

/-- Modelled from the spec: the standard clamp helper
`cb2Clamp(a, low, high) = max(low, min(a, high))` (math header, not under
`src/`) used by the angular friction clamp. -/
noncomputable def cb2Clamp (a lo hi : ℝ) : ℝ := max lo (min a hi)

/-- `cb2Rot(angle)` as its (sine, cosine) pair. -/
noncomputable def cb2RotOf (a : ℝ) : ℝ × ℝ := (Real.sin a, Real.cos a)

/-- Rotation applied to a vector: `cb2Mul(q, v)`. -/
noncomputable def cb2MulRot (q : ℝ × ℝ) (v : V2) : V2 :=
  ⟨q.2 * v.x - q.1 * v.y, q.1 * v.x + q.2 * v.y⟩

structure M22 where
  m00 : ℝ
  m01 : ℝ
  m10 : ℝ
  m11 : ℝ

noncomputable def M22.mulVec (m : M22) (v : V2) : V2 :=
  ⟨m.m00 * v.x + m.m01 * v.y, m.m10 * v.x + m.m11 * v.y⟩

/-- Modelled from the spec: the 2x2 effective-mass matrix inverse
("a 2x2 ... matrix inverse"; `Matrix22f::inverted` is Cinder library code,
not under `src/`), with a zero-determinant guard. -/
noncomputable def M22.inverted (m : M22) : M22 :=
  let det := m.m00 * m.m11 - m.m01 * m.m10
  if det = 0 then ⟨0, 0, 0, 0⟩
  else ⟨m.m11 / det, -m.m01 / det, -m.m10 / det, m.m00 / det⟩

/-- The body data `InitVelocityConstraints` captures from `m_bodyA/B`. -/
structure BodyParams where
  localCenter : V2
  invMass : ℝ
  invI : ℝ

/-- The `cb2TimeStep` fields read by the joint solver (`data.step`); the
source field `dtRatio` is named `dtr`. -/
structure SolverStep where
  dt : ℝ
  dtr : ℝ
  warmStarting : Bool

/-- The velocity entries `data.velocities[m_indexA/B]` (the joint touches
exactly these two slots). -/
structure VelPair where
  vA : V2
  wA : ℝ
  vB : V2
  wB : ℝ

/-- The `cb2FrictionJoint` fields. -/
structure FJState where
  localAnchorA : V2
  localAnchorB : V2
  linearImpulse : V2
  angularImpulse : ℝ
  maxForce : ℝ
  maxTorque : ℝ
  rA : V2
  rB : V2
  localCenterA : V2
  localCenterB : V2
  invMassA : ℝ
  invMassB : ℝ
  invIA : ℝ
  invIB : ℝ
  linearMass : M22
  angularMass : ℝ

/-- `cb2FrictionJoint::InitVelocityConstraints` (cb2FrictionJoint.cpp:56-129):
capture body data, build the effective mass matrices, then either rescale the
stored impulses by `dtRatio` and reapply them to both bodies' velocities
(warm starting) or zero them. -/
noncomputable def initVelocityConstraints (st : SolverStep) (bA bB : BodyParams)
    (aA aB : ℝ) (vel : VelPair) (j : FJState) : FJState × VelPair :=
  let mA := bA.invMass
  let mB := bB.invMass
  let iA := bA.invI
  let iB := bB.invI
  let qA := cb2RotOf aA
  let qB := cb2RotOf aB
  let rA := cb2MulRot qA (j.localAnchorA.sub bA.localCenter)
  let rB := cb2MulRot qB (j.localAnchorB.sub bB.localCenter)
  let K : M22 :=
    ⟨mA + mB + iA * rA.y * rA.y + iB * rB.y * rB.y,
     -iA * rA.x * rA.y - iB * rB.x * rB.y,
     -iA * rA.x * rA.y - iB * rB.x * rB.y,
     mA + mB + iA * rA.x * rA.x + iB * rB.x * rB.x⟩
  let linearMass := K.inverted
  let am0 := iA + iB
  let angularMass := if am0 > 0 then 1 / am0 else am0
  let j1 : FJState :=
    { j with
        rA := rA, rB := rB
        localCenterA := bA.localCenter, localCenterB := bB.localCenter
        invMassA := mA, invMassB := mB, invIA := iA, invIB := iB
        linearMass := linearMass, angularMass := angularMass }
  if st.warmStarting then
    let lin := V2.smul st.dtr j.linearImpulse
    let ang := st.dtr * j.angularImpulse
    ({ j1 with linearImpulse := lin, angularImpulse := ang },
      ⟨vel.vA.sub (V2.smul mA lin),
       vel.wA - iA * (cb2CrossVV rA lin + ang),
       vel.vB.add (V2.smul mB lin),
       vel.wB + iB * (cb2CrossVV rB lin + ang)⟩)
  else
    ({ j1 with linearImpulse := V2.zero, angularImpulse := 0 }, vel)

/-- `cb2FrictionJoint::SolveVelocityConstraints` (cb2FrictionJoint.cpp:131-186):
solve angular then linear friction, clamping the accumulated impulse against
`h * maxTorque` / `h * maxForce` and applying the delta from the previous
accumulated value to both bodies.  The vector clamp `normalize(); *= max`
(Cinder `Vec2f` helpers, not under `src/`) is `(max / length) * v`. -/
noncomputable def solveVelocityConstraints (st : SolverStep) (j : FJState)
    (vel : VelPair) : FJState × VelPair :=
  let mA := j.invMassA
  let mB := j.invMassB
  let iA := j.invIA
  let iB := j.invIB
  let h := st.dt
  let cdotW := vel.wB - vel.wA
  let impW := -j.angularMass * cdotW
  let oldW := j.angularImpulse
  let maxW := h * j.maxTorque
  let newW := cb2Clamp (j.angularImpulse + impW) (-maxW) maxW
  let dW := newW - oldW
  let wA1 := vel.wA - iA * dW
  let wB1 := vel.wB + iB * dW
  let cdot := ((vel.vB.add (cb2CrossSV wB1 j.rB)).sub vel.vA).sub (cb2CrossSV wA1 j.rA)
  let imp := (j.linearMass.mulVec cdot).neg
  let oldL := j.linearImpulse
  let lin1 := j.linearImpulse.add imp
  let maxL := h * j.maxForce
  let lin2 :=
    if lin1.lengthSquared > maxL * maxL then
      V2.smul maxL (V2.smul (1 / lin1.length) lin1)
    else lin1
  let dL := lin2.sub oldL
  ({ j with angularImpulse := newW, linearImpulse := lin2 },
    ⟨vel.vA.sub (V2.smul mA dL),
     wA1 - iA * cb2CrossVV j.rA dL,
     vel.vB.add (V2.smul mB dL),
     wB1 + iB * cb2CrossVV j.rB dL⟩)

/-- `n` velocity iterations of the friction joint solve (the island's
velocity-iteration loop restricted to this joint). -/
noncomputable def solveVelocityIter (st : SolverStep) :
    ℕ → FJState × VelPair → FJState × VelPair
  | 0, p => p
  | n + 1, p => solveVelocityIter st n (solveVelocityConstraints st p.1 p.2)

/-- A friction joint state with all fields zero, used as evaluation input. -/
noncomputable def fjZero : FJState :=
  ⟨V2.zero, V2.zero, V2.zero, 0, 0, 0, V2.zero, V2.zero, V2.zero, V2.zero,
    0, 0, 0, 0, ⟨0, 0, 0, 0⟩, 0⟩

/-- An all-zero velocity pair, used as evaluation input. -/
noncomputable def velZero : VelPair := ⟨V2.zero, 0, V2.zero, 0⟩

/-! ### Helper lemmas (shared) -/

lemma setAwake_get (bs : List (Option WBody)) (k i : ℕ) :
    (setAwake bs k).get? i =
      if i = k then (bs.get? i).map (Option.map fun b => { b with awake := true })
      else bs.get? i := by
  induction bs generalizing k i with
  | nil => simp [setAwake]
  | cons ob bs ih =>
    cases k with
    | zero =>
      cases i with
      | zero => simp [setAwake]
      | succ n => simp [setAwake]
    | succ m =>
      cases i with
      | zero => simp [setAwake]
      | succ n => simpa [setAwake] using ih m n

/-- The awake flag of body `i` read off a bodies list. -/
def awakeAtL (bs : List (Option WBody)) (i : ℕ) : Option Bool :=
  match bs.get? i with
  | some (some b) => some b.awake
  | _ => none

lemma awakeAt_eq (w : WWorld) (i : ℕ) : awakeAt w i = awakeAtL w.bodies i := rfl

lemma awakeAtL_setAwake_self (bs : List (Option WBody)) (k : ℕ) :
    awakeAtL (setAwake bs k) k = (awakeAtL bs k).map fun _ => true := by
  unfold awakeAtL
  rw [setAwake_get]
  simp only [if_pos rfl]
  match bs.get? k with
  | none => rfl
  | some none => rfl
  | some (some b) => rfl

lemma awakeAtL_setAwake_ne (bs : List (Option WBody)) (k i : ℕ) (h : i ≠ k) :
    awakeAtL (setAwake bs k) i = awakeAtL bs i := by
  unfold awakeAtL
  rw [setAwake_get, if_neg h]

lemma clearForces_bodies (w : WWorld) (i : ℕ) (b : WBody)
    (h : (clearForces w).bodies.get? i = some (some b)) :
    b.force = (0, 0) ∧ b.torque = 0 := by
  unfold clearForces at h
  simp only [List.get?_map] at h
  match hb : w.bodies.get? i with
  | none => rw [hb] at h; simp at h
  | some none => rw [hb] at h; simp at h
  | some (some b0) =>
    rw [hb] at h
    simp only [Option.map_some'] at h
    cases h
    exact ⟨rfl, rfl⟩

/-! ### C4 -/

/-- C4: when the world is locked (inside a `Step`), `CreateBody` and
`CreateJoint` return NULL without modifying the world, and `DestroyBody`,
`DestroyJoint` and `ShiftOrigin` return without modifying any world state.
All five transition functions are total (no exception path). -/
theorem locked_mutators_are_noops (w : WWorld) (h : w.locked = true)
    (bd : WBodyDef) (jd : WJointDef) (bi ji : ℕ) (o : ℚ × ℚ) :
    createBody w bd = (none, w) ∧ createJoint w jd = (none, w) ∧
    destroyBody w bi = w ∧ destroyJoint w ji = w ∧ shiftOrigin w o = w := by
  refine ⟨?_, ?_, ?_, ?_, ?_⟩ <;>
    simp [createBody, createJoint, destroyBody, destroyJoint, shiftOrigin, h]

theorem locked_mutators_are_noops_witness :
    ({ initialWorld with locked := true } : WWorld).locked = true ∧
    (createBody { initialWorld with locked := true } ⟨true, (0, 0)⟩ =
        (none, { initialWorld with locked := true }) ∧
      createJoint { initialWorld with locked := true } ⟨0, 1, true⟩ =
        (none, { initialWorld with locked := true }) ∧
      destroyBody { initialWorld with locked := true } 0 =
        { initialWorld with locked := true } ∧
      destroyJoint { initialWorld with locked := true } 0 =
        { initialWorld with locked := true } ∧
      shiftOrigin { initialWorld with locked := true } (1, 2) =
        { initialWorld with locked := true }) :=
  ⟨rfl, locked_mutators_are_noops { initialWorld with locked := true } rfl
    ⟨true, (0, 0)⟩ ⟨0, 1, true⟩ 0 0 (1, 2)⟩

/-! ### C5 -/

/-- C5: a `Step` call with `dt <= 0` invokes neither `Solve` nor `SolveTOI`
(the result does not depend on the two solver functions, and equals the
solver-free path `stepSkipSolvers`), while forces are still cleared at the
end of the call when the clear-forces flag is set. -/
theorem step_nonpositive_dt_skips_solvers
    (collideF findNewF : WWorld → WWorld)
    (solveF toiF solveG toiG : WWorld → TimeStepQ → WWorld)
    (w : WWorld) (dt : ℚ) (vi pIter : ℕ) (hdt : dt ≤ 0) :
    (step collideF findNewF solveF toiF w dt vi pIter =
      stepSkipSolvers collideF findNewF w) ∧
    (step collideF findNewF solveF toiF w dt vi pIter =
      step collideF findNewF solveG toiG w dt vi pIter) ∧
    (∀ i b,
      (collideF { (if w.newFixtureFlag then { findNewF w with newFixtureFlag := false } else w) with
          locked := true }).clearForcesFlag = true →
      (step collideF findNewF solveF toiF w dt vi pIter).bodies.get? i = some (some b) →
      b.force = (0, 0) ∧ b.torque = 0) := by
  have hne : ¬ dt > 0 := not_lt.mpr hdt
  have hmain : step collideF findNewF solveF toiF w dt vi pIter =
      stepSkipSolvers collideF findNewF w := by
    simp [step, stepSkipSolvers, hne]
  refine ⟨hmain, ?_, ?_⟩
  · rw [hmain]; symm; simp [step, stepSkipSolvers, hne]
  · intro i b hflag hget
    rw [hmain] at hget
    unfold stepSkipSolvers at hget
    simp only at hget
    rw [if_pos hflag] at hget
    exact clearForces_bodies _ i b hget

theorem step_nonpositive_dt_skips_solvers_witness :
    ((0 : ℚ) ≤ 0) ∧
    (step id id (fun w _ => w) (fun w _ => w) initialWorld 0 8 3 =
      stepSkipSolvers id id initialWorld) :=
  ⟨le_refl 0,
    (step_nonpositive_dt_skips_solvers id id (fun w _ => w) (fun w _ => w)
      (fun w _ => w) (fun w _ => w) initialWorld 0 8 3 (le_refl 0)).1⟩

/-! ### C9 -/

/-- C9: the friction-joint setters `SetMaxForce` / `SetMaxTorque` assert that
the supplied limit is valid (finite, not NaN or infinite) and non-negative;
under that precondition the assertion holds (the assert branch is
unreachable) and the stored limit is exactly the supplied value.  The last
conjuncts show the assertion indeed rejects NaN, infinity and negative
inputs. -/
theorem friction_setters_validate (j : FrictionLimits) (force torque : CFloat)
    (qf qt : ℚ) (hf : force = CFloat.fin qf) (hf0 : 0 ≤ qf)
    (ht : torque = CFloat.fin qt) (ht0 : 0 ≤ qt) :
    setMaxForceAssertOK force = true ∧ (setMaxForce j force).maxForce = force ∧
    setMaxTorqueAssertOK torque = true ∧ (setMaxTorque j torque).maxTorque = torque ∧
    setMaxForceAssertOK CFloat.nan = false ∧ setMaxForceAssertOK CFloat.inf = false ∧
    setMaxForceAssertOK (CFloat.fin (-1)) = false := by
  subst hf ht
  refine ⟨?_, rfl, ?_, rfl, rfl, rfl, by decide⟩ <;>
    simp [setMaxForceAssertOK, setMaxTorqueAssertOK, cb2IsValid, cb2Ge0, hf0, ht0]

theorem friction_setters_validate_witness :
    (CFloat.fin (3 : ℚ) = CFloat.fin 3 ∧ (0 : ℚ) ≤ 3) ∧
    (setMaxForceAssertOK (CFloat.fin 3) = true ∧
      (setMaxForce ⟨CFloat.fin 0, CFloat.fin 0⟩ (CFloat.fin 3)).maxForce = CFloat.fin 3 ∧
      setMaxTorqueAssertOK (CFloat.fin 5) = true ∧
      (setMaxTorque ⟨CFloat.fin 0, CFloat.fin 0⟩ (CFloat.fin 5)).maxTorque = CFloat.fin 5 ∧
      setMaxForceAssertOK CFloat.nan = false ∧ setMaxForceAssertOK CFloat.inf = false ∧
      setMaxForceAssertOK (CFloat.fin (-1)) = false) :=
  ⟨⟨rfl, by norm_num⟩,
    friction_setters_validate ⟨CFloat.fin 0, CFloat.fin 0⟩ (CFloat.fin 3) (CFloat.fin 5)
      3 5 rfl (by norm_num) rfl (by norm_num)⟩

/-! ### C10 -/

/-- C10: with the world unlocked, `DestroyJoint` sets both connected bodies
awake (and touches no other body's awake flag), while `CreateJoint` leaves
every body's awake flag unchanged. -/
theorem destroyJoint_wakes_createJoint_does_not (w : WWorld) (hl : w.locked = false)
    (ji : ℕ) (j : WJoint) (hj : w.joints.get? ji = some j) (jd : WJointDef) (i : ℕ) :
    ((awakeAt w j.bodyA).isSome → awakeAt (destroyJoint w ji) j.bodyA = some true) ∧
    ((awakeAt w j.bodyB).isSome → awakeAt (destroyJoint w ji) j.bodyB = some true) ∧
    (i ≠ j.bodyA → i ≠ j.bodyB → awakeAt (destroyJoint w ji) i = awakeAt w i) ∧
    (awakeAt (createJoint w jd).2 i = awakeAt w i) := by
  have hdj : destroyJoint w ji =
      { w with
          bodies := setAwake (setAwake w.bodies j.bodyA) j.bodyB
          joints := w.joints.eraseIdx ji
          contacts :=
            if j.collideConnected = false then
              flagContactsForFiltering w.contacts j.bodyA j.bodyB
            else w.contacts } := by
    unfold destroyJoint
    rw [hl, hj]
    rfl
  refine ⟨?_, ?_, ?_, ?_⟩
  · intro hs
    rw [awakeAt_eq] at hs
    obtain ⟨v, hv⟩ := Option.isSome_iff_exists.mp hs
    rw [hdj, awakeAt_eq]
    simp only
    by_cases hab : j.bodyA = j.bodyB
    · rw [hab] at hv ⊢
      rw [awakeAtL_setAwake_self, awakeAtL_setAwake_self, hv]
      rfl
    · rw [awakeAtL_setAwake_ne _ _ _ hab, awakeAtL_setAwake_self, hv]
      rfl
  · intro hs
    rw [awakeAt_eq] at hs
    obtain ⟨v, hv⟩ := Option.isSome_iff_exists.mp hs
    rw [hdj, awakeAt_eq]
    simp only
    rw [awakeAtL_setAwake_self]
    by_cases hab : j.bodyB = j.bodyA
    · rw [hab] at hv ⊢
      rw [awakeAtL_setAwake_self, hv]
      rfl
    · rw [awakeAtL_setAwake_ne _ _ _ hab, hv]
      rfl
  · intro ha hb
    rw [hdj, awakeAt_eq]
    simp only
    rw [awakeAtL_setAwake_ne _ _ _ hb, awakeAtL_setAwake_ne _ _ _ ha, awakeAt_eq]
  · unfold createJoint
    rw [hl]
    simp only [Bool.false_eq_true, if_false]
    by_cases hc : jd.collideConnected = false <;> simp [hc, awakeAt]

theorem destroyJoint_wakes_createJoint_does_not_witness :
    awakeAt (destroyJoint c10World 0) 0 = some true ∧
    awakeAt (destroyJoint c10World 0) 1 = some true ∧
    awakeAt (destroyJoint c10World 0) 2 = awakeAt c10World 2 ∧
    awakeAt (createJoint c10World ⟨1, 2, false⟩).2 2 = awakeAt c10World 2 := by
  have h := destroyJoint_wakes_createJoint_does_not c10World rfl 0 ⟨0, 1, true⟩
    (by decide) ⟨1, 2, false⟩ 2
  exact ⟨h.1 (by decide), h.2.1 (by decide), h.2.2.1 (by decide) (by decide), h.2.2.2⟩

/-! ### Friction joint lemmas -/

lemma V2.lengthSquared_nonneg (v : V2) : 0 ≤ v.lengthSquared :=
  add_nonneg (mul_self_nonneg _) (mul_self_nonneg _)

lemma V2.length_le_of_sq_le {v : V2} {m : ℝ} (h : v.lengthSquared ≤ m * m)
    (hm : 0 ≤ m) : v.length ≤ m := by
  have := Real.sqrt_le_sqrt h
  rwa [Real.sqrt_mul_self hm] at this

lemma V2.lengthSquared_smul (s : ℝ) (v : V2) :
    (V2.smul s v).lengthSquared = s ^ 2 * v.lengthSquared := by
  unfold V2.smul V2.lengthSquared
  ring

lemma V2.length_smul (s : ℝ) (v : V2) : (V2.smul s v).length = |s| * v.length := by
  unfold V2.length
  rw [V2.lengthSquared_smul, Real.sqrt_mul (sq_nonneg s), Real.sqrt_sq_eq_abs]

lemma V2.smul_one (v : V2) : V2.smul 1 v = v := by
  cases v
  simp [V2.smul]

lemma abs_cb2Clamp_le (a m : ℝ) (hm : 0 ≤ m) : |cb2Clamp a (-m) m| ≤ m := by
  rw [abs_le, cb2Clamp]
  exact ⟨le_max_left _ _, max_le (by linarith) (min_le_right _ _)⟩

/-- The linear clamp of `SolveVelocityConstraints` bounds the length by `m`. -/
lemma clampedLinear_length_le (m : ℝ) (hm : 0 ≤ m) (v : V2) :
    (if v.lengthSquared > m * m then V2.smul m (V2.smul (1 / v.length) v)
     else v).length ≤ m := by
  split_ifs with h
  · have hls : 0 < v.lengthSquared := lt_of_le_of_lt (mul_nonneg hm hm) h
    have hlen : 0 < v.length := Real.sqrt_pos.mpr hls
    rw [V2.length_smul, V2.length_smul, abs_of_nonneg hm,
      abs_of_nonneg (le_of_lt (by positivity : (0 : ℝ) < 1 / v.length))]
    rw [one_div, inv_mul_cancel₀ hlen.ne', mul_one]
  · exact V2.length_le_of_sq_le (not_lt.mp h) hm

lemma solveVelocity_angularImpulse (st : SolverStep) (j : FJState) (vel : VelPair) :
    (solveVelocityConstraints st j vel).1.angularImpulse =
      cb2Clamp (j.angularImpulse + -j.angularMass * (vel.wB - vel.wA))
        (-(st.dt * j.maxTorque)) (st.dt * j.maxTorque) := rfl

lemma solveVelocity_linearImpulse (st : SolverStep) (j : FJState) (vel : VelPair) :
    ∃ lin1 : V2,
      (solveVelocityConstraints st j vel).1.linearImpulse =
        if lin1.lengthSquared > (st.dt * j.maxForce) * (st.dt * j.maxForce) then
          V2.smul (st.dt * j.maxForce) (V2.smul (1 / lin1.length) lin1)
        else lin1 :=
  ⟨_, rfl⟩

lemma solveVelocity_maxForce (st : SolverStep) (j : FJState) (vel : VelPair) :
    (solveVelocityConstraints st j vel).1.maxForce = j.maxForce := rfl

lemma solveVelocity_maxTorque (st : SolverStep) (j : FJState) (vel : VelPair) :
    (solveVelocityConstraints st j vel).1.maxTorque = j.maxTorque := rfl

/-- After one solve call the accumulated impulses satisfy the dt-scaled
limits, whatever the incoming state was. -/
lemma solveVelocity_bounds (st : SolverStep) (j : FJState) (vel : VelPair)
    (hdt : 0 ≤ st.dt) (hF : 0 ≤ j.maxForce) (hT : 0 ≤ j.maxTorque) :
    (solveVelocityConstraints st j vel).1.linearImpulse.length ≤ st.dt * j.maxForce ∧
    |(solveVelocityConstraints st j vel).1.angularImpulse| ≤ st.dt * j.maxTorque := by
  constructor
  · obtain ⟨lin1, hlin⟩ := solveVelocity_linearImpulse st j vel
    rw [hlin]
    exact clampedLinear_length_le _ (mul_nonneg hdt hF) lin1
  · rw [solveVelocity_angularImpulse]
    exact abs_cb2Clamp_le _ _ (mul_nonneg hdt hT)

lemma solveVelocityIter_maxForce (st : SolverStep) :
    ∀ (n : ℕ) (p : FJState × VelPair),
      (solveVelocityIter st n p).1.maxForce = p.1.maxForce := by
  intro n
  induction n with
  | zero => intro p; rfl
  | succ k ih =>
    intro p
    have : solveVelocityIter st (k + 1) p =
        solveVelocityIter st k (solveVelocityConstraints st p.1 p.2) := rfl
    rw [this, ih]
    rfl

lemma solveVelocityIter_maxTorque (st : SolverStep) :
    ∀ (n : ℕ) (p : FJState × VelPair),
      (solveVelocityIter st n p).1.maxTorque = p.1.maxTorque := by
  intro n
  induction n with
  | zero => intro p; rfl
  | succ k ih =>
    intro p
    have : solveVelocityIter st (k + 1) p =
        solveVelocityIter st k (solveVelocityConstraints st p.1 p.2) := rfl
    rw [this, ih]
    rfl

/-- Iterating the solve preserves the impulse bounds. -/
lemma solveVelocityIter_bounds (st : SolverStep) (hdt : 0 ≤ st.dt) :
    ∀ (k : ℕ) (p : FJState × VelPair),
      0 ≤ p.1.maxForce → 0 ≤ p.1.maxTorque →
      p.1.linearImpulse.length ≤ st.dt * p.1.maxForce →
      |p.1.angularImpulse| ≤ st.dt * p.1.maxTorque →
      (solveVelocityIter st k p).1.linearImpulse.length ≤ st.dt * p.1.maxForce ∧
      |(solveVelocityIter st k p).1.angularImpulse| ≤ st.dt * p.1.maxTorque := by
  intro k
  induction k with
  | zero => intro p _ _ h1 h2; exact ⟨h1, h2⟩
  | succ m ih =>
    intro p hF hT _ _
    have hstep : solveVelocityIter st (m + 1) p =
        solveVelocityIter st m (solveVelocityConstraints st p.1 p.2) := rfl
    have hb := solveVelocity_bounds st p.1 p.2 hdt hF hT
    have := ih (solveVelocityConstraints st p.1 p.2)
      (by rw [solveVelocity_maxForce]; exact hF)
      (by rw [solveVelocity_maxTorque]; exact hT)
      (by rw [solveVelocity_maxForce]; exact hb.1)
      (by rw [solveVelocity_maxTorque]; exact hb.2)
    rw [hstep]
    rw [solveVelocity_maxForce, solveVelocity_maxTorque] at this
    exact this

/-! ### C2 -/

/-- C2: for the friction joint, after any positive number of
`SolveVelocityConstraints` iterations within a step, the accumulated linear
impulse magnitude never exceeds `dt * maxForce` and the absolute accumulated
angular impulse never exceeds `dt * maxTorque`: the clamp is applied to the
accumulated impulse against a limit scaled by the step's `dt`, so the bound
holds whatever the incoming state was. -/
theorem friction_accumulated_impulse_bounded (st : SolverStep) (j : FJState)
    (vel : VelPair) (hdt : 0 ≤ st.dt) (hF : 0 ≤ j.maxForce) (hT : 0 ≤ j.maxTorque)
    (n : ℕ) (hn : 1 ≤ n) :
    (solveVelocityIter st n (j, vel)).1.linearImpulse.length ≤ st.dt * j.maxForce ∧
    |(solveVelocityIter st n (j, vel)).1.angularImpulse| ≤ st.dt * j.maxTorque := by
  cases n with
  | zero => omega
  | succ k =>
    have hstep : solveVelocityIter st (k + 1) (j, vel) =
        solveVelocityIter st k (solveVelocityConstraints st j vel) := rfl
    have hb := solveVelocity_bounds st j vel hdt hF hT
    have := solveVelocityIter_bounds st hdt k (solveVelocityConstraints st j vel)
      (by rw [solveVelocity_maxForce]; exact hF)
      (by rw [solveVelocity_maxTorque]; exact hT)
      (by rw [solveVelocity_maxForce]; exact hb.1)
      (by rw [solveVelocity_maxTorque]; exact hb.2)
    rw [hstep]
    rw [solveVelocity_maxForce, solveVelocity_maxTorque] at this
    exact this

theorem friction_accumulated_impulse_bounded_witness :
    ((0 : ℝ) ≤ (1 : ℝ) ∧ (0 : ℝ) ≤ fjZero.maxForce ∧ (0 : ℝ) ≤ fjZero.maxTorque ∧
      (1 : ℕ) ≤ 1) ∧
    ((solveVelocityIter ⟨1, 1, true⟩ 1 (fjZero, velZero)).1.linearImpulse.length ≤
        (1 : ℝ) * fjZero.maxForce ∧
      |(solveVelocityIter ⟨1, 1, true⟩ 1 (fjZero, velZero)).1.angularImpulse| ≤
        (1 : ℝ) * fjZero.maxTorque) :=
  ⟨⟨by norm_num, by simp [fjZero], by simp [fjZero], le_refl 1⟩,
    friction_accumulated_impulse_bounded ⟨1, 1, true⟩ fjZero velZero
      (by norm_num) (by simp [fjZero]) (by simp [fjZero]) 1 (le_refl 1)⟩

/-! ### C6 -/

/-- C6 counterexample: the claim defines `dtRatio` as "the ratio of this
step's 1/dt to the previous step's 1/dt".  With the previous step's
`inv_dt0 = 1` (previous dt = 1) and a current `dt = 2`, the source's
`Step` computes `dtRatio = m_inv_dt0 * dt = 2`, while the claimed ratio is
`(1/2) / 1 = 1/2`. -/
theorem dtRatio_definition_mismatch :
    (mkTimeStep { initialWorld with inv_dt0 := 1 } 2 8 3).dtr = 2 ∧
    specDtRatioOf 1 2 = 1 / 2 ∧
    (mkTimeStep { initialWorld with inv_dt0 := 1 } 2 8 3).dtr ≠ specDtRatioOf 1 2 := by
  refine ⟨?_, ?_, ?_⟩ <;> norm_num [mkTimeStep, specDtRatioOf]

/-- C6 (amended): `Step` computes `dtRatio = m_inv_dt0 * dt`, i.e. this
step's `dt` times the previous step's `1/dt` (the reciprocal of the ratio
the claim names).  In `InitVelocityConstraints` with warm starting, the
prior accumulated impulses are rescaled by `dtRatio` and reapplied to both
bodies' velocities; with warm starting disabled they are zeroed and the
velocities are untouched.  For `dtRatio = 1` (identical consecutive `dt`),
the accumulated impulse carried into `InitVelocityConstraints` equals the
previous step's final accumulated impulse exactly. -/
theorem warm_start_rescales_and_carries (w : WWorld) (dt : ℚ) (vi pIter : ℕ)
    (st : SolverStep) (bA bB : BodyParams) (aA aB : ℝ) (vel : VelPair) (j : FJState) :
    (mkTimeStep w dt vi pIter).dtr = w.inv_dt0 * dt ∧
    (st.warmStarting = true →
      (initVelocityConstraints st bA bB aA aB vel j).1.linearImpulse =
          V2.smul st.dtr j.linearImpulse ∧
      (initVelocityConstraints st bA bB aA aB vel j).1.angularImpulse =
          st.dtr * j.angularImpulse ∧
      (initVelocityConstraints st bA bB aA aB vel j).2.vA =
          vel.vA.sub (V2.smul bA.invMass (V2.smul st.dtr j.linearImpulse)) ∧
      (initVelocityConstraints st bA bB aA aB vel j).2.vB =
          vel.vB.add (V2.smul bB.invMass (V2.smul st.dtr j.linearImpulse))) ∧
    (st.warmStarting = true → st.dtr = 1 →
      (initVelocityConstraints st bA bB aA aB vel j).1.linearImpulse =
          j.linearImpulse ∧
      (initVelocityConstraints st bA bB aA aB vel j).1.angularImpulse =
          j.angularImpulse) ∧
    (st.warmStarting = false →
      (initVelocityConstraints st bA bB aA aB vel j).1.linearImpulse = V2.zero ∧
      (initVelocityConstraints st bA bB aA aB vel j).1.angularImpulse = 0 ∧
      (initVelocityConstraints st bA bB aA aB vel j).2 = vel) := by
  refine ⟨rfl, ?_, ?_, ?_⟩
  · intro hw
    unfold initVelocityConstraints
    rw [hw]
    exact ⟨rfl, rfl, rfl, rfl⟩
  · intro hw h1
    unfold initVelocityConstraints
    rw [hw]
    simp only [if_true]
    rw [h1, V2.smul_one, one_mul]
    exact ⟨rfl, rfl⟩
  · intro hw
    unfold initVelocityConstraints
    rw [hw]
    exact ⟨rfl, rfl, rfl⟩

theorem warm_start_rescales_and_carries_witness :
    (mkTimeStep initialWorld 1 8 3).dtr = initialWorld.inv_dt0 * 1 ∧
    (initVelocityConstraints ⟨1, 1, true⟩ ⟨V2.zero, 0, 0⟩ ⟨V2.zero, 0, 0⟩
        0 0 velZero fjZero).1.linearImpulse = fjZero.linearImpulse ∧
    (initVelocityConstraints ⟨1, 1, true⟩ ⟨V2.zero, 0, 0⟩ ⟨V2.zero, 0, 0⟩
        0 0 velZero fjZero).1.angularImpulse = fjZero.angularImpulse := by
  have h := warm_start_rescales_and_carries initialWorld 1 8 3 ⟨1, 1, true⟩
    ⟨V2.zero, 0, 0⟩ ⟨V2.zero, 0, 0⟩ 0 0 velZero fjZero
  exact ⟨h.1, (h.2.2.1 rfl rfl).1, (h.2.2.1 rfl rfl).2⟩

/-! ### Island decomposition: generic fold lemmas -/

lemma foldl_pres {α β : Type} (f : α → β → α) (P : α → Prop)
    (mono : ∀ s y, P s → P (f s y)) :
    ∀ (l : List β) (s : α), P s → P (l.foldl f s) := by
  intro l
  induction l with
  | nil => intro s h; exact h
  | cons y l ih => intro s h; exact ih (f s y) (mono s y h)

lemma foldl_establish {α β : Type} (f : α → β → α) (P : α → Prop) (x : β)
    (est : ∀ s, P (f s x)) (mono : ∀ s y, P s → P (f s y)) :
    ∀ (l : List β) (s : α), x ∈ l → P (l.foldl f s) := by
  intro l
  induction l with
  | nil => intro s h; cases h
  | cons y l ih =>
    intro s h
    rcases List.mem_cons.mp h with h | h
    · subst h
      exact foldl_pres f P mono l (f s x) (est s)
    · exact ih (f s y) h

lemma foldl_le {α β : Type} (g : α → ℕ) (f : α → β → α)
    (h : ∀ s x, g (f s x) ≤ g s) :
    ∀ (l : List β) (s : α), g (l.foldl f s) ≤ g s := by
  intro l
  induction l with
  | nil => intro s; exact le_refl _
  | cons y l ih => intro s; exact le_trans (ih (f s y)) (h s y)

/-! ### Island decomposition: step-function case analyses -/

lemma contactStep_cases (w : WorldM) (b : ℕ) (s : SState) (ci : ℕ) :
    contactStep w b s ci = s ∨
    ∃ c, w.contacts.get? ci = some c ∧ (c.a = b ∨ c.b = b) ∧ ci ∉ s.cflag ∧
      cOK c = true ∧
      ((contactStep w b s ci =
          { s with cflag := insert ci s.cflag, islC := s.islC ++ [ci] } ∧
        c.otherEnd b ∈ s.bflag) ∨
       (contactStep w b s ci =
          { s with cflag := insert ci s.cflag, islC := s.islC ++ [ci],
                   bflag := insert (c.otherEnd b) s.bflag,
                   stack := c.otherEnd b :: s.stack } ∧
        c.otherEnd b ∉ s.bflag)) := by
  unfold contactStep
  match hget : w.contacts.get? ci with
  | none => exact Or.inl rfl
  | some c =>
    by_cases hinc : c.a = b ∨ c.b = b
    · by_cases hfl : ci ∈ s.cflag
      · left; simp [hinc, hfl]
      · by_cases hok : cOK c = true
        · right
          refine ⟨c, rfl, hinc, hfl, hok, ?_⟩
          by_cases hob : c.otherEnd b ∈ s.bflag
          · left
            constructor
            · simp [hinc, hfl, hok, hob]
            · exact hob
          · right
            constructor
            · simp [hinc, hfl, hok, hob]
            · exact hob
        · left; simp [hinc, hfl, hok]
    · left; simp [hinc]

lemma jointStep_cases (w : WorldM) (b : ℕ) (s : SState) (ji : ℕ) :
    jointStep w b s ji = s ∨
    ∃ j, w.joints.get? ji = some j ∧ (j.a = b ∨ j.b = b) ∧ ji ∉ s.jflag ∧
      (bdy w (j.otherEnd b)).active = true ∧
      ((jointStep w b s ji =
          { s with jflag := insert ji s.jflag, islJ := s.islJ ++ [ji] } ∧
        j.otherEnd b ∈ s.bflag) ∨
       (jointStep w b s ji =
          { s with jflag := insert ji s.jflag, islJ := s.islJ ++ [ji],
                   bflag := insert (j.otherEnd b) s.bflag,
                   stack := j.otherEnd b :: s.stack } ∧
        j.otherEnd b ∉ s.bflag)) := by
  unfold jointStep
  match hget : w.joints.get? ji with
  | none => exact Or.inl rfl
  | some j =>
    by_cases hinc : j.a = b ∨ j.b = b
    · by_cases hfl : ji ∈ s.jflag
      · left; simp [hinc, hfl]
      · by_cases hact : (bdy w (j.otherEnd b)).active = true
        · right
          refine ⟨j, rfl, hinc, hfl, hact, ?_⟩
          by_cases hob : j.otherEnd b ∈ s.bflag
          · left
            constructor
            · simp [hinc, hfl, hact, hob]
            · exact hob
          · right
            constructor
            · simp [hinc, hfl, hact, hob]
            · exact hob
        · left; simp [hinc, hfl, hact]
    · left; simp [hinc]

lemma contactStep_mem_cflag (w : WorldM) (b : ℕ) (s : SState) (ci : ℕ) (c : ContactM)
    (hget : w.contacts.get? ci = some c) (hinc : c.a = b ∨ c.b = b)
    (hok : cOK c = true) : ci ∈ (contactStep w b s ci).cflag := by
  rcases contactStep_cases w b s ci with h | ⟨c2, hget2, _, hfl2, _, h | h⟩
  · rw [h]
    unfold contactStep at h
    rw [hget] at h
    simp only [hinc, not_true, if_true, if_false] at h
    by_cases hfl : ci ∈ s.cflag
    · exact hfl
    · exfalso
      rw [if_neg hfl, if_neg (by simp [hok])] at h
      by_cases hob : c.otherEnd b ∈ s.bflag
      · rw [if_pos hob] at h
        have := congrArg SState.islC h
        simp at this
      · rw [if_neg hob] at h
        have := congrArg SState.islC h
        simp at this
  · rw [h.1]; exact Finset.mem_insert_self _ _
  · rw [h.1]; exact Finset.mem_insert_self _ _

lemma jointStep_mem_jflag (w : WorldM) (b : ℕ) (s : SState) (ji : ℕ) (j : JointM)
    (hget : w.joints.get? ji = some j) (hinc : j.a = b ∨ j.b = b)
    (hact : (bdy w (j.otherEnd b)).active = true) :
    ji ∈ (jointStep w b s ji).jflag := by
  rcases jointStep_cases w b s ji with h | ⟨j2, hget2, _, hfl2, _, h | h⟩
  · rw [h]
    unfold jointStep at h
    rw [hget] at h
    simp only [hinc, not_true, if_true, if_false] at h
    by_cases hfl : ji ∈ s.jflag
    · exact hfl
    · exfalso
      rw [if_neg hfl, if_neg (by simp [hact])] at h
      by_cases hob : j.otherEnd b ∈ s.bflag
      · rw [if_pos hob] at h
        have := congrArg SState.islJ h
        simp at this
      · rw [if_neg hob] at h
        have := congrArg SState.islJ h
        simp at this
  · rw [h.1]; exact Finset.mem_insert_self _ _
  · rw [h.1]; exact Finset.mem_insert_self _ _

lemma ContactM.otherEnd_mem (c : ContactM) (b : ℕ) :
    c.otherEnd b = c.a ∨ c.otherEnd b = c.b := by
  unfold ContactM.otherEnd
  split_ifs <;> simp

lemma JointM.otherEnd_mem_joint (j : JointM) (b : ℕ) :
    j.otherEnd b = j.a ∨ j.otherEnd b = j.b := by
  unfold JointM.otherEnd
  split_ifs <;> simp

/-- Walking a joint edge from `b` and back: when the other end differs from
`b`, the joint is incident to it and its other end is `b` again. -/
lemma JointM.otherEnd_flip (j : JointM) (b : ℕ) (hinc : j.a = b ∨ j.b = b)
    (hne : j.otherEnd b ≠ b) :
    (j.a = j.otherEnd b ∨ j.b = j.otherEnd b) ∧ j.otherEnd (j.otherEnd b) = b := by
  unfold JointM.otherEnd at hne ⊢
  rcases hinc with h | h
  · rw [if_pos h] at hne ⊢
    rw [if_neg (by rw [h]; exact fun hh => hne hh.symm)]
    exact ⟨Or.inr rfl, h⟩
  · by_cases ha : j.a = b
    · rw [if_pos ha] at hne ⊢
      rw [if_neg (by rw [ha]; exact fun hh => hne hh.symm)]
      exact ⟨Or.inr rfl, ha⟩
    · rw [if_neg ha] at hne ⊢
      rw [if_pos rfl]
      exact ⟨Or.inl rfl, h⟩

/-- Contact-edge steps preserve the DFS invariant. -/
lemma contactStep_inv (w : WorldM) (p : PassState) (b : ℕ) (s : SState) (ci : ℕ)
    (hwf : wfWorld w) (hp : PassInv w p) (hb : b ∈ s.islB) (h : DfsInv w p s) :
    DfsInv w p (contactStep w b s ci) := by
  rcases contactStep_cases w b s ci with he | ⟨c, hget, hinc, hfl, hok, hcase⟩
  · rw [he]; exact h
  · have hcmem : c ∈ w.contacts := List.get?_mem hget
    have hoe : ∀ e, (c.a = e ∨ c.b = e) → e ≠ b → c.otherEnd b = e := by
      intro e he hne
      unfold ContactM.otherEnd
      by_cases hab : c.a = b
      · rw [if_pos hab]
        rcases he with he | he
        · exact absurd (by rw [← he]; exact hab) hne
        · exact he
      · rw [if_neg hab]
        rcases hinc with hi | hi
        · exact absurd hi hab
        · rcases he with he | he
          · exact he
          · exact absurd (by rw [← he]; exact hi) hne
    have hobcases : c.otherEnd b ∈ s.bflag →
        c.otherEnd b ∈ s.islB ∨ c.otherEnd b ∈ s.stack := by
      intro hmem
      rcases (h.bflagIff _).mp hmem with hpb | hx | hx
      · exfalso
        obtain ⟨k, I, hkI, hxI⟩ := hp.flagIsland _ hpb
        have hns := hp.staticsClear _ hpb
        have hincother : c.a = c.otherEnd b ∨ c.b = c.otherEnd b := by
          rcases ContactM.otherEnd_mem c b with hh | hh
          · exact Or.inl hh.symm
          · exact Or.inr hh.symm
        have h1 := hp.closureC k I hkI _ hxI hns ci c hget hok hincother
        have h2 := hp.islandCFlag k I hkI _ h1
        exact hfl ((h.cflagIff ci).mpr (Or.inl h2))
      · exact Or.inl hx
      · exact Or.inr hx
    rcases hcase with ⟨he, hob⟩ | ⟨he, hob⟩
    · -- other body already flagged: only the contact is added
      rw [he]
      have hother := hobcases hob
      have hkey : ∀ e, c.a = e ∨ c.b = e → e ∈ s.islB ∨ e ∈ s.stack := by
        intro e hee
        by_cases hne : e = b
        · subst hne; exact Or.inl hb
        · rw [← hoe e hee hne]; exact hother
      refine ⟨h.bflagIff, ?_, h.jflagIff, h.newB, ?_, h.newJ, h.activeB, ?_, h.endsJ⟩
      · intro ci2
        simp only [Finset.mem_insert, List.mem_append, List.mem_singleton]
        rw [h.cflagIff ci2]
        tauto
      · intro ci2 hci2
        rcases List.mem_append.mp hci2 with hcc | hcc
        · exact h.newC ci2 hcc
        · rw [List.mem_singleton] at hcc
          subst hcc
          intro hpc
          exact hfl ((h.cflagIff ci2).mpr (Or.inl hpc))
      · intro ci2 hci2
        rcases List.mem_append.mp hci2 with hcc | hcc
        · exact h.endsC ci2 hcc
        · rw [List.mem_singleton] at hcc
          subst hcc
          exact ⟨c, hget, hok, hkey c.a (Or.inl rfl), hkey c.b (Or.inr rfl)⟩
    · -- contact added and the other body pushed
      rw [he]
      have hkey : ∀ e, c.a = e ∨ c.b = e →
          e ∈ s.islB ∨ e ∈ c.otherEnd b :: s.stack := by
        intro e hee
        by_cases hne : e = b
        · subst hne; exact Or.inl hb
        · rw [← hoe e hee hne]; exact Or.inr (List.mem_cons_self _ _)
      refine ⟨?_, ?_, h.jflagIff, ?_, ?_, h.newJ, ?_, ?_, ?_⟩
      · intro x
        simp only [Finset.mem_insert, List.mem_cons]
        rw [h.bflagIff x]
        tauto
      · intro ci2
        simp only [Finset.mem_insert, List.mem_append, List.mem_singleton]
        rw [h.cflagIff ci2]
        tauto
      · intro x hx
        rcases hx with hx | hx
        · exact h.newB x (Or.inl hx)
        · rcases List.mem_cons.mp hx with hx | hx
          · subst hx
            intro hpb
            exact hob ((h.bflagIff _).mpr (Or.inl hpb))
          · exact h.newB x (Or.inr hx)
      · intro ci2 hci2
        rcases List.mem_append.mp hci2 with hcc | hcc
        · exact h.newC ci2 hcc
        · rw [List.mem_singleton] at hcc
          subst hcc
          intro hpc
          exact hfl ((h.cflagIff ci2).mpr (Or.inl hpc))
      · intro x hx
        rcases hx with hx | hx
        · exact h.activeB x (Or.inl hx)
        · rcases List.mem_cons.mp hx with hx | hx
          · subst hx
            obtain ⟨haa, hbb⟩ := hwf c hcmem
            rcases ContactM.otherEnd_mem c b with hh | hh
            · rw [hh]; exact haa
            · rw [hh]; exact hbb
          · exact h.activeB x (Or.inr hx)
      · intro ci2 hci2
        rcases List.mem_append.mp hci2 with hcc | hcc
        · obtain ⟨c2, hg2, hok2, ha2, hb2⟩ := h.endsC ci2 hcc
          exact ⟨c2, hg2, hok2, ha2.imp_right (List.mem_cons_of_mem _),
            hb2.imp_right (List.mem_cons_of_mem _)⟩
        · rw [List.mem_singleton] at hcc
          subst hcc
          exact ⟨c, hget, hok, hkey c.a (Or.inl rfl), hkey c.b (Or.inr rfl)⟩
      · intro ji hji
        obtain ⟨j, hg2, ha2, hb2⟩ := h.endsJ ji hji
        exact ⟨j, hg2, ha2.imp_right (List.mem_cons_of_mem _),
          hb2.imp_right (List.mem_cons_of_mem _)⟩

/-- Joint-edge steps preserve the DFS invariant. -/
lemma jointStep_inv (w : WorldM) (p : PassState) (b : ℕ) (s : SState) (ji : ℕ)
    (hp : PassInv w p) (hb : b ∈ s.islB) (h : DfsInv w p s) :
    DfsInv w p (jointStep w b s ji) := by
  rcases jointStep_cases w b s ji with he | ⟨j, hget, hinc, hfl, hact, hcase⟩
  · rw [he]; exact h
  · have hoe : ∀ e, (j.a = e ∨ j.b = e) → e ≠ b → j.otherEnd b = e := by
      intro e he hne
      unfold JointM.otherEnd
      by_cases hab : j.a = b
      · rw [if_pos hab]
        rcases he with he | he
        · exact absurd (by rw [← he]; exact hab) hne
        · exact he
      · rw [if_neg hab]
        rcases hinc with hi | hi
        · exact absurd hi hab
        · rcases he with he | he
          · exact he
          · exact absurd (by rw [← he]; exact hi) hne
    have hobcases : j.otherEnd b ∈ s.bflag →
        j.otherEnd b ∈ s.islB ∨ j.otherEnd b ∈ s.stack := by
      intro hmem
      rcases (h.bflagIff _).mp hmem with hpb | hx | hx
      · exfalso
        by_cases hne : j.otherEnd b = b
        · rw [hne] at hpb
          exact h.newB b (Or.inl hb) hpb
        · obtain ⟨hincflip, hflip⟩ := JointM.otherEnd_flip j b hinc hne
          obtain ⟨k, I, hkI, hxI⟩ := hp.flagIsland _ hpb
          have hns := hp.staticsClear _ hpb
          have hactb : (bdy w (j.otherEnd (j.otherEnd b))).active = true := by
            rw [hflip]
            exact h.activeB b (Or.inl hb)
          have h1 := hp.closureJ k I hkI _ hxI hns ji j hget hincflip hactb
          have h2 := hp.islandJFlag k I hkI _ h1
          exact hfl ((h.jflagIff ji).mpr (Or.inl h2))
      · exact Or.inl hx
      · exact Or.inr hx
    rcases hcase with ⟨he, hob⟩ | ⟨he, hob⟩
    · -- other body already flagged: only the joint is added
      rw [he]
      have hother := hobcases hob
      have hkey : ∀ e, j.a = e ∨ j.b = e → e ∈ s.islB ∨ e ∈ s.stack := by
        intro e hee
        by_cases hne : e = b
        · subst hne; exact Or.inl hb
        · rw [← hoe e hee hne]; exact hother
      refine ⟨h.bflagIff, h.cflagIff, ?_, h.newB, h.newC, ?_, h.activeB, h.endsC, ?_⟩
      · intro ji2
        simp only [Finset.mem_insert, List.mem_append, List.mem_singleton]
        rw [h.jflagIff ji2]
        tauto
      · intro ji2 hji2
        rcases List.mem_append.mp hji2 with hcc | hcc
        · exact h.newJ ji2 hcc
        · rw [List.mem_singleton] at hcc
          subst hcc
          intro hpc
          exact hfl ((h.jflagIff ji2).mpr (Or.inl hpc))
      · intro ji2 hji2
        rcases List.mem_append.mp hji2 with hcc | hcc
        · exact h.endsJ ji2 hcc
        · rw [List.mem_singleton] at hcc
          subst hcc
          exact ⟨j, hget, hkey j.a (Or.inl rfl), hkey j.b (Or.inr rfl)⟩
    · -- joint added and the other body pushed
      rw [he]
      have hkey : ∀ e, j.a = e ∨ j.b = e →
          e ∈ s.islB ∨ e ∈ j.otherEnd b :: s.stack := by
        intro e hee
        by_cases hne : e = b
        · subst hne; exact Or.inl hb
        · rw [← hoe e hee hne]; exact Or.inr (List.mem_cons_self _ _)
      refine ⟨?_, h.cflagIff, ?_, ?_, h.newC, ?_, ?_, ?_, ?_⟩
      · intro x
        simp only [Finset.mem_insert, List.mem_cons]
        rw [h.bflagIff x]
        tauto
      · intro ji2
        simp only [Finset.mem_insert, List.mem_append, List.mem_singleton]
        rw [h.jflagIff ji2]
        tauto
      · intro x hx
        rcases hx with hx | hx
        · exact h.newB x (Or.inl hx)
        · rcases List.mem_cons.mp hx with hx | hx
          · subst hx
            intro hpb
            exact hob ((h.bflagIff _).mpr (Or.inl hpb))
          · exact h.newB x (Or.inr hx)
      · intro ji2 hji2
        rcases List.mem_append.mp hji2 with hcc | hcc
        · exact h.newJ ji2 hcc
        · rw [List.mem_singleton] at hcc
          subst hcc
          intro hpc
          exact hfl ((h.jflagIff ji2).mpr (Or.inl hpc))
      · intro x hx
        rcases hx with hx | hx
        · exact h.activeB x (Or.inl hx)
        · rcases List.mem_cons.mp hx with hx | hx
          · subst hx
            exact hact
          · exact h.activeB x (Or.inr hx)
      · intro ci2 hci2
        obtain ⟨c2, hg2, hok2, ha2, hb2⟩ := h.endsC ci2 hci2
        exact ⟨c2, hg2, hok2, ha2.imp_right (List.mem_cons_of_mem _),
          hb2.imp_right (List.mem_cons_of_mem _)⟩
      · intro ji2 hji2
        rcases List.mem_append.mp hji2 with hcc | hcc
        · obtain ⟨j2, hg2, ha2, hb2⟩ := h.endsJ ji2 hcc
          exact ⟨j2, hg2, ha2.imp_right (List.mem_cons_of_mem _),
            hb2.imp_right (List.mem_cons_of_mem _)⟩
        · rw [List.mem_singleton] at hcc
          subst hcc
          exact ⟨j, hget, hkey j.a (Or.inl rfl), hkey j.b (Or.inr rfl)⟩

/-! ### Island decomposition: per-fold monotonicity and completeness -/

lemma contactStep_islB (w : WorldM) (b : ℕ) (s : SState) (ci : ℕ) :
    (contactStep w b s ci).islB = s.islB := by
  rcases contactStep_cases w b s ci with he | ⟨c, _, _, _, _, ⟨he, _⟩ | ⟨he, _⟩⟩ <;> rw [he]

lemma jointStep_islB (w : WorldM) (b : ℕ) (s : SState) (ji : ℕ) :
    (jointStep w b s ji).islB = s.islB := by
  rcases jointStep_cases w b s ji with he | ⟨j, _, _, _, _, ⟨he, _⟩ | ⟨he, _⟩⟩ <;> rw [he]

lemma contactStep_cflag_mono (w : WorldM) (b : ℕ) (s : SState) (ci : ℕ) :
    s.cflag ⊆ (contactStep w b s ci).cflag := by
  rcases contactStep_cases w b s ci with he | ⟨c, _, _, _, _, ⟨he, _⟩ | ⟨he, _⟩⟩ <;>
    rw [he] <;> exact Finset.subset_insert _ _

lemma contactStep_jflag (w : WorldM) (b : ℕ) (s : SState) (ci : ℕ) :
    (contactStep w b s ci).jflag = s.jflag := by
  rcases contactStep_cases w b s ci with he | ⟨c, _, _, _, _, ⟨he, _⟩ | ⟨he, _⟩⟩ <;> rw [he]

lemma jointStep_cflag (w : WorldM) (b : ℕ) (s : SState) (ji : ℕ) :
    (jointStep w b s ji).cflag = s.cflag := by
  rcases jointStep_cases w b s ji with he | ⟨j, _, _, _, _, ⟨he, _⟩ | ⟨he, _⟩⟩ <;> rw [he]

lemma jointStep_jflag_mono (w : WorldM) (b : ℕ) (s : SState) (ji : ℕ) :
    s.jflag ⊆ (jointStep w b s ji).jflag := by
  rcases jointStep_cases w b s ji with he | ⟨j, _, _, _, _, ⟨he, _⟩ | ⟨he, _⟩⟩ <;>
    rw [he] <;> exact Finset.subset_insert _ _

lemma contactStep_stack_mono (w : WorldM) (b : ℕ) (s : SState) (ci x : ℕ)
    (hx : x ∈ s.stack) : x ∈ (contactStep w b s ci).stack := by
  rcases contactStep_cases w b s ci with he | ⟨c, _, _, _, _, ⟨he, _⟩ | ⟨he, _⟩⟩ <;> rw [he]
  · exact hx
  · exact hx
  · exact List.mem_cons_of_mem _ hx

lemma jointStep_stack_mono (w : WorldM) (b : ℕ) (s : SState) (ji x : ℕ)
    (hx : x ∈ s.stack) : x ∈ (jointStep w b s ji).stack := by
  rcases jointStep_cases w b s ji with he | ⟨j, _, _, _, _, ⟨he, _⟩ | ⟨he, _⟩⟩ <;> rw [he]
  · exact hx
  · exact hx
  · exact List.mem_cons_of_mem _ hx

lemma processContacts_inv (w : WorldM) (p : PassState) (b : ℕ) (s : SState)
    (hwf : wfWorld w) (hp : PassInv w p) (hb : b ∈ s.islB) (h : DfsInv w p s) :
    DfsInv w p (processContacts w b s) ∧ b ∈ (processContacts w b s).islB := by
  unfold processContacts
  refine foldl_pres _ (fun t => DfsInv w p t ∧ b ∈ t.islB) ?_ _ s ⟨h, hb⟩
  rintro t y ⟨h1, h2⟩
  exact ⟨contactStep_inv w p b t y hwf hp h2 h1,
    by rw [contactStep_islB]; exact h2⟩

lemma processJoints_inv (w : WorldM) (p : PassState) (b : ℕ) (s : SState)
    (hp : PassInv w p) (hb : b ∈ s.islB) (h : DfsInv w p s) :
    DfsInv w p (processJoints w b s) ∧ b ∈ (processJoints w b s).islB := by
  unfold processJoints
  refine foldl_pres _ (fun t => DfsInv w p t ∧ b ∈ t.islB) ?_ _ s ⟨h, hb⟩
  rintro t y ⟨h1, h2⟩
  exact ⟨jointStep_inv w p b t y hp h2 h1,
    by rw [jointStep_islB]; exact h2⟩

lemma processContacts_complete (w : WorldM) (b : ℕ) (s : SState) (ci : ℕ)
    (c : ContactM) (hget : w.contacts.get? ci = some c) (hinc : c.a = b ∨ c.b = b)
    (hok : cOK c = true) : ci ∈ (processContacts w b s).cflag := by
  unfold processContacts
  obtain ⟨hlt, -⟩ := List.get?_eq_some.mp hget
  exact foldl_establish _ (fun t => ci ∈ t.cflag) ci
    (fun t => contactStep_mem_cflag w b t ci c hget hinc hok)
    (fun t y hm => contactStep_cflag_mono w b t y hm)
    _ s (List.mem_range.mpr hlt)

lemma processJoints_complete (w : WorldM) (b : ℕ) (s : SState) (ji : ℕ)
    (j : JointM) (hget : w.joints.get? ji = some j) (hinc : j.a = b ∨ j.b = b)
    (hact : (bdy w (j.otherEnd b)).active = true) :
    ji ∈ (processJoints w b s).jflag := by
  unfold processJoints
  obtain ⟨hlt, -⟩ := List.get?_eq_some.mp hget
  exact foldl_establish _ (fun t => ji ∈ t.jflag) ji
    (fun t => jointStep_mem_jflag w b t ji j hget hinc hact)
    (fun t y hm => jointStep_jflag_mono w b t y hm)
    _ s (List.mem_range.mpr hlt)

lemma processContacts_cflag_mono (w : WorldM) (b : ℕ) (s : SState) :
    s.cflag ⊆ (processContacts w b s).cflag := by
  unfold processContacts
  have : ∀ (l : List ℕ) (t : SState), t.cflag ⊆ (l.foldl (contactStep w b) t).cflag := by
    intro l
    induction l with
    | nil => intro t; exact Finset.Subset.refl _
    | cons y l ih =>
      intro t
      exact Finset.Subset.trans (contactStep_cflag_mono w b t y) (ih _)
  exact this _ s

lemma processContacts_jflag (w : WorldM) (b : ℕ) (s : SState) :
    (processContacts w b s).jflag = s.jflag := by
  unfold processContacts
  have : ∀ (l : List ℕ) (t : SState), (l.foldl (contactStep w b) t).jflag = t.jflag := by
    intro l
    induction l with
    | nil => intro t; rfl
    | cons y l ih =>
      intro t
      rw [List.foldl_cons, ih, contactStep_jflag]
  exact this _ s

lemma processJoints_cflag (w : WorldM) (b : ℕ) (s : SState) :
    (processJoints w b s).cflag = s.cflag := by
  unfold processJoints
  have : ∀ (l : List ℕ) (t : SState), (l.foldl (jointStep w b) t).cflag = t.cflag := by
    intro l
    induction l with
    | nil => intro t; rfl
    | cons y l ih =>
      intro t
      rw [List.foldl_cons, ih, jointStep_cflag]
  exact this _ s

lemma processJoints_jflag_mono (w : WorldM) (b : ℕ) (s : SState) :
    s.jflag ⊆ (processJoints w b s).jflag := by
  unfold processJoints
  have : ∀ (l : List ℕ) (t : SState), t.jflag ⊆ (l.foldl (jointStep w b) t).jflag := by
    intro l
    induction l with
    | nil => intro t; exact Finset.Subset.refl _
    | cons y l ih =>
      intro t
      exact Finset.Subset.trans (jointStep_jflag_mono w b t y) (ih _)
  exact this _ s

lemma processContacts_stack_mono (w : WorldM) (b : ℕ) (s : SState) (x : ℕ)
    (hx : x ∈ s.stack) : x ∈ (processContacts w b s).stack := by
  unfold processContacts
  exact foldl_pres _ (fun t => x ∈ t.stack)
    (fun t y hm => contactStep_stack_mono w b t y x hm) _ s hx

lemma processJoints_stack_mono (w : WorldM) (b : ℕ) (s : SState) (x : ℕ)
    (hx : x ∈ s.stack) : x ∈ (processJoints w b s).stack := by
  unfold processJoints
  exact foldl_pres _ (fun t => x ∈ t.stack)
    (fun t y hm => jointStep_stack_mono w b t y x hm) _ s hx

/-! ### Island decomposition: the DFS loop -/

lemma processContacts_islB (w : WorldM) (b : ℕ) (s : SState) :
    (processContacts w b s).islB = s.islB := by
  unfold processContacts
  have : ∀ (l : List ℕ) (t : SState), (l.foldl (contactStep w b) t).islB = t.islB := by
    intro l
    induction l with
    | nil => intro t; rfl
    | cons y l ih => intro t; rw [List.foldl_cons, ih, contactStep_islB]
  exact this _ s

lemma processJoints_islB (w : WorldM) (b : ℕ) (s : SState) :
    (processJoints w b s).islB = s.islB := by
  unfold processJoints
  have : ∀ (l : List ℕ) (t : SState), (l.foldl (jointStep w b) t).islB = t.islB := by
    intro l
    induction l with
    | nil => intro t; rfl
    | cons y l ih => intro t; rw [List.foldl_cons, ih, jointStep_islB]
  exact this _ s

lemma dfsLoop_zero (w : WorldM) (s : SState) : dfsLoop w 0 s = s := rfl

lemma dfsLoop_succ_nil (w : WorldM) (n : ℕ) (s : SState) (hst : s.stack = []) :
    dfsLoop w (n + 1) s = s := by
  unfold dfsLoop
  rw [hst]

lemma dfsLoop_succ_cons (w : WorldM) (n : ℕ) (s : SState) (b : ℕ) (rest : List ℕ)
    (hst : s.stack = b :: rest) :
    dfsLoop w (n + 1) s =
      if (bdy w b).btype = BType.bstatic then
        dfsLoop w n (popState s b rest)
      else
        dfsLoop w n (processJoints w b (processContacts w b (popState s b rest))) := by
  conv_lhs => rw [dfsLoop, hst]
  rfl

/-- Popping the stack head into the island preserves the DFS invariant. -/
lemma pop_inv (w : WorldM) (p : PassState) (s : SState) (b : ℕ) (rest : List ℕ)
    (hst : s.stack = b :: rest) (h : DfsInv w p s) :
    DfsInv w p (popState s b rest) := by
  have hmem : ∀ x : ℕ, (x ∈ s.islB ++ [b] ∨ x ∈ rest) ↔ (x ∈ s.islB ∨ x ∈ s.stack) := by
    intro x
    rw [hst]
    simp only [List.mem_append, List.mem_singleton, List.mem_cons]
    tauto
  refine ⟨?_, h.cflagIff, h.jflagIff, ?_, h.newC, h.newJ, ?_, ?_, ?_⟩
  · intro x
    rw [show (popState s b rest).bflag = s.bflag from rfl]
    rw [show (popState s b rest).islB = s.islB ++ [b] from rfl]
    rw [show (popState s b rest).stack = rest from rfl]
    rw [h.bflagIff x]
    have := hmem x
    tauto
  · intro x hx
    exact h.newB x ((hmem x).mp hx)
  · intro x hx
    exact h.activeB x ((hmem x).mp hx)
  · intro ci hci
    obtain ⟨c, hg, hok, ha, hbb⟩ := h.endsC ci hci
    exact ⟨c, hg, hok, (hmem c.a).mpr ha, (hmem c.b).mpr hbb⟩
  · intro ji hji
    obtain ⟨j, hg, ha, hbb⟩ := h.endsJ ji hji
    exact ⟨j, hg, (hmem j.a).mpr ha, (hmem j.b).mpr hbb⟩

/-- The DFS loop preserves the invariant and the closure property. -/
lemma dfsLoop_inv (w : WorldM) (p : PassState) (hwf : wfWorld w) (hp : PassInv w p) :
    ∀ (fuel : ℕ) (s : SState), DfsInv w p s → DfsClosure w s →
      DfsInv w p (dfsLoop w fuel s) ∧ DfsClosure w (dfsLoop w fuel s) := by
  intro fuel
  induction fuel with
  | zero => intro s h hc; exact ⟨h, hc⟩
  | succ n ih =>
    intro s h hc
    match hst : s.stack with
    | [] =>
      rw [dfsLoop_succ_nil w n s hst]
      exact ⟨h, hc⟩
    | b :: rest =>
      rw [dfsLoop_succ_cons w n s b rest hst]
      have h1 := pop_inv w p s b rest hst h
      by_cases hstatic : (bdy w b).btype = BType.bstatic
      · rw [if_pos hstatic]
        apply ih
        · exact h1
        · intro x hx hxs hxstack
          rcases List.mem_append.mp hx with hxo | hxb
          · refine hc x hxo hxs ?_
            rw [hst]
            intro hxin
            rcases List.mem_cons.mp hxin with hxb2 | hxr
            · rw [hxb2] at hxs
              exact hxs hstatic
            · exact hxstack hxr
          · rw [List.mem_singleton] at hxb
            rw [hxb] at hxs
            exact absurd hstatic hxs
      · rw [if_neg hstatic]
        have hb1 : b ∈ (popState s b rest).islB := by
          simp [popState]
        obtain ⟨h2, hb2⟩ := processContacts_inv w p b _ hwf hp hb1 h1
        have h3 := (processJoints_inv w p b _ hp hb2 h2).1
        apply ih _ h3
        -- closure of the processed state
        have hislB : (processJoints w b (processContacts w b
            (popState s b rest))).islB = s.islB ++ [b] := by
          rw [processJoints_islB, processContacts_islB]
          rfl
        have hbcase :
            (∀ ci c, w.contacts.get? ci = some c → cOK c = true →
              (c.a = b ∨ c.b = b) →
              ci ∈ (processJoints w b (processContacts w b
                (popState s b rest))).cflag) ∧
            (∀ ji j, w.joints.get? ji = some j → (j.a = b ∨ j.b = b) →
              (bdy w (j.otherEnd b)).active = true →
              ji ∈ (processJoints w b (processContacts w b
                (popState s b rest))).jflag) := by
          constructor
          · intro ci c hg hok hincb
            rw [processJoints_cflag]
            exact processContacts_complete w b _ ci c hg hincb hok
          · intro ji j hg hincb hact
            exact processJoints_complete w b _ ji j hg hincb hact
        intro x hx hxs hxstack
        rw [hislB] at hx
        by_cases hxbeq : x = b
        · rw [hxbeq]
          exact hbcase
        · rcases List.mem_append.mp hx with hxo | hxb
          · have hxnotstack : x ∉ s.stack := by
              rw [hst]
              intro hxin
              rcases List.mem_cons.mp hxin with h4 | h4
              · exact hxbeq h4
              · exact hxstack (processJoints_stack_mono w b _ x
                  (processContacts_stack_mono w b _ x h4))
            obtain ⟨hcc, hjj⟩ := hc x hxo hxs hxnotstack
            constructor
            · intro ci c hg hok hincx
              rw [processJoints_cflag]
              exact processContacts_cflag_mono w b _ (hcc ci c hg hok hincx)
            · intro ji j hg hincx hact
              apply processJoints_jflag_mono
              rw [processContacts_jflag]
              exact hjj ji j hg hincx hact
          · rw [List.mem_singleton] at hxb
            exact absurd hxb hxbeq

/-! ### Island decomposition: fuel sufficiency -/

lemma endpointsC_univ (l : List ContactM) (c : ContactM) (hc : c ∈ l) :
    c.a ∈ l.foldr (fun c t => insert c.a (insert c.b t)) (∅ : Finset ℕ) ∧
    c.b ∈ l.foldr (fun c t => insert c.a (insert c.b t)) (∅ : Finset ℕ) := by
  induction l with
  | nil => cases hc
  | cons d l ih =>
    rw [List.foldr_cons]
    rcases List.mem_cons.mp hc with h | h
    · subst h
      exact ⟨Finset.mem_insert_self _ _,
        Finset.mem_insert_of_mem (Finset.mem_insert_self _ _)⟩
    · obtain ⟨h1, h2⟩ := ih h
      exact ⟨Finset.mem_insert_of_mem (Finset.mem_insert_of_mem h1),
        Finset.mem_insert_of_mem (Finset.mem_insert_of_mem h2)⟩

lemma endpointsJ_univ (l : List JointM) (j : JointM) (hj : j ∈ l) :
    j.a ∈ l.foldr (fun j t => insert j.a (insert j.b t)) (∅ : Finset ℕ) ∧
    j.b ∈ l.foldr (fun j t => insert j.a (insert j.b t)) (∅ : Finset ℕ) := by
  induction l with
  | nil => cases hj
  | cons d l ih =>
    rw [List.foldr_cons]
    rcases List.mem_cons.mp hj with h | h
    · subst h
      exact ⟨Finset.mem_insert_self _ _,
        Finset.mem_insert_of_mem (Finset.mem_insert_self _ _)⟩
    · obtain ⟨h1, h2⟩ := ih h
      exact ⟨Finset.mem_insert_of_mem (Finset.mem_insert_of_mem h1),
        Finset.mem_insert_of_mem (Finset.mem_insert_of_mem h2)⟩

lemma univIdx_contact (w : WorldM) (ci : ℕ) (c : ContactM)
    (hget : w.contacts.get? ci = some c) :
    c.a ∈ univIdx w ∧ c.b ∈ univIdx w := by
  have h := endpointsC_univ w.contacts c (List.get?_mem hget)
  unfold univIdx
  exact ⟨Finset.mem_union_left _ (Finset.mem_union_right _ h.1),
    Finset.mem_union_left _ (Finset.mem_union_right _ h.2)⟩

lemma univIdx_joint (w : WorldM) (ji : ℕ) (j : JointM)
    (hget : w.joints.get? ji = some j) :
    j.a ∈ univIdx w ∧ j.b ∈ univIdx w := by
  have h := endpointsJ_univ w.joints j (List.get?_mem hget)
  unfold univIdx
  exact ⟨Finset.mem_union_right _ h.1, Finset.mem_union_right _ h.2⟩

lemma card_sdiff_insert_aux (u f : Finset ℕ) (o : ℕ) (ho : o ∈ u) (hno : o ∉ f) :
    (u \ insert o f).card + 1 = (u \ f).card := by
  have he : u \ insert o f = (u \ f).erase o := by
    ext y
    simp only [Finset.mem_sdiff, Finset.mem_erase, Finset.mem_insert]
    tauto
  have hmem : o ∈ u \ f := Finset.mem_sdiff.mpr ⟨ho, hno⟩
  rw [he, Finset.card_erase_of_mem hmem]
  have hpos : 0 < (u \ f).card := Finset.card_pos.mpr ⟨o, hmem⟩
  omega

lemma contactStep_measure (w : WorldM) (b : ℕ) (s : SState) (ci : ℕ) :
    dfsMeasure w (contactStep w b s ci) ≤ dfsMeasure w s := by
  rcases contactStep_cases w b s ci with he | ⟨c, hget, hinc, hfl, hok, hcase⟩
  · rw [he]
  · rcases hcase with ⟨he, hob⟩ | ⟨he, hob⟩
    · rw [he]
      exact le_refl _
    · rw [he]
      have hou : c.otherEnd b ∈ univIdx w := by
        rcases ContactM.otherEnd_mem c b with hh | hh <;> rw [hh]
        · exact (univIdx_contact w ci c hget).1
        · exact (univIdx_contact w ci c hget).2
      have hcard := card_sdiff_insert_aux (univIdx w) s.bflag (c.otherEnd b) hou hob
      show 2 * (univIdx w \ insert (c.otherEnd b) s.bflag).card +
          (c.otherEnd b :: s.stack).length ≤
        2 * (univIdx w \ s.bflag).card + s.stack.length
      rw [List.length_cons]
      omega

lemma jointStep_measure (w : WorldM) (b : ℕ) (s : SState) (ji : ℕ) :
    dfsMeasure w (jointStep w b s ji) ≤ dfsMeasure w s := by
  rcases jointStep_cases w b s ji with he | ⟨j, hget, hinc, hfl, hact, hcase⟩
  · rw [he]
  · rcases hcase with ⟨he, hob⟩ | ⟨he, hob⟩
    · rw [he]
      exact le_refl _
    · rw [he]
      have hou : j.otherEnd b ∈ univIdx w := by
        rcases JointM.otherEnd_mem_joint j b with hh | hh <;> rw [hh]
        · exact (univIdx_joint w ji j hget).1
        · exact (univIdx_joint w ji j hget).2
      have hcard := card_sdiff_insert_aux (univIdx w) s.bflag (j.otherEnd b) hou hob
      show 2 * (univIdx w \ insert (j.otherEnd b) s.bflag).card +
          (j.otherEnd b :: s.stack).length ≤
        2 * (univIdx w \ s.bflag).card + s.stack.length
      rw [List.length_cons]
      omega

lemma processContacts_measure (w : WorldM) (b : ℕ) (s : SState) :
    dfsMeasure w (processContacts w b s) ≤ dfsMeasure w s := by
  unfold processContacts
  exact foldl_le (dfsMeasure w) _ (fun t y => contactStep_measure w b t y) _ s

lemma processJoints_measure (w : WorldM) (b : ℕ) (s : SState) :
    dfsMeasure w (processJoints w b s) ≤ dfsMeasure w s := by
  unfold processJoints
  exact foldl_le (dfsMeasure w) _ (fun t y => jointStep_measure w b t y) _ s

lemma pop_measure (w : WorldM) (s : SState) (b : ℕ) (rest : List ℕ)
    (hst : s.stack = b :: rest) :
    dfsMeasure w (popState s b rest) + 1 = dfsMeasure w s := by
  show 2 * (univIdx w \ s.bflag).card + rest.length + 1 =
    2 * (univIdx w \ s.bflag).card + s.stack.length
  rw [hst, List.length_cons]
  omega

/-- With enough fuel the DFS always drains its stack. -/
lemma dfsLoop_drain (w : WorldM) : ∀ (fuel : ℕ) (s : SState),
    dfsMeasure w s ≤ fuel → (dfsLoop w fuel s).stack = [] := by
  intro fuel
  induction fuel with
  | zero =>
    intro s h
    rw [dfsLoop_zero]
    have hlen : s.stack.length = 0 := by
      unfold dfsMeasure at h
      omega
    exact List.length_eq_zero.mp hlen
  | succ n ih =>
    intro s h
    match hst : s.stack with
    | [] =>
      rw [dfsLoop_succ_nil w n s hst]
      exact hst
    | b :: rest =>
      rw [dfsLoop_succ_cons w n s b rest hst]
      have hm := pop_measure w s b rest hst
      by_cases hstatic : (bdy w b).btype = BType.bstatic
      · rw [if_pos hstatic]
        exact ih _ (by omega)
      · rw [if_neg hstatic]
        refine ih _ ?_
        have h1 := processContacts_measure w b (popState s b rest)
        have h2 := processJoints_measure w b (processContacts w b (popState s b rest))
        omega

lemma dfsMeasure_start_le (w : WorldM) (bf cf jf wo : Finset ℕ) (seed : ℕ) :
    dfsMeasure w ⟨bf, cf, jf, wo, [], [], [], [seed]⟩ ≤ dfsFuel w := by
  unfold dfsMeasure dfsFuel
  have h : (univIdx w \ bf).card ≤ (univIdx w).card :=
    Finset.card_le_card Finset.sdiff_subset
  simp only [List.length_singleton]
  omega

/-! ### Island decomposition: the seed loop -/

/-- Membership after the post-solve cleanup fold that clears static island
members (cb2World.cpp:536-545). -/
lemma eraseFold_mem (w : WorldM) (l : List ℕ) (fs : Finset ℕ) (y : ℕ) :
    (y ∈ l.foldl
        (fun t i => if (bdy w i).btype = BType.bstatic then t.erase i else t) fs) ↔
      (y ∈ fs ∧ ¬((bdy w y).btype = BType.bstatic ∧ y ∈ l)) := by
  induction l generalizing fs with
  | nil => simp
  | cons i l ih =>
    rw [List.foldl_cons]
    by_cases hi : (bdy w i).btype = BType.bstatic
    · rw [if_pos hi, ih]
      by_cases hyi : y = i
      · subst hyi
        simp [Finset.mem_erase, hi]
      · simp only [Finset.mem_erase, List.mem_cons]
        constructor
        · rintro ⟨⟨_, hy⟩, hno⟩
          refine ⟨hy, ?_⟩
          rintro ⟨hys, hyl | hyl⟩
          · exact hyi hyl
          · exact hno ⟨hys, hyl⟩
        · rintro ⟨hy, hno⟩
          refine ⟨⟨hyi, hy⟩, ?_⟩
          rintro ⟨hys, hyl⟩
          exact hno ⟨hys, Or.inr hyl⟩
    · rw [if_neg hi, ih]
      by_cases hyi : y = i
      · subst hyi
        simp [hi]
      · simp only [List.mem_cons]
        constructor
        · rintro ⟨hy, hno⟩
          refine ⟨hy, ?_⟩
          rintro ⟨hys, hyl | hyl⟩
          · exact hyi hyl
          · exact hno ⟨hys, hyl⟩
        · rintro ⟨hy, hno⟩
          refine ⟨hy, ?_⟩
          rintro ⟨hys, hyl⟩
          exact hno ⟨hys, Or.inr hyl⟩

lemma islands_get_append (ps : List IslandR) (isl : IslandR) (k : ℕ) (I : IslandR) :
    (ps ++ [isl]).get? k = some I ↔
      (ps.get? k = some I ∨ (k = ps.length ∧ I = isl)) := by
  constructor
  · intro h
    by_cases hk : k < ps.length
    · left
      rw [List.get?_append hk] at h
      exact h
    · right
      have hk2 : ps.length ≤ k := le_of_not_lt hk
      rw [List.get?_append_right hk2] at h
      match hkk : k - ps.length with
      | 0 =>
        rw [hkk] at h
        cases h
        exact ⟨by omega, rfl⟩
      | n + 1 =>
        rw [hkk] at h
        simp at h
  · intro h
    rcases h with h | ⟨hk, hI⟩
    · obtain ⟨hlt, -⟩ := List.get?_eq_some.mp h
      rw [List.get?_append hlt]
      exact h
    · subst hk
      subst hI
      rw [List.get?_append_right (le_refl _)]
      simp

lemma islands_get_last (ps : List IslandR) (isl : IslandR) :
    (ps ++ [isl]).get? ps.length = some isl :=
  (islands_get_append ps isl ps.length isl).mpr (Or.inr ⟨rfl, rfl⟩)

lemma islands_get_lift (ps : List IslandR) (isl : IslandR) (k : ℕ) (I : IslandR)
    (h : ps.get? k = some I) : (ps ++ [isl]).get? k = some I :=
  (islands_get_append ps isl k I).mpr (Or.inl h)

/-- One seed iteration preserves the pass invariant. -/
lemma seedStep_inv (w : WorldM) (hwf : wfWorld w) (p : PassState) (seed : ℕ)
    (hp : PassInv w p) : PassInv w (seedStep w p seed) := by
  unfold seedStep
  by_cases h1 : seed ∈ p.bflag
  · rw [if_pos h1]; exact hp
  rw [if_neg h1]
  by_cases h2 : ¬(((bdy w seed).awake = true ∨ seed ∈ p.woken) ∧
      (bdy w seed).active = true)
  · rw [if_pos h2]; exact hp
  rw [if_neg h2]
  by_cases h3 : (bdy w seed).btype = BType.bstatic
  · rw [if_pos h3]; exact hp
  rw [if_neg h3]
  have hseedactive : (bdy w seed).active = true := (not_not.mp h2).2
  have hd0 : DfsInv w p
      ⟨insert seed p.bflag, p.cflag, p.jflag, p.woken, [], [], [], [seed]⟩ := by
    refine ⟨?_, ?_, ?_, ?_, ?_, ?_, ?_, ?_, ?_⟩
    · intro x
      simp only [Finset.mem_insert, List.mem_singleton, List.not_mem_nil]
      tauto
    · intro ci
      simp
    · intro ji
      simp
    · intro x hx
      simp only [List.not_mem_nil, List.mem_singleton, false_or] at hx
      rw [hx]
      exact h1
    · intro ci hci
      simp at hci
    · intro ji hji
      simp at hji
    · intro x hx
      simp only [List.not_mem_nil, List.mem_singleton, false_or] at hx
      rw [hx]
      exact hseedactive
    · intro ci hci
      simp at hci
    · intro ji hji
      simp at hji
  have hc0 : DfsClosure w
      ⟨insert seed p.bflag, p.cflag, p.jflag, p.woken, [], [], [], [seed]⟩ := by
    intro x hx
    simp at hx
  set s1 := dfsLoop w (dfsFuel w)
    ⟨insert seed p.bflag, p.cflag, p.jflag, p.woken, [], [], [], [seed]⟩ with hs1
  obtain ⟨hd1, hc1⟩ := dfsLoop_inv w p hwf hp (dfsFuel w) _ hd0 hc0
  have hstack1 : s1.stack = [] :=
    dfsLoop_drain w (dfsFuel w) _ (dfsMeasure_start_le w _ _ _ _ seed)
  have hbf1 : ∀ x, x ∈ s1.bflag ↔ (x ∈ p.bflag ∨ x ∈ s1.islB) := by
    intro x
    rw [hd1.bflagIff x, hstack1]
    simp
  have hcf1 := hd1.cflagIff
  have hjf1 := hd1.jflagIff
  have hnewB : ∀ x ∈ s1.islB, x ∉ p.bflag := fun x hx => hd1.newB x (Or.inl hx)
  have hactive1 : ∀ x ∈ s1.islB, (bdy w x).active = true :=
    fun x hx => hd1.activeB x (Or.inl hx)
  have hendsC : ∀ ci ∈ s1.islC, ∃ c, w.contacts.get? ci = some c ∧ cOK c = true ∧
      c.a ∈ s1.islB ∧ c.b ∈ s1.islB := by
    intro ci hci
    obtain ⟨c, hg, hok, ha, hbb⟩ := hd1.endsC ci hci
    rw [hstack1] at ha hbb
    simp only [List.not_mem_nil, or_false] at ha hbb
    exact ⟨c, hg, hok, ha, hbb⟩
  have hendsJ : ∀ ji ∈ s1.islJ, ∃ j, w.joints.get? ji = some j ∧
      j.a ∈ s1.islB ∧ j.b ∈ s1.islB := by
    intro ji hji
    obtain ⟨j, hg, ha, hbb⟩ := hd1.endsJ ji hji
    rw [hstack1] at ha hbb
    simp only [List.not_mem_nil, or_false] at ha hbb
    exact ⟨j, hg, ha, hbb⟩
  have hclo : ∀ x ∈ s1.islB, (bdy w x).btype ≠ BType.bstatic →
      (∀ ci c, w.contacts.get? ci = some c → cOK c = true →
        (c.a = x ∨ c.b = x) → ci ∈ s1.cflag) ∧
      (∀ ji j, w.joints.get? ji = some j → (j.a = x ∨ j.b = x) →
        (bdy w (j.otherEnd x)).active = true → ji ∈ s1.jflag) := by
    intro x hx hxs
    exact hc1 x hx hxs (by rw [hstack1]; exact List.not_mem_nil x)
  have hbf2 := fun y => eraseFold_mem w s1.islB s1.bflag y
  refine ⟨?_, ?_, ?_, ?_, ?_, ?_, ?_, ?_, ?_, ?_, ?_, ?_, ?_⟩
  · -- staticsClear
    intro x hx
    obtain ⟨hxb, hxno⟩ := (hbf2 x).mp hx
    intro hxs
    rcases (hbf1 x).mp hxb with hxp | hxi
    · exact hp.staticsClear x hxp hxs
    · exact hxno ⟨hxs, hxi⟩
  · -- flagIsland
    intro x hx
    obtain ⟨hxb, -⟩ := (hbf2 x).mp hx
    rcases (hbf1 x).mp hxb with hxp | hxi
    · obtain ⟨k, I, hkI, hm⟩ := hp.flagIsland x hxp
      exact ⟨k, I, islands_get_lift _ _ _ _ hkI, hm⟩
    · exact ⟨p.islands.length, _, islands_get_last _ _, hxi⟩
  · -- islandFlagged
    intro k I hkI x hxI hxs
    rcases (islands_get_append _ _ _ _).mp hkI with hOld | ⟨hk, hI⟩
    · have hxp := hp.islandFlagged _ _ hOld x hxI hxs
      refine (hbf2 x).mpr ⟨(hbf1 x).mpr (Or.inl hxp), ?_⟩
      rintro ⟨hc, -⟩
      exact hxs hc
    · subst hI
      refine (hbf2 x).mpr ⟨(hbf1 x).mpr (Or.inr hxI), ?_⟩
      rintro ⟨hc, -⟩
      exact hxs hc
  · -- islandActive
    intro k I hkI x hxI
    rcases (islands_get_append _ _ _ _).mp hkI with hOld | ⟨hk, hI⟩
    · exact hp.islandActive _ _ hOld x hxI
    · subst hI
      exact hactive1 x hxI
  · -- uniqB
    intro k1 I1 k2 I2 x hk1 hk2 hx1 hx2 hxs
    rcases (islands_get_append _ _ _ _).mp hk1 with hO1 | ⟨he1, hI1⟩ <;>
      rcases (islands_get_append _ _ _ _).mp hk2 with hO2 | ⟨he2, hI2⟩
    · exact hp.uniqB _ _ _ _ x hO1 hO2 hx1 hx2 hxs
    · subst hI2
      exact absurd (hp.islandFlagged _ _ hO1 x hx1 hxs) (hnewB x hx2)
    · subst hI1
      exact absurd (hp.islandFlagged _ _ hO2 x hx2 hxs) (hnewB x hx1)
    · rw [he1, he2]
  · -- cflagIsland
    intro ci hci
    rcases (hcf1 ci).mp hci with hcp | hcl
    · obtain ⟨k, I, c, hkI, hm, hg, ha, hbb⟩ := hp.cflagIsland ci hcp
      exact ⟨k, I, c, islands_get_lift _ _ _ _ hkI, hm, hg, ha, hbb⟩
    · obtain ⟨c, hg, hok, ha, hbb⟩ := hendsC ci hcl
      exact ⟨p.islands.length, _, c, islands_get_last _ _, hcl, hg, ha, hbb⟩
  · -- islandCFlag
    intro k I hkI ci hm
    rcases (islands_get_append _ _ _ _).mp hkI with hOld | ⟨hk, hI⟩
    · exact (hcf1 ci).mpr (Or.inl (hp.islandCFlag _ _ hOld ci hm))
    · subst hI
      exact (hcf1 ci).mpr (Or.inr hm)
  · -- uniqC
    intro k1 I1 k2 I2 ci hk1 hk2 hm1 hm2
    rcases (islands_get_append _ _ _ _).mp hk1 with hO1 | ⟨he1, hI1⟩ <;>
      rcases (islands_get_append _ _ _ _).mp hk2 with hO2 | ⟨he2, hI2⟩
    · exact hp.uniqC _ _ _ _ ci hO1 hO2 hm1 hm2
    · subst hI2
      exact absurd (hp.islandCFlag _ _ hO1 ci hm1) (hd1.newC ci hm2)
    · subst hI1
      exact absurd (hp.islandCFlag _ _ hO2 ci hm2) (hd1.newC ci hm1)
    · rw [he1, he2]
  · -- closureC
    intro k I hkI x hxI hxs ci c hg hok hincx
    rcases (islands_get_append _ _ _ _).mp hkI with hOld | ⟨hk, hI⟩
    · exact hp.closureC _ _ hOld x hxI hxs ci c hg hok hincx
    · subst hI
      have hflag := (hclo x hxI hxs).1 ci c hg hok hincx
      rcases (hcf1 ci).mp hflag with hcp | hcl
      · exfalso
        obtain ⟨k2, I2, c2, hk2, hm2, hg2, ha2, hb2⟩ := hp.cflagIsland ci hcp
        rw [hg2] at hg
        cases hg
        have hxI2 : x ∈ I2.bodies := by
          rcases hincx with hh | hh
          · rw [← hh]; exact ha2
          · rw [← hh]; exact hb2
        exact hnewB x hxI (hp.islandFlagged _ _ hk2 x hxI2 hxs)
      · exact hcl
  · -- jflagIsland
    intro ji hji
    rcases (hjf1 ji).mp hji with hjp | hjl
    · obtain ⟨k, I, j, hkI, hm, hg, ha, hbb⟩ := hp.jflagIsland ji hjp
      exact ⟨k, I, j, islands_get_lift _ _ _ _ hkI, hm, hg, ha, hbb⟩
    · obtain ⟨j, hg, ha, hbb⟩ := hendsJ ji hjl
      exact ⟨p.islands.length, _, j, islands_get_last _ _, hjl, hg, ha, hbb⟩
  · -- islandJFlag
    intro k I hkI ji hm
    rcases (islands_get_append _ _ _ _).mp hkI with hOld | ⟨hk, hI⟩
    · exact (hjf1 ji).mpr (Or.inl (hp.islandJFlag _ _ hOld ji hm))
    · subst hI
      exact (hjf1 ji).mpr (Or.inr hm)
  · -- uniqJ
    intro k1 I1 k2 I2 ji hk1 hk2 hm1 hm2
    rcases (islands_get_append _ _ _ _).mp hk1 with hO1 | ⟨he1, hI1⟩ <;>
      rcases (islands_get_append _ _ _ _).mp hk2 with hO2 | ⟨he2, hI2⟩
    · exact hp.uniqJ _ _ _ _ ji hO1 hO2 hm1 hm2
    · subst hI2
      exact absurd (hp.islandJFlag _ _ hO1 ji hm1) (hd1.newJ ji hm2)
    · subst hI1
      exact absurd (hp.islandJFlag _ _ hO2 ji hm2) (hd1.newJ ji hm1)
    · rw [he1, he2]
  · -- closureJ
    intro k I hkI x hxI hxs ji j hg hincx hact
    rcases (islands_get_append _ _ _ _).mp hkI with hOld | ⟨hk, hI⟩
    · exact hp.closureJ _ _ hOld x hxI hxs ji j hg hincx hact
    · subst hI
      have hflag := (hclo x hxI hxs).2 ji j hg hincx hact
      rcases (hjf1 ji).mp hflag with hjp | hjl
      · exfalso
        obtain ⟨k2, I2, j2, hk2, hm2, hg2, ha2, hb2⟩ := hp.jflagIsland ji hjp
        rw [hg2] at hg
        cases hg
        have hxI2 : x ∈ I2.bodies := by
          rcases hincx with hh | hh
          · rw [← hh]; exact ha2
          · rw [← hh]; exact hb2
        exact hnewB x hxI (hp.islandFlagged _ _ hk2 x hxI2 hxs)
      · exact hjl

/-- The invariant holds after the whole decomposition pass. -/
lemma solvePass_inv (w : WorldM) (hwf : wfWorld w) : PassInv w (solvePass w) := by
  unfold solvePass
  refine foldl_pres _ (PassInv w) (fun t y ht => seedStep_inv w hwf t y ht) _ _ ?_
  refine ⟨?_, ?_, ?_, ?_, ?_, ?_, ?_, ?_, ?_, ?_, ?_, ?_, ?_⟩
  · intro x hx; simp at hx
  · intro x hx; simp at hx
  · intro k I h; simp at h
  · intro k I h; simp at h
  · intro k1 I1 k2 I2 x h; simp at h
  · intro ci h; simp at h
  · intro k I h; simp at h
  · intro k1 I1 k2 I2 ci h; simp at h
  · intro k I h; simp at h
  · intro ji h; simp at h
  · intro k I h; simp at h
  · intro k1 I1 k2 I2 ji h; simp at h
  · intro k I h; simp at h

/-! ### C1 -/

/-- C1 counterexample: the claim as stated fails for two bodies that are both
static.  In `cexStaticJointW` the joint `1` links static bodies `1` and `2`,
whose peers are active, yet body `1` ends up only in island `0` (pulled in by
dynamic body `0`) and body `2` only in island `1` (pulled in by dynamic body
`3`): the linked pair lands in two different islands because the DFS does not
propagate through static bodies. -/
theorem island_split_for_static_static_joint :
    (islandsOf cexStaticJointW).get? 0 = some ⟨[0, 1], [], [0]⟩ ∧
    (islandsOf cexStaticJointW).get? 1 = some ⟨[3, 2], [], [2]⟩ ∧
    cexStaticJointW.joints.get? 1 = some ⟨1, 2⟩ ∧
    (bdy cexStaticJointW 1).active = true ∧
    (bdy cexStaticJointW 2).active = true ∧
    (1 ∈ ([0, 1] : List ℕ) ∧ 1 ∉ ([3, 2] : List ℕ)) ∧
    (2 ∈ ([3, 2] : List ℕ) ∧ 2 ∉ ([0, 1] : List ℕ)) ∧
    wfWorld cexStaticJointW := by
  refine ⟨by decide, by decide, by decide, by decide, by decide, by decide, by decide, ?_⟩
  unfold wfWorld
  decide

/-- C1 (amended): restricted to pairs in which at least one body is
non-static, the claim holds: in a well-formed world, every island containing
a non-static body `x` also contains, for every enabled touching non-sensor
contact of `x`, the contact and both its bodies, and for every joint of `x`
whose peer is active, the joint and both its bodies; moreover a non-static
body belongs to at most one island, so two such linked bodies are never
placed in two different islands. -/
theorem island_closed_under_links (w : WorldM) (hwf : wfWorld w)
    (k : ℕ) (I : IslandR) (hI : (islandsOf w).get? k = some I)
    (x : ℕ) (hx : x ∈ I.bodies) (hxs : (bdy w x).btype ≠ BType.bstatic) :
    (∀ ci c, w.contacts.get? ci = some c → cOK c = true → (c.a = x ∨ c.b = x) →
      ci ∈ I.contacts ∧ c.a ∈ I.bodies ∧ c.b ∈ I.bodies) ∧
    (∀ ji j, w.joints.get? ji = some j → (j.a = x ∨ j.b = x) →
      (bdy w (j.otherEnd x)).active = true →
      ji ∈ I.joints ∧ j.a ∈ I.bodies ∧ j.b ∈ I.bodies) ∧
    (∀ y k2 I2, (islandsOf w).get? k2 = some I2 → y ∈ I2.bodies →
      (bdy w y).btype ≠ BType.bstatic → y ∈ I.bodies → k2 = k) := by
  have hp := solvePass_inv w hwf
  have hI' : (solvePass w).islands.get? k = some I := hI
  refine ⟨?_, ?_, ?_⟩
  · intro ci c hg hok hincx
    have hm := hp.closureC k I hI' x hx hxs ci c hg hok hincx
    have hcf := hp.islandCFlag k I hI' ci hm
    obtain ⟨k2, I2, c2, hk2, hm2, hg2, ha2, hb2⟩ := hp.cflagIsland ci hcf
    have hkk : k2 = k := hp.uniqC k2 I2 k I ci hk2 hI' hm2 hm
    subst hkk
    rw [hI'] at hk2
    have hII : I2 = I := (Option.some.inj hk2).symm
    subst hII
    have hcc : c = c2 := Option.some.inj (hg.symm.trans hg2)
    rw [← hcc] at ha2 hb2
    exact ⟨hm, ha2, hb2⟩
  · intro ji j hg hincx hact
    have hm := hp.closureJ k I hI' x hx hxs ji j hg hincx hact
    have hjf := hp.islandJFlag k I hI' ji hm
    obtain ⟨k2, I2, j2, hk2, hm2, hg2, ha2, hb2⟩ := hp.jflagIsland ji hjf
    have hkk : k2 = k := hp.uniqJ k2 I2 k I ji hk2 hI' hm2 hm
    subst hkk
    rw [hI'] at hk2
    have hII : I2 = I := (Option.some.inj hk2).symm
    subst hII
    have hjj : j = j2 := Option.some.inj (hg.symm.trans hg2)
    rw [← hjj] at ha2 hb2
    exact ⟨hm, ha2, hb2⟩
  · intro y k2 I2 hk2 hy2 hys hy1
    exact hp.uniqB k2 I2 k I y hk2 hI' hy2 hy1 hys

theorem island_closed_under_links_witness :
    (wfWorld chainW ∧ (islandsOf chainW).get? 0 = some ⟨[0, 1], [0], []⟩ ∧
      0 ∈ ([0, 1] : List ℕ) ∧ (bdy chainW 0).btype ≠ BType.bstatic) ∧
    ((∀ ci c, chainW.contacts.get? ci = some c → cOK c = true →
        (c.a = 0 ∨ c.b = 0) →
        ci ∈ ([0] : List ℕ) ∧ c.a ∈ ([0, 1] : List ℕ) ∧ c.b ∈ ([0, 1] : List ℕ)) ∧
      (∀ ji j, chainW.joints.get? ji = some j → (j.a = 0 ∨ j.b = 0) →
        (bdy chainW (j.otherEnd 0)).active = true →
        ji ∈ ([] : List ℕ) ∧ j.a ∈ ([0, 1] : List ℕ) ∧ j.b ∈ ([0, 1] : List ℕ)) ∧
      (∀ y k2 I2, (islandsOf chainW).get? k2 = some I2 → y ∈ I2.bodies →
        (bdy chainW y).btype ≠ BType.bstatic → y ∈ ([0, 1] : List ℕ) → k2 = 0)) :=
  ⟨⟨by unfold wfWorld; decide, by decide, by decide, by decide⟩,
    island_closed_under_links chainW (by unfold wfWorld; decide) 0 ⟨[0, 1], [0], []⟩
      (by decide) 0 (by decide) (by decide)⟩

/-! ### C3 -/

/-- C3: a static body reached by the search is added to the island but the
search does not propagate through it, and after the pass no static body
carries the island flag (the post-solve cleanup clears it, so a static body
can serve several islands in the same pass).  Concretely, the chain
`dynamicA(0) - static(1) - dynamicB(2)` of `chainW` yields two islands, not
one: `[0, 1]` with contact `0` and `[2, 1]` with contact `1`; the static
body `1` is a member of both while neither dynamic body shares an island
with the other. -/
theorem static_anchors_and_chain_split (w : WorldM) (hwf : wfWorld w) (i : ℕ)
    (hstatic : (bdy w i).btype = BType.bstatic) :
    i ∉ (solvePass w).bflag ∧
    islandsOf chainW = [⟨[0, 1], [0], []⟩, ⟨[2, 1], [1], []⟩] ∧
    (bdy chainW 1).btype = BType.bstatic := by
  refine ⟨?_, by decide, by decide⟩
  intro hmem
  exact (solvePass_inv w hwf).staticsClear i hmem hstatic

theorem static_anchors_and_chain_split_witness :
    (wfWorld chainW ∧ (bdy chainW 1).btype = BType.bstatic) ∧
    (1 ∉ (solvePass chainW).bflag ∧
      islandsOf chainW = [⟨[0, 1], [0], []⟩, ⟨[2, 1], [1], []⟩] ∧
      (bdy chainW 1).btype = BType.bstatic) :=
  ⟨⟨by unfold wfWorld; decide, by decide⟩,
    static_anchors_and_chain_split chainW (by unfold wfWorld; decide) 1 (by decide)⟩

/-! ### TOI loop: primitive lemmas about the state accessors -/

theorem tbdy_def (bodies : List TBody) (j : ℕ) :
    tbdy bodies j = (bodies.get? j).getD ⟨0, BType.bstatic, false, false, false⟩ := by
  unfold tbdy
  rw [List.getD_eq_getElem?_getD, List.get?_eq_getElem?]

theorem tbdy_get (bodies : List TBody) (j : ℕ) (b : TBody)
    (h : bodies.get? j = some b) : tbdy bodies j = b := by
  rw [tbdy_def, h]; rfl

theorem setTB_length (bodies : List TBody) (i : ℕ) (f : TBody → TBody) :
    (setTB bodies i f).length = bodies.length := by
  unfold setTB
  cases h : bodies.get? i with
  | none => rfl
  | some b => exact bodies.length_set i (f b)

theorem tbdy_setTB_ne (bodies : List TBody) (i : ℕ) (f : TBody → TBody) (j : ℕ)
    (hj : j ≠ i) : tbdy (setTB bodies i f) j = tbdy bodies j := by
  unfold setTB
  cases h : bodies.get? i with
  | none => rfl
  | some b =>
    rw [tbdy_def, tbdy_def, List.get?_set_ne (f b) bodies (fun he => hj he.symm)]

theorem tbdy_setTB_self (bodies : List TBody) (i : ℕ) (f : TBody → TBody)
    (hi : i < bodies.length) : tbdy (setTB bodies i f) i = f (tbdy bodies i) := by
  unfold setTB
  obtain ⟨b, hb⟩ : ∃ b, bodies.get? i = some b := ⟨_, List.get?_eq_get hi⟩
  rw [hb, tbdy_def, List.get?_set_eq_of_lt (f b) hi, tbdy_get bodies i b hb]
  rfl

theorem tbdy_setTB_cases (bodies : List TBody) (i : ℕ) (f : TBody → TBody) (j : ℕ) :
    tbdy (setTB bodies i f) j = tbdy bodies j ∨
    tbdy (setTB bodies i f) j = f (tbdy bodies j) := by
  by_cases hj : j = i
  · subst hj
    by_cases hi : j < bodies.length
    · exact Or.inr (tbdy_setTB_self bodies j f hi)
    · left
      unfold setTB
      cases h : bodies.get? j with
      | none => rfl
      | some b => exact absurd (List.get?_eq_some.mp h).1 hi
  · exact Or.inl (tbdy_setTB_ne bodies i f j hj)

theorem advanceTB_fields (bodies : List TBody) (i : ℕ) (a : ℚ) (j : ℕ) :
    (tbdy (advanceTB bodies i a) j).awake = (tbdy bodies j).awake ∧
    (tbdy (advanceTB bodies i a) j).btype = (tbdy bodies j).btype ∧
    (tbdy (advanceTB bodies i a) j).bullet = (tbdy bodies j).bullet ∧
    (tbdy (advanceTB bodies i a) j).islandFlag = (tbdy bodies j).islandFlag := by
  rcases tbdy_setTB_cases bodies i _ j with h | h <;> rw [advanceTB, h] <;>
    exact ⟨rfl, rfl, rfl, rfl⟩

theorem advanceTB_alpha (bodies : List TBody) (i : ℕ) (a : ℚ) (j : ℕ) :
    (tbdy (advanceTB bodies i a) j).alpha0 = (tbdy bodies j).alpha0 ∨
    (tbdy (advanceTB bodies i a) j).alpha0 = a := by
  rcases tbdy_setTB_cases bodies i _ j with h | h <;> rw [advanceTB, h]
  · exact Or.inl rfl
  · exact Or.inr rfl

theorem advanceTB_alpha_self (bodies : List TBody) (i : ℕ) (a : ℚ)
    (hi : i < bodies.length) : (tbdy (advanceTB bodies i a) i).alpha0 = a := by
  rw [advanceTB, tbdy_setTB_self bodies i _ hi]

theorem advanceTB_length (bodies : List TBody) (i : ℕ) (a : ℚ) :
    (advanceTB bodies i a).length = bodies.length := setTB_length bodies i _

theorem wakeTB_fields (bodies : List TBody) (i : ℕ) (j : ℕ) :
    (tbdy (wakeTB bodies i) j).alpha0 = (tbdy bodies j).alpha0 ∧
    (tbdy (wakeTB bodies i) j).btype = (tbdy bodies j).btype ∧
    (tbdy (wakeTB bodies i) j).bullet = (tbdy bodies j).bullet ∧
    (tbdy (wakeTB bodies i) j).islandFlag = (tbdy bodies j).islandFlag := by
  rcases tbdy_setTB_cases bodies i _ j with h | h <;> rw [wakeTB, h] <;>
    exact ⟨rfl, rfl, rfl, rfl⟩

theorem wakeTB_awake (bodies : List TBody) (i : ℕ) (j : ℕ)
    (h : (tbdy (wakeTB bodies i) j).awake = true) :
    (tbdy bodies j).awake = true ∨ j = i := by
  by_cases hj : j = i
  · exact Or.inr hj
  · rw [wakeTB, tbdy_setTB_ne bodies i _ j hj] at h
    exact Or.inl h

theorem wakeTB_length (bodies : List TBody) (i : ℕ) :
    (wakeTB bodies i).length = bodies.length := setTB_length bodies i _

theorem islandTB_fields (bodies : List TBody) (i : ℕ) (v : Bool) (j : ℕ) :
    (tbdy (islandTB bodies i v) j).alpha0 = (tbdy bodies j).alpha0 ∧
    (tbdy (islandTB bodies i v) j).btype = (tbdy bodies j).btype ∧
    (tbdy (islandTB bodies i v) j).bullet = (tbdy bodies j).bullet ∧
    (tbdy (islandTB bodies i v) j).awake = (tbdy bodies j).awake := by
  rcases tbdy_setTB_cases bodies i _ j with h | h <;> rw [islandTB, h] <;>
    exact ⟨rfl, rfl, rfl, rfl⟩

theorem islandTB_length (bodies : List TBody) (i : ℕ) (v : Bool) :
    (islandTB bodies i v).length = bodies.length := setTB_length bodies i _

theorem tactiveB_congr (bodies bodies' : List TBody) (j : ℕ)
    (ha : (tbdy bodies' j).awake = (tbdy bodies j).awake)
    (hb : (tbdy bodies' j).btype = (tbdy bodies j).btype) :
    tactiveB bodies' j = tactiveB bodies j := by
  unfold tactiveB; rw [ha, hb]

theorem tcollideB_congr (bodies bodies' : List TBody) (j : ℕ)
    (ha : (tbdy bodies' j).bullet = (tbdy bodies j).bullet)
    (hb : (tbdy bodies' j).btype = (tbdy bodies j).btype) :
    tcollideB bodies' j = tcollideB bodies j := by
  unfold tcollideB; rw [ha, hb]

/-- Fold preservation of a per-key property `Q` under an invariant `S`. -/
lemma foldl_pres_under {α β : Type} (f : α → β → α) (S : α → Prop) (Q : β → α → Prop)
    (hS : ∀ a y, S a → S (f a y))
    (hP : ∀ a y z, S a → Q y a → Q y (f a z)) :
    ∀ (l : List β) (a : α) (y : β), S a → Q y a → Q y (l.foldl f a) := by
  intro l
  induction l with
  | nil => intro a y _ hq; exact hq
  | cons z l ih =>
    intro a y hs hq
    exact ih (f a z) y (hS a z hs) (hP a y z hs hq)

/-- Fold lemma: an invariant `S` is preserved and a per-key property `Q` is
established at each visited key and preserved afterwards. -/
lemma foldl_inv_all {α β : Type} (f : α → β → α) (S : α → Prop) (Q : β → α → Prop)
    (hS : ∀ a y, S a → S (f a y))
    (hE : ∀ a y, S a → Q y (f a y))
    (hP : ∀ a y z, S a → Q y a → Q y (f a z)) :
    ∀ (l : List β) (a : α), S a → S (l.foldl f a) ∧ ∀ y ∈ l, Q y (l.foldl f a) := by
  intro l
  induction l with
  | nil => intro a hs; exact ⟨hs, fun y hy => absurd hy (List.not_mem_nil y)⟩
  | cons z l ih =>
    intro a hs
    obtain ⟨hs2, hq2⟩ := ih (f a z) (hS a z hs)
    refine ⟨hs2, fun y hy => ?_⟩
    rcases List.mem_cons.mp hy with hy | hy
    · subst hy
      exact foldl_pres_under f S Q hS hP l (f a y) y (hS a y hs) (hE a y hs)
    · exact hq2 y hy

/-! ### TOI loop: the minimum scan -/

lemma bool_true_of_not_false {b : Bool} (h : ¬b = false) : b = true := by
  cases b
  · exact absurd rfl h
  · rfl

lemma bool_or_true_of_not_both_false {x y : Bool} (h : ¬(x = false ∧ y = false)) :
    x = true ∨ y = true := by
  cases x
  · cases y
    · exact absurd ⟨rfl, rfl⟩ h
    · exact Or.inr rfl
  · exact Or.inl rfl

theorem scanAlpha_bounds (env : TOIEnv) (acc : ScanAcc) (c : TContact)
    (hβ : ∀ n, 0 ≤ env.beta n ∧ env.beta n ≤ 1)
    (hlo : ∀ j, 0 ≤ (tbdy acc.bodies j).alpha0)
    (hhi : ∀ j, (tbdy acc.bodies j).alpha0 ≤ 1) :
    max (tbdy acc.bodies c.a).alpha0 (tbdy acc.bodies c.b).alpha0 ≤ scanAlpha env acc c ∧
    scanAlpha env acc c ≤ 1 := by
  have h1 : max (tbdy acc.bodies c.a).alpha0 (tbdy acc.bodies c.b).alpha0 ≤ 1 :=
    max_le (hhi c.a) (hhi c.b)
  have hm : 0 ≤ (1 - max (tbdy acc.bodies c.a).alpha0 (tbdy acc.bodies c.b).alpha0) *
      env.beta acc.betaN :=
    mul_nonneg (by linarith) (hβ acc.betaN).1
  simp only [scanAlpha]
  split_ifs with ht
  · exact ⟨le_min (by linarith) h1, min_le_right _ _⟩
  · exact ⟨h1, le_refl 1⟩

theorem scanWork_contacts (env : TOIEnv) (acc : ScanAcc) (ci : ℕ) (c : TContact) :
    (scanWork env acc ci c).contacts =
      acc.contacts.set ci { c with toi := scanAlpha env acc c, toiFlag := true } := by
  simp only [scanWork]
  split_ifs <;> rfl

theorem scanWork_minAlpha (env : TOIEnv) (acc : ScanAcc) (ci : ℕ) (c : TContact) :
    (scanWork env acc ci c).minAlpha = min (scanAlpha env acc c) acc.minAlpha := by
  simp only [scanWork]
  split_ifs <;>
    first
    | exact (min_eq_left (le_of_lt (by assumption))).symm
    | exact (min_eq_right (le_of_not_lt (by assumption))).symm

theorem scanWork_minIdx (env : TOIEnv) (acc : ScanAcc) (ci : ℕ) (c : TContact) :
    (scanWork env acc ci c).minIdx =
      if scanAlpha env acc c < acc.minAlpha then some ci else acc.minIdx := by
  simp only [scanWork]
  split_ifs <;> rfl

theorem scanWork_bodies_eq (env : TOIEnv) (acc : ScanAcc) (ci : ℕ) (c : TContact) :
    (scanWork env acc ci c).bodies =
      if (tbdy acc.bodies c.a).alpha0 < (tbdy acc.bodies c.b).alpha0 then
        advanceTB acc.bodies c.a
          (max (tbdy acc.bodies c.a).alpha0 (tbdy acc.bodies c.b).alpha0)
      else if (tbdy acc.bodies c.b).alpha0 < (tbdy acc.bodies c.a).alpha0 then
        advanceTB acc.bodies c.b
          (max (tbdy acc.bodies c.a).alpha0 (tbdy acc.bodies c.b).alpha0)
      else acc.bodies := by
  simp only [scanWork]
  split_ifs <;> rfl

theorem scanWork_bodies (env : TOIEnv) (acc : ScanAcc) (ci : ℕ) (c : TContact) (j : ℕ) :
    ((tbdy (scanWork env acc ci c).bodies j).awake = (tbdy acc.bodies j).awake ∧
     (tbdy (scanWork env acc ci c).bodies j).btype = (tbdy acc.bodies j).btype ∧
     (tbdy (scanWork env acc ci c).bodies j).bullet = (tbdy acc.bodies j).bullet ∧
     (tbdy (scanWork env acc ci c).bodies j).islandFlag = (tbdy acc.bodies j).islandFlag) ∧
    ((tbdy (scanWork env acc ci c).bodies j).alpha0 = (tbdy acc.bodies j).alpha0 ∨
     (tbdy (scanWork env acc ci c).bodies j).alpha0 =
       max (tbdy acc.bodies c.a).alpha0 (tbdy acc.bodies c.b).alpha0) := by
  rw [scanWork_bodies_eq]
  split_ifs with h1 h2
  · exact ⟨advanceTB_fields _ _ _ j, advanceTB_alpha _ _ _ j⟩
  · exact ⟨advanceTB_fields _ _ _ j, advanceTB_alpha _ _ _ j⟩
  · exact ⟨⟨rfl, rfl, rfl, rfl⟩, Or.inl rfl⟩

theorem scanWork_blen (env : TOIEnv) (acc : ScanAcc) (ci : ℕ) (c : TContact) :
    (scanWork env acc ci c).bodies.length = acc.bodies.length := by
  rw [scanWork_bodies_eq]
  split_ifs with h1 h2
  · exact advanceTB_length _ _ _
  · exact advanceTB_length _ _ _
  · rfl

/-- A skip reason of one scan visit: the slot is empty, or the contact is
disabled, past the sub-step budget, cached at no less than the running
minimum, or uncached and a sensor, fully inactive or non-bullet
dynamic-dynamic. -/
def ScanSkip (acc : ScanAcc) (ci : ℕ) : Prop :=
  acc.contacts.get? ci = none ∨
  ∃ c, acc.contacts.get? ci = some c ∧
    (c.enabled = false ∨ cb2_maxSubSteps < c.toiCount ∨
     (c.toiFlag = true ∧ ¬c.toi < acc.minAlpha) ∨
     (c.toiFlag = false ∧ (c.sensor = true ∨
       (tactiveB acc.bodies c.a = false ∧ tactiveB acc.bodies c.b = false) ∨
       (tcollideB acc.bodies c.a = false ∧ tcollideB acc.bodies c.b = false))))

theorem toiScanStep_cases (env : TOIEnv) (acc : ScanAcc) (ci : ℕ) :
    (toiScanStep env acc ci = acc ∧ ScanSkip acc ci) ∨
    (∃ c, acc.contacts.get? ci = some c ∧ c.enabled = true ∧
      c.toiCount ≤ cb2_maxSubSteps ∧ c.toiFlag = true ∧ c.toi < acc.minAlpha ∧
      toiScanStep env acc ci = { acc with minIdx := some ci, minAlpha := c.toi }) ∨
    (∃ c, acc.contacts.get? ci = some c ∧ c.enabled = true ∧
      c.toiCount ≤ cb2_maxSubSteps ∧ c.toiFlag = false ∧ c.sensor = false ∧
      (tactiveB acc.bodies c.a = true ∨ tactiveB acc.bodies c.b = true) ∧
      (tcollideB acc.bodies c.a = true ∨ tcollideB acc.bodies c.b = true) ∧
      toiScanStep env acc ci = scanWork env acc ci c) := by
  unfold toiScanStep
  match hget : acc.contacts.get? ci with
  | none => exact Or.inl ⟨rfl, Or.inl hget⟩
  | some c =>
    by_cases h1 : c.enabled = false
    · exact Or.inl ⟨by simp [h1], Or.inr ⟨c, hget, Or.inl h1⟩⟩
    by_cases h2 : cb2_maxSubSteps < c.toiCount
    · exact Or.inl ⟨by simp [h1, h2], Or.inr ⟨c, hget, Or.inr (Or.inl h2)⟩⟩
    by_cases h3 : c.toiFlag = true
    · by_cases h4 : c.toi < acc.minAlpha
      · right; left
        exact ⟨c, rfl, bool_true_of_not_false h1, Nat.le_of_not_lt h2, h3, h4,
          by simp [h1, h2, h3, h4]⟩
      · exact Or.inl ⟨by simp [h1, h2, h3, h4],
          Or.inr ⟨c, hget, Or.inr (Or.inr (Or.inl ⟨h3, h4⟩))⟩⟩
    by_cases h5 : c.sensor = true
    · exact Or.inl ⟨by simp [h1, h2, h3, h5],
        Or.inr ⟨c, hget, Or.inr (Or.inr (Or.inr
          ⟨Bool.eq_false_iff.mpr (fun he => h3 he), Or.inl h5⟩))⟩⟩
    by_cases h6 : tactiveB acc.bodies c.a = false ∧ tactiveB acc.bodies c.b = false
    · exact Or.inl ⟨by simp [h1, h2, h3, h5, h6],
        Or.inr ⟨c, hget, Or.inr (Or.inr (Or.inr
          ⟨Bool.eq_false_iff.mpr (fun he => h3 he), Or.inr (Or.inl h6)⟩))⟩⟩
    by_cases h7 : tcollideB acc.bodies c.a = false ∧ tcollideB acc.bodies c.b = false
    · exact Or.inl ⟨by simp [h1, h2, h3, h5, h6, h7],
        Or.inr ⟨c, hget, Or.inr (Or.inr (Or.inr
          ⟨Bool.eq_false_iff.mpr (fun he => h3 he), Or.inr (Or.inr h7)⟩))⟩⟩
    · right; right
      exact ⟨c, rfl, bool_true_of_not_false h1, Nat.le_of_not_lt h2,
        Bool.eq_false_iff.mpr (fun he => h3 he), Bool.eq_false_iff.mpr (fun he => h5 he),
        bool_or_true_of_not_both_false h6, bool_or_true_of_not_both_false h7,
        by simp [h1, h2, h3, h5, h6, h7]⟩

theorem scanWork_alpha0 (env : TOIEnv) (acc : ScanAcc) (ci : ℕ) (c : TContact) (j : ℕ) :
    (tbdy (scanWork env acc ci c).bodies j).alpha0 = (tbdy acc.bodies j).alpha0 ∨
    ((tbdy (scanWork env acc ci c).bodies j).alpha0 =
        max (tbdy acc.bodies c.a).alpha0 (tbdy acc.bodies c.b).alpha0 ∧
      (j = c.a ∨ j = c.b)) := by
  rw [scanWork_bodies_eq]
  split_ifs with h1 h2
  · by_cases hj : j = c.a
    · subst hj
      rcases advanceTB_alpha acc.bodies c.a
          (max (tbdy acc.bodies c.a).alpha0 (tbdy acc.bodies c.b).alpha0) c.a with ha | ha
      · exact Or.inl ha
      · exact Or.inr ⟨ha, Or.inl rfl⟩
    · rw [advanceTB, tbdy_setTB_ne acc.bodies c.a _ j hj]
      exact Or.inl rfl
  · by_cases hj : j = c.b
    · subst hj
      rcases advanceTB_alpha acc.bodies c.b
          (max (tbdy acc.bodies c.a).alpha0 (tbdy acc.bodies c.b).alpha0) c.b with ha | ha
      · exact Or.inl ha
      · exact Or.inr ⟨ha, Or.inr rfl⟩
    · rw [advanceTB, tbdy_setTB_ne acc.bodies c.b _ j hj]
      exact Or.inl rfl
  · exact Or.inl rfl

theorem toiScanStep_SP (env : TOIEnv) (st : TState) (acc : ScanAcc) (ci : ℕ)
    (hβ : ∀ n, 0 ≤ env.beta n ∧ env.beta n ≤ 1)
    (hI : TInv st) (h : SP env st acc) : SP env st (toiScanStep env acc ci) := by
  rcases toiScanStep_cases env acc ci with ⟨heq, -⟩ |
      ⟨c, hg, hen, hcnt, hfl, hlt, heq⟩ |
      ⟨c, hg, hen, hcnt, hfl, hsen, hact, hcol, heq⟩
  · rw [heq]; exact h
  · -- a cached contact becomes the running minimum
    have hbound : st.lastMin ≤ c.toi ∧ c.toi ≤ 1 := by
      rcases h.crel ci with hcr |
          ⟨c0, c', hc0, hc', -, -, -, -, -, -, -, -, -, hlm2, -, hhi2⟩
      · have hco : st.contacts.get? ci = some c := hcr ▸ hg
        have hmem : c ∈ st.contacts := List.mem_iff_get?.mpr ⟨ci, hco⟩
        exact ⟨hI.flagBound c hmem hen hcnt hfl, (hI.toiBounds c hmem hfl).2⟩
      · have hcc : c' = c := Option.some.inj (hc'.symm.trans hg)
        subst hcc
        exact ⟨hlm2, hhi2⟩
    rw [heq]
    refine ⟨h.clen, h.blen, h.bpres, h.amono, h.ahi, h.alo, h.crel,
      hbound.1, hbound.2, ?_⟩
    intro cj hcj
    have hsome : some ci = some cj := hcj
    cases Option.some.inj hsome
    exact ⟨c, hg, hen, hcnt, hfl, rfl⟩
  · -- a fresh TOI is computed and cached
    have horig : st.contacts.get? ci = some c := by
      rcases h.crel ci with hcr |
          ⟨c0, c', hc0, hc', -, -, -, -, -, -, -, -, hfg2, -, -, -⟩
      · exact hcr ▸ hg
      · have hcc : c' = c := Option.some.inj (hc'.symm.trans hg)
        subst hcc
        rw [hfl] at hfg2
        exact Bool.noConfusion hfg2
    have hmem : c ∈ st.contacts := List.mem_iff_get?.mpr ⟨ci, horig⟩
    have hciLt : ci < acc.contacts.length := (List.get?_eq_some.mp hg).1
    have hαb := scanAlpha_bounds env acc c hβ h.alo h.ahi
    have hactS : tactiveB st.bodies c.a = true ∨ tactiveB st.bodies c.b = true := by
      have e1 := tactiveB_congr st.bodies acc.bodies c.a (h.bpres c.a).1 (h.bpres c.a).2.1
      have e2 := tactiveB_congr st.bodies acc.bodies c.b (h.bpres c.b).1 (h.bpres c.b).2.1
      rcases hact with h' | h'
      · exact Or.inl (e1 ▸ h')
      · exact Or.inr (e2 ▸ h')
    have hcolS : tcollideB st.bodies c.a = true ∨ tcollideB st.bodies c.b = true := by
      have e1 := tcollideB_congr st.bodies acc.bodies c.a (h.bpres c.a).2.2.1 (h.bpres c.a).2.1
      have e2 := tcollideB_congr st.bodies acc.bodies c.b (h.bpres c.b).2.2.1 (h.bpres c.b).2.1
      rcases hcol with h' | h'
      · exact Or.inl (e1 ▸ h')
      · exact Or.inr (e2 ▸ h')
    have hmax : st.lastMin ≤ max (tbdy acc.bodies c.a).alpha0 (tbdy acc.bodies c.b).alpha0 :=
      le_trans (hI.unflagBound c hmem hen hcnt hfl hsen hactS hcolS)
        (max_le_max (h.amono c.a) (h.amono c.b))
    have hlmα : st.lastMin ≤ scanAlpha env acc c := le_trans hmax hαb.1
    have hα0 : 0 ≤ scanAlpha env acc c :=
      le_trans (le_trans (h.alo c.a) (le_max_left _ _)) hαb.1
    rw [heq]
    refine ⟨?_, ?_, ?_, ?_, ?_, ?_, ?_, ?_, ?_, ?_⟩
    · rw [scanWork_contacts, List.length_set]
      exact h.clen
    · rw [scanWork_blen]; exact h.blen
    · intro j
      obtain ⟨hq, -⟩ := scanWork_bodies env acc ci c j
      exact ⟨hq.1.trans (h.bpres j).1, hq.2.1.trans (h.bpres j).2.1,
        hq.2.2.1.trans (h.bpres j).2.2.1, hq.2.2.2.trans (h.bpres j).2.2.2⟩
    · intro j
      rcases scanWork_alpha0 env acc ci c j with ha | ⟨ha, hj⟩
      · rw [ha]; exact h.amono j
      · rw [ha]
        rcases hj with hj | hj <;> subst hj
        · exact le_trans (h.amono _) (le_max_left _ _)
        · exact le_trans (h.amono _) (le_max_right _ _)
    · intro j
      rcases scanWork_alpha0 env acc ci c j with ha | ⟨ha, -⟩
      · rw [ha]; exact h.ahi j
      · rw [ha]; exact max_le (h.ahi c.a) (h.ahi c.b)
    · intro j
      rcases scanWork_alpha0 env acc ci c j with ha | ⟨ha, -⟩
      · rw [ha]; exact h.alo j
      · rw [ha]; exact le_trans (h.alo c.a) (le_max_left _ _)
    · intro k
      rw [scanWork_contacts]
      by_cases hk : k = ci
      · subst hk
        right
        exact ⟨c, { c with toi := scanAlpha env acc c, toiFlag := true }, horig,
          List.get?_set_eq_of_lt _ hciLt, rfl, rfl, rfl, rfl, rfl, rfl, rfl, hcnt, rfl,
          hlmα, hα0, hαb.2⟩
      · rw [List.get?_set_ne _ _ (fun he => hk he.symm)]
        exact h.crel k
    · rw [scanWork_minAlpha]
      exact le_min hlmα h.mlo
    · rw [scanWork_minAlpha]
      exact le_trans (min_le_right _ _) h.mhi
    · intro cj hcj
      rw [scanWork_minIdx] at hcj
      rw [scanWork_contacts, scanWork_minAlpha]
      by_cases hlt2 : scanAlpha env acc c < acc.minAlpha
      · rw [if_pos hlt2] at hcj
        cases Option.some.inj hcj
        exact ⟨{ c with toi := scanAlpha env acc c, toiFlag := true },
          List.get?_set_eq_of_lt _ hciLt, hen, hcnt, rfl,
          (min_eq_left (le_of_lt hlt2)).symm⟩
      · rw [if_neg hlt2] at hcj
        obtain ⟨c'', hg'', hen'', hcnt'', hfl'', htoi''⟩ := h.sel cj hcj
        have hkne : cj ≠ ci := by
          intro he
          subst he
          have hcc : c'' = c := Option.some.inj (hg''.symm.trans hg)
          subst hcc
          rw [hfl] at hfl''
          exact Bool.noConfusion hfl''
        refine ⟨c'', ?_, hen'', hcnt'', hfl'', ?_⟩
        · rw [List.get?_set_ne _ _ (fun he => hkne he.symm)]
          exact hg''
        · rw [htoi'']
          exact (min_eq_right (le_of_not_lt hlt2)).symm

theorem toiScanStep_done (env : TOIEnv) (st : TState) (acc : ScanAcc) (ci : ℕ)
    (h : SP env st acc) : ScanDone ci (toiScanStep env acc ci) := by
  rcases toiScanStep_cases env acc ci with ⟨heq, hsk⟩ |
      ⟨c, hg, hen, hcnt, hfl, hlt, heq⟩ |
      ⟨c, hg, hen, hcnt, hfl, hsen, hact, hcol, heq⟩
  · rw [heq]
    rcases hsk with hnone | ⟨c, hg, hr⟩
    · exact ⟨fun c' hg' => absurd (hnone ▸ hg') (by simp),
        fun c' hg' => absurd (hnone ▸ hg') (by simp)⟩
    · constructor
      · intro c' hg' hen' hcnt' hfl'
        have hcc : c' = c := Option.some.inj (hg'.symm.trans hg)
        subst hcc
        rcases hr with hr | hr | ⟨-, hr⟩ | ⟨hr, -⟩
        · rw [hen'] at hr; exact Bool.noConfusion hr
        · exact absurd hcnt' (Nat.not_le_of_lt hr)
        · exact le_of_not_lt hr
        · rw [hfl'] at hr; exact Bool.noConfusion hr
      · intro c' hg' hen' hcnt' hfl' hsen' hact' hcol'
        have hcc : c' = c := Option.some.inj (hg'.symm.trans hg)
        subst hcc
        rcases hr with hr | hr | ⟨hr, -⟩ | ⟨-, hr | hr | hr⟩
        · rw [hen'] at hr; exact Bool.noConfusion hr
        · exact absurd hcnt' (Nat.not_le_of_lt hr)
        · rw [hfl'] at hr; exact Bool.noConfusion hr
        · rw [hsen'] at hr; exact Bool.noConfusion hr
        · rcases hact' with h' | h'
          · rw [hr.1] at h'; exact Bool.noConfusion h'
          · rw [hr.2] at h'; exact Bool.noConfusion h'
        · rcases hcol' with h' | h'
          · rw [hr.1] at h'; exact Bool.noConfusion h'
          · rw [hr.2] at h'; exact Bool.noConfusion h'
  · rw [heq]
    constructor
    · intro c' hg' hen' hcnt' hfl'
      have hcc : c' = c := Option.some.inj (hg'.symm.trans hg)
      subst hcc
      exact le_refl _
    · intro c' hg' hen' hcnt' hfl' hsen' hact' hcol'
      have hcc : c' = c := Option.some.inj (hg'.symm.trans hg)
      subst hcc
      rw [hfl] at hfl'
      exact Bool.noConfusion hfl'
  · rw [heq]
    have hciLt : ci < acc.contacts.length := (List.get?_eq_some.mp hg).1
    constructor
    · intro c' hg' hen' hcnt' hfl'
      rw [scanWork_contacts, List.get?_set_eq_of_lt _ hciLt] at hg'
      have hcc : c' = { c with toi := scanAlpha env acc c, toiFlag := true } :=
        Option.some.inj hg'.symm
      rw [hcc, scanWork_minAlpha]
      exact min_le_left _ _
    · intro c' hg' hen' hcnt' hfl' hsen' hact' hcol'
      rw [scanWork_contacts, List.get?_set_eq_of_lt _ hciLt] at hg'
      have hcc : c' = { c with toi := scanAlpha env acc c, toiFlag := true } :=
        Option.some.inj hg'.symm
      rw [hcc] at hfl'
      exact Bool.noConfusion hfl'

theorem toiScanStep_keep (env : TOIEnv) (st : TState) (acc : ScanAcc) (ci y : ℕ)
    (h : SP env st acc) (hd : ScanDone ci acc) : ScanDone ci (toiScanStep env acc y) := by
  by_cases hy : y = ci
  · subst hy
    exact toiScanStep_done env st acc y h
  rcases toiScanStep_cases env acc y with ⟨heq, -⟩ |
      ⟨c, hg, hen, hcnt, hfl, hlt, heq⟩ |
      ⟨c, hg, hen, hcnt, hfl, hsen, hact, hcol, heq⟩
  · rw [heq]; exact hd
  · rw [heq]
    constructor
    · intro c' hg' hen' hcnt' hfl'
      exact le_trans (le_of_lt hlt) (hd.1 c' hg' hen' hcnt' hfl')
    · intro c' hg' hen' hcnt' hfl' hsen' hact' hcol'
      exact hd.2 c' hg' hen' hcnt' hfl' hsen' hact' hcol'
  · rw [heq]
    constructor
    · intro c' hg' hen' hcnt' hfl'
      rw [scanWork_contacts, List.get?_set_ne _ _ hy] at hg'
      rw [scanWork_minAlpha]
      exact le_trans (min_le_right _ _) (hd.1 c' hg' hen' hcnt' hfl')
    · intro c' hg' hen' hcnt' hfl' hsen' hact' hcol'
      rw [scanWork_contacts, List.get?_set_ne _ _ hy] at hg'
      have ea1 := tactiveB_congr acc.bodies (scanWork env acc y c).bodies c'.a
        (scanWork_bodies env acc y c c'.a).1.1 (scanWork_bodies env acc y c c'.a).1.2.1
      have ea2 := tactiveB_congr acc.bodies (scanWork env acc y c).bodies c'.b
        (scanWork_bodies env acc y c c'.b).1.1 (scanWork_bodies env acc y c c'.b).1.2.1
      have ec1 := tcollideB_congr acc.bodies (scanWork env acc y c).bodies c'.a
        (scanWork_bodies env acc y c c'.a).1.2.2.1 (scanWork_bodies env acc y c c'.a).1.2.1
      have ec2 := tcollideB_congr acc.bodies (scanWork env acc y c).bodies c'.b
        (scanWork_bodies env acc y c c'.b).1.2.2.1 (scanWork_bodies env acc y c c'.b).1.2.1
      rw [ea1, ea2] at hact'
      rw [ec1, ec2] at hcol'
      exact hd.2 c' hg' hen' hcnt' hfl' hsen' hact' hcol'

theorem toiScan_main (env : TOIEnv) (st : TState)
    (hβ : ∀ n, 0 ≤ env.beta n ∧ env.beta n ≤ 1) (hI : TInv st) :
    SP env st (toiScan env st) ∧
    ∀ ci ∈ List.range st.contacts.length, ScanDone ci (toiScan env st) := by
  have h0 : SP env st ⟨st.bodies, st.contacts, none, 1, st.betaN⟩ := by
    refine ⟨rfl, rfl, fun j => ⟨rfl, rfl, rfl, rfl⟩, fun j => le_refl _, hI.alphaHi,
      hI.alphaLo, fun k => Or.inl rfl, hI.minHi, le_refl 1, ?_⟩
    intro cj hcj
    exact Option.noConfusion hcj
  exact foldl_inv_all (toiScanStep env) (SP env st) (fun ci a => ScanDone ci a)
    (fun a y hs => toiScanStep_SP env st a y hβ hI hs)
    (fun a y hs => toiScanStep_done env st a y hs)
    (fun a y z hs hq => toiScanStep_keep env st a y z hs hq)
    (List.range st.contacts.length) _ h0

/-! ### TOI loop: the island build -/

theorem buildStep_cases (env : TOIEnv) (m : ℚ) (body : ℕ) (acc : BuildAcc) (ci : ℕ) :
    buildStep env m body acc ci = acc ∨
    buildStep env m body acc ci = { acc with stop := true } ∨
    (∃ c other, acc.contacts.get? ci = some c ∧ (c.a = body ∨ c.b = body) ∧
      (other = c.a ∨ other = c.b) ∧
      ((((env.upd acc.updN).1 = false ∨ (env.upd acc.updN).2 = false) ∧
        buildStep env m body acc ci =
          { acc with
              contacts := acc.contacts.set ci
                { c with enabled := (env.upd acc.updN).1, touching := (env.upd acc.updN).2 }
              updN := acc.updN + 1 }) ∨
       ((tbdy acc.bodies other).islandFlag = true ∧
        buildStep env m body acc ci =
          { acc with
              contacts := acc.contacts.set ci
                { c with
                    enabled := (env.upd acc.updN).1
                    touching := (env.upd acc.updN).2
                    islandFlag := true }
              islC := acc.islC ++ [ci]
              updN := acc.updN + 1 }) ∨
       ((tbdy acc.bodies other).islandFlag = false ∧
        buildStep env m body acc ci =
          { acc with
              bodies :=
                if (tbdy acc.bodies other).btype = BType.bstatic then
                  islandTB (advanceTB acc.bodies other m) other true
                else wakeTB (islandTB (advanceTB acc.bodies other m) other true) other
              contacts := acc.contacts.set ci
                { c with
                    enabled := (env.upd acc.updN).1
                    touching := (env.upd acc.updN).2
                    islandFlag := true }
              islB := acc.islB ++ [other]
              islC := acc.islC ++ [ci]
              updN := acc.updN + 1 }))) := by
  unfold buildStep
  by_cases hstop : acc.stop = true
  · left; simp [hstop]
  rw [if_neg hstop]
  match hget : acc.contacts.get? ci with
  | none => exact Or.inl rfl
  | some c =>
    by_cases hinc : c.a = body ∨ c.b = body
    on_goal 2 => left; simp [hinc]
    by_cases hcapB : acc.islB.length = 2 * cb2_maxTOIContacts
    · right; left; simp [hinc, hcapB]
    by_cases hcapC : acc.islC.length = cb2_maxTOIContacts
    · right; left; simp [hinc, hcapB, hcapC]
    by_cases hifl : c.islandFlag = true
    · left; simp [hinc, hcapB, hcapC, hifl]
    by_cases hdd : (tbdy acc.bodies (if c.a = body then c.b else c.a)).btype = BType.dynamic ∧
        (tbdy acc.bodies body).bullet = false ∧
        (tbdy acc.bodies (if c.a = body then c.b else c.a)).bullet = false
    · left; simp [hinc, hcapB, hcapC, hifl, hdd]
    by_cases hsen : c.sensor = true
    · left; simp [hinc, hcapB, hcapC, hifl, hdd, hsen]
    right; right
    refine ⟨c, if c.a = body then c.b else c.a, rfl, hinc, by split_ifs <;> simp, ?_⟩
    by_cases hu : (env.upd acc.updN).1 = false ∨ (env.upd acc.updN).2 = false
    · left
      exact ⟨hu, by simp [hinc, hcapB, hcapC, hifl, hdd, hsen, hu]⟩
    by_cases hofl : (tbdy acc.bodies (if c.a = body then c.b else c.a)).islandFlag = true
    · right; left
      exact ⟨hofl, by simp [hinc, hcapB, hcapC, hifl, hdd, hsen, hu, hofl]⟩
    · right; right
      refine ⟨Bool.eq_false_iff.mpr (fun he => hofl he), ?_⟩
      simp [hinc, hcapB, hcapC, hifl, hdd, hsen, hu, hofl]

theorem buildStep_BP (env : TOIEnv) (st : TState) (sc : ScanAcc) (m : ℚ) (cA cB : ℕ)
    (body : ℕ) (acc : BuildAcc) (ci : ℕ)
    (hdyn : (tbdy sc.bodies body).btype = BType.dynamic)
    (h : BP st sc m cA cB acc) (hbody : body ∈ acc.islB) :
    BP st sc m cA cB (buildStep env m body acc ci) ∧
    body ∈ (buildStep env m body acc ci).islB := by
  rcases buildStep_cases env m body acc ci with heq | heq |
      ⟨c, other, hg, hinc, hoth, hbr⟩
  · rw [heq]; exact ⟨h, hbody⟩
  · rw [heq]
    exact ⟨⟨h.clen, h.blen, h.bpres, h.balpha, h.bawake, h.bmem, h.cain, h.cbin,
      h.ends, h.bcrel⟩, hbody⟩
  have hdynA : (tbdy acc.bodies body).btype = BType.dynamic := (h.bpres body).1.trans hdyn
  have hciLt : ci < acc.contacts.length := (List.get?_eq_some.mp hg).1
  have hother_lt : other < acc.bodies.length := by
    rcases hoth with ho | ho <;> rw [ho]
    · exact (h.ends ci c hg).1
    · exact (h.ends ci c hg).2
  have hbc : ∀ (newC : TContact) (newIslB : List ℕ) (newBodies : List TBody),
      newC.a = c.a → newC.b = c.b → newC.toiCount = c.toiCount →
      (∀ bi, bi ∈ acc.islB → bi ∈ newIslB) → body ∈ newIslB →
      (∀ j, (tbdy newBodies j).btype = (tbdy acc.bodies j).btype) →
      ∀ k, (acc.contacts.set ci newC).get? k = sc.contacts.get? k ∨
        (∃ csc c2, sc.contacts.get? k = some csc ∧
          (acc.contacts.set ci newC).get? k = some c2 ∧
          c2.a = csc.a ∧ c2.b = csc.b ∧ csc.toiCount ≤ c2.toiCount ∧
          (∃ bi ∈ newIslB, (tbdy newBodies bi).btype = BType.dynamic ∧
            (c2.a = bi ∨ c2.b = bi))) := by
    intro newC newIslB newBodies hna hnb hnc hsub hbo hbt k
    by_cases hk : k = ci
    · subst hk
      right
      rcases h.bcrel k with hcr | ⟨csc, c2, hsc, hac, ha2, hb2, hct2, -⟩
      · have hscc : sc.contacts.get? k = some c := hcr ▸ hg
        refine ⟨c, newC, hscc, List.get?_set_eq_of_lt _ hciLt, hna, hnb,
          le_of_eq hnc.symm, body, hbo, ?_, ?_⟩
        · rw [hbt body]; exact hdynA
        · rw [hna, hnb]; exact hinc
      · have hcc : c2 = c := Option.some.inj (hac.symm.trans hg)
        subst hcc
        refine ⟨csc, newC, hsc, List.get?_set_eq_of_lt _ hciLt, hna.trans ha2,
          hnb.trans hb2, by rw [hnc]; exact hct2, body, hbo, ?_, ?_⟩
        · rw [hbt body]; exact hdynA
        · rw [hna, hnb]; exact hinc
    · rw [List.get?_set_ne _ _ (fun he => hk he.symm)]
      rcases h.bcrel k with hcr | ⟨csc, c2, hsc, hac, ha2, hb2, hct2, bi, hbi, hbd, hbinc⟩
      · exact Or.inl hcr
      · exact Or.inr ⟨csc, c2, hsc, hac, ha2, hb2, hct2, bi, hsub bi hbi,
          by rw [hbt bi]; exact hbd, hbinc⟩
  have hends : ∀ (newC : TContact), newC.a = c.a → newC.b = c.b →
      ∀ k c2, (acc.contacts.set ci newC).get? k = some c2 →
        c2.a < acc.bodies.length ∧ c2.b < acc.bodies.length := by
    intro newC hna hnb k c2 hk2
    by_cases hk : k = ci
    · subst hk
      rw [List.get?_set_eq_of_lt _ hciLt] at hk2
      have hcc : c2 = newC := Option.some.inj hk2.symm
      subst hcc
      rw [hna, hnb]
      exact h.ends k c hg
    · rw [List.get?_set_ne _ _ (fun he => hk he.symm)] at hk2
      exact h.ends k c2 hk2
  rcases hbr with ⟨hu, heq⟩ | ⟨hofl, heq⟩ | ⟨hofl, heq⟩
  · -- narrow phase says not solid: sweep restored, only the contact changes
    rw [heq]
    refine ⟨⟨(acc.contacts.length_set ci _).trans h.clen, h.blen, h.bpres, h.balpha,
      h.bawake, h.bmem, h.cain, h.cbin,
      hends { c with enabled := (env.upd acc.updN).1, touching := (env.upd acc.updN).2 }
        rfl rfl,
      hbc { c with enabled := (env.upd acc.updN).1, touching := (env.upd acc.updN).2 }
        acc.islB acc.bodies rfl rfl rfl (fun bi hbi => hbi) hbody (fun j => rfl)⟩,
      hbody⟩
  · -- the other body is already in the island: only the contact joins
    rw [heq]
    refine ⟨⟨(acc.contacts.length_set ci _).trans h.clen, h.blen, h.bpres, h.balpha,
      h.bawake, h.bmem, h.cain, h.cbin,
      hends { c with enabled := (env.upd acc.updN).1, touching := (env.upd acc.updN).2, islandFlag := true } rfl rfl,
      hbc { c with enabled := (env.upd acc.updN).1, touching := (env.upd acc.updN).2, islandFlag := true }
        acc.islB acc.bodies rfl rfl rfl (fun bi hbi => hbi) hbody (fun j => rfl)⟩,
      hbody⟩
  · -- the other body is advanced to the TOI and joins the island
    have hT : ∀ j,
        ((tbdy (if (tbdy acc.bodies other).btype = BType.bstatic then
            islandTB (advanceTB acc.bodies other m) other true
          else wakeTB (islandTB (advanceTB acc.bodies other m) other true) other) j).btype =
            (tbdy acc.bodies j).btype ∧
         (tbdy (if (tbdy acc.bodies other).btype = BType.bstatic then
            islandTB (advanceTB acc.bodies other m) other true
          else wakeTB (islandTB (advanceTB acc.bodies other m) other true) other) j).bullet =
            (tbdy acc.bodies j).bullet) ∧
        ((tbdy (if (tbdy acc.bodies other).btype = BType.bstatic then
            islandTB (advanceTB acc.bodies other m) other true
          else wakeTB (islandTB (advanceTB acc.bodies other m) other true) other) j).alpha0 =
            (tbdy acc.bodies j).alpha0 ∨
         (tbdy (if (tbdy acc.bodies other).btype = BType.bstatic then
            islandTB (advanceTB acc.bodies other m) other true
          else wakeTB (islandTB (advanceTB acc.bodies other m) other true) other) j).alpha0 = m) ∧
        ((tbdy (if (tbdy acc.bodies other).btype = BType.bstatic then
            islandTB (advanceTB acc.bodies other m) other true
          else wakeTB (islandTB (advanceTB acc.bodies other m) other true) other) j).awake =
            true → (tbdy acc.bodies j).awake = true ∨ j = other) := by
      intro j
      split_ifs with hstat
      · have h1 := islandTB_fields (advanceTB acc.bodies other m) other true j
        have h2 := advanceTB_fields acc.bodies other m j
        have h3 := advanceTB_alpha acc.bodies other m j
        refine ⟨⟨h1.2.1.trans h2.2.1, h1.2.2.1.trans h2.2.2.1⟩, ?_, ?_⟩
        · rcases h3 with h3 | h3
          · exact Or.inl (h1.1.trans h3)
          · exact Or.inr (h1.1.trans h3)
        · intro hw
          exact Or.inl (h2.1 ▸ (h1.2.2.2 ▸ hw))
      · have h0 := wakeTB_fields (islandTB (advanceTB acc.bodies other m) other true) other j
        have h0w := wakeTB_awake (islandTB (advanceTB acc.bodies other m) other true) other j
        have h1 := islandTB_fields (advanceTB acc.bodies other m) other true j
        have h2 := advanceTB_fields acc.bodies other m j
        have h3 := advanceTB_alpha acc.bodies other m j
        refine ⟨⟨(h0.2.1.trans h1.2.1).trans h2.2.1,
          (h0.2.2.1.trans h1.2.2.1).trans h2.2.2.1⟩, ?_, ?_⟩
        · rcases h3 with h3 | h3
          · exact Or.inl ((h0.1.trans h1.1).trans h3)
          · exact Or.inr ((h0.1.trans h1.1).trans h3)
        · intro hw
          rcases h0w hw with hw2 | hw2
          · exact Or.inl (h2.1 ▸ (h1.2.2.2 ▸ hw2))
          · exact Or.inr hw2
    have hTlen : (if (tbdy acc.bodies other).btype = BType.bstatic then
          islandTB (advanceTB acc.bodies other m) other true
        else wakeTB (islandTB (advanceTB acc.bodies other m) other true) other).length =
        acc.bodies.length := by
      split_ifs with hstat
      · exact (islandTB_length _ _ _).trans (advanceTB_length _ _ _)
      · exact ((wakeTB_length _ _).trans (islandTB_length _ _ _)).trans
          (advanceTB_length _ _ _)
    have hTo : (tbdy (if (tbdy acc.bodies other).btype = BType.bstatic then
          islandTB (advanceTB acc.bodies other m) other true
        else wakeTB (islandTB (advanceTB acc.bodies other m) other true) other) other).alpha0 =
        m := by
      split_ifs with hstat
      · exact (islandTB_fields (advanceTB acc.bodies other m) other true other).1.trans
          (advanceTB_alpha_self acc.bodies other m hother_lt)
      · exact ((wakeTB_fields (islandTB (advanceTB acc.bodies other m) other true)
          other other).1.trans
          (islandTB_fields (advanceTB acc.bodies other m) other true other).1).trans
          (advanceTB_alpha_self acc.bodies other m hother_lt)
    rw [heq]
    refine ⟨⟨(acc.contacts.length_set ci _).trans h.clen, hTlen.trans h.blen, ?_, ?_, ?_,
      ?_, List.mem_append_left _ h.cain, List.mem_append_left _ h.cbin, ?_, ?_⟩,
      List.mem_append_left _ hbody⟩
    · intro j
      exact ⟨(hT j).1.1.trans (h.bpres j).1, (hT j).1.2.trans (h.bpres j).2⟩
    · intro j
      rcases (hT j).2.1 with ha | ha
      · rw [ha]; exact h.balpha j
      · exact Or.inr ha
    · intro j hw
      rcases (hT j).2.2 hw with hw2 | hw2
      · rcases h.bawake j hw2 with hs | hs
        · exact Or.inl hs
        · exact Or.inr (List.mem_append_left _ hs)
      · subst hw2
        exact Or.inr (List.mem_append_right _ (List.mem_singleton.mpr rfl))
    · intro bi hbi
      rcases List.mem_append.mp hbi with hbi | hbi
      · rcases (hT bi).2.1 with ha | ha
        · rw [ha]; exact h.bmem bi hbi
        · exact ha
      · have hbo : bi = other := List.mem_singleton.mp hbi
        subst hbo
        exact hTo
    · intro k c2 hk2
      rw [hTlen]
      exact hends { c with enabled := (env.upd acc.updN).1, touching := (env.upd acc.updN).2, islandFlag := true } rfl rfl k c2 hk2
    · exact hbc { c with enabled := (env.upd acc.updN).1, touching := (env.upd acc.updN).2, islandFlag := true } (acc.islB ++ [other])
        (if (tbdy acc.bodies other).btype = BType.bstatic then
          islandTB (advanceTB acc.bodies other m) other true
        else wakeTB (islandTB (advanceTB acc.bodies other m) other true) other)
        rfl rfl rfl (fun bi hbi => List.mem_append_left _ hbi)
        (List.mem_append_left _ hbody) (fun j => (hT j).1.1)

theorem buildBody_BP (env : TOIEnv) (st : TState) (sc : ScanAcc) (m : ℚ) (cA cB : ℕ)
    (body : ℕ) (acc : BuildAcc)
    (h : BP st sc m cA cB acc) (hbody : body ∈ acc.islB) :
    BP st sc m cA cB (buildBody env m body acc) := by
  unfold buildBody
  split_ifs with hdynAcc
  · have hdyn : (tbdy sc.bodies body).btype = BType.dynamic :=
      (h.bpres body).1.symm.trans hdynAcc
    have hres := foldl_pres (buildStep env m body)
      (fun a => BP st sc m cA cB a ∧ body ∈ a.islB)
      (fun a y ha => buildStep_BP env st sc m cA cB body a y hdyn ha.1 ha.2)
      (List.range acc.contacts.length) { acc with stop := false }
      ⟨⟨h.clen, h.blen, h.bpres, h.balpha, h.bawake, h.bmem, h.cain, h.cbin,
        h.ends, h.bcrel⟩, hbody⟩
    exact ⟨hres.1.clen, hres.1.blen, hres.1.bpres, hres.1.balpha, hres.1.bawake,
      hres.1.bmem, hres.1.cain, hres.1.cbin, hres.1.ends, hres.1.bcrel⟩
  · exact h

/-! ### TOI loop: flag reset and TOI invalidation -/

theorem invalStep_bodies (pr : List TBody × List TContact) (bi : ℕ) (j : ℕ) :
    (tbdy (invalStep pr bi).1 j).alpha0 = (tbdy pr.1 j).alpha0 ∧
    (tbdy (invalStep pr bi).1 j).awake = (tbdy pr.1 j).awake ∧
    (tbdy (invalStep pr bi).1 j).btype = (tbdy pr.1 j).btype ∧
    (tbdy (invalStep pr bi).1 j).bullet = (tbdy pr.1 j).bullet := by
  have hf := islandTB_fields pr.1 bi false j
  unfold invalStep
  split_ifs <;> exact ⟨hf.1, hf.2.2.2, hf.2.1, hf.2.2.1⟩

theorem invalStep_len (pr : List TBody × List TContact) (bi : ℕ) :
    (invalStep pr bi).1.length = pr.1.length ∧
    (invalStep pr bi).2.length = pr.2.length := by
  unfold invalStep
  split_ifs
  · exact ⟨islandTB_length _ _ _, List.length_map _ _⟩
  · exact ⟨islandTB_length _ _ _, rfl⟩

theorem invalidateIsland_bodies (islB : List ℕ) :
    ∀ (bodies : List TBody) (contacts : List TContact) (j : ℕ),
      (tbdy (invalidateIsland bodies contacts islB).1 j).alpha0 = (tbdy bodies j).alpha0 ∧
      (tbdy (invalidateIsland bodies contacts islB).1 j).awake = (tbdy bodies j).awake ∧
      (tbdy (invalidateIsland bodies contacts islB).1 j).btype = (tbdy bodies j).btype ∧
      (tbdy (invalidateIsland bodies contacts islB).1 j).bullet = (tbdy bodies j).bullet := by
  induction islB with
  | nil => intro bodies contacts j; exact ⟨rfl, rfl, rfl, rfl⟩
  | cons bi l ih =>
    intro bodies contacts j
    have hstep := invalStep_bodies (bodies, contacts) bi j
    have hrec := ih (invalStep (bodies, contacts) bi).1 (invalStep (bodies, contacts) bi).2 j
    have hfold : invalidateIsland bodies contacts (bi :: l) =
        invalidateIsland (invalStep (bodies, contacts) bi).1
          (invalStep (bodies, contacts) bi).2 l := rfl
    rw [hfold]
    exact ⟨hrec.1.trans hstep.1, hrec.2.1.trans hstep.2.1, hrec.2.2.1.trans hstep.2.2.1,
      hrec.2.2.2.trans hstep.2.2.2⟩

theorem invalidateIsland_len (islB : List ℕ) :
    ∀ (bodies : List TBody) (contacts : List TContact),
      (invalidateIsland bodies contacts islB).1.length = bodies.length ∧
      (invalidateIsland bodies contacts islB).2.length = contacts.length := by
  induction islB with
  | nil => intro bodies contacts; exact ⟨rfl, rfl⟩
  | cons bi l ih =>
    intro bodies contacts
    have hstep := invalStep_len (bodies, contacts) bi
    have hrec := ih (invalStep (bodies, contacts) bi).1 (invalStep (bodies, contacts) bi).2
    have hfold : invalidateIsland bodies contacts (bi :: l) =
        invalidateIsland (invalStep (bodies, contacts) bi).1
          (invalStep (bodies, contacts) bi).2 l := rfl
    rw [hfold]
    exact ⟨hrec.1.trans hstep.1, hrec.2.trans hstep.2⟩

theorem invalidateIsland_contacts (islB : List ℕ) :
    ∀ (bodies : List TBody) (contacts : List TContact) (k : ℕ) (c2 : TContact),
      contacts.get? k = some c2 →
      ((∃ bi ∈ islB, (tbdy bodies bi).btype = BType.dynamic ∧ (c2.a = bi ∨ c2.b = bi)) →
        (invalidateIsland bodies contacts islB).2.get? k =
          some { c2 with toiFlag := false, islandFlag := false }) ∧
      ((∀ bi ∈ islB, ¬((tbdy bodies bi).btype = BType.dynamic ∧ (c2.a = bi ∨ c2.b = bi))) →
        (invalidateIsland bodies contacts islB).2.get? k = some c2) := by
  induction islB with
  | nil =>
    intro bodies contacts k c2 hk
    constructor
    · rintro ⟨bi, hbi, -⟩
      exact absurd hbi (List.not_mem_nil bi)
    · intro _
      exact hk
  | cons bi l ih =>
    intro bodies contacts k c2 hk
    have hfold : invalidateIsland bodies contacts (bi :: l) =
        invalidateIsland (invalStep (bodies, contacts) bi).1
          (invalStep (bodies, contacts) bi).2 l := rfl
    have hB : ∀ j, (tbdy (invalStep (bodies, contacts) bi).1 j).btype =
        (tbdy bodies j).btype :=
      fun j => (invalStep_bodies (bodies, contacts) bi j).2.2.1
    by_cases hd : (tbdy bodies bi).btype = BType.dynamic
    · have hC : (invalStep (bodies, contacts) bi).2 =
          contacts.map (fun c => if c.a = bi ∨ c.b = bi then
            { c with toiFlag := false, islandFlag := false } else c) := by
        unfold invalStep
        simp [hd]
      by_cases hinc : c2.a = bi ∨ c2.b = bi
      · have hk1 : (invalStep (bodies, contacts) bi).2.get? k =
            some { c2 with toiFlag := false, islandFlag := false } := by
          rw [hC, List.get?_map, hk]
          simp [hinc]
        have hi := ih (invalStep (bodies, contacts) bi).1 (invalStep (bodies, contacts) bi).2
          k { c2 with toiFlag := false, islandFlag := false } hk1
        constructor
        · intro _
          rw [hfold]
          by_cases h2 : ∃ bj ∈ l,
              (tbdy (invalStep (bodies, contacts) bi).1 bj).btype = BType.dynamic ∧
              (c2.a = bj ∨ c2.b = bj)
          · exact hi.1 h2
          · refine hi.2 ?_
            intro bj hbj hcontra
            exact h2 ⟨bj, hbj, hcontra.1, hcontra.2⟩
        · intro hall
          exact absurd ⟨hd, hinc⟩ (hall bi (List.mem_cons_self bi l))
      · have hk1 : (invalStep (bodies, contacts) bi).2.get? k = some c2 := by
          rw [hC, List.get?_map, hk]
          simp [hinc]
        have hi := ih (invalStep (bodies, contacts) bi).1 (invalStep (bodies, contacts) bi).2
          k c2 hk1
        constructor
        · rintro ⟨bj, hbj, hbd, hbinc⟩
          rcases List.mem_cons.mp hbj with rfl | hbj2
          · exact absurd hbinc hinc
          · rw [hfold]
            exact hi.1 ⟨bj, hbj2, by rw [hB bj]; exact hbd, hbinc⟩
        · intro hall
          rw [hfold]
          refine hi.2 ?_
          intro bj hbj
          rw [hB bj]
          exact hall bj (List.mem_cons_of_mem bi hbj)
    · have hC : (invalStep (bodies, contacts) bi).2 = contacts := by
        unfold invalStep
        simp [hd]
      have hk1 : (invalStep (bodies, contacts) bi).2.get? k = some c2 := by
        rw [hC]
        exact hk
      have hi := ih (invalStep (bodies, contacts) bi).1 (invalStep (bodies, contacts) bi).2
        k c2 hk1
      constructor
      · rintro ⟨bj, hbj, hbd, hbinc⟩
        rcases List.mem_cons.mp hbj with rfl | hbj2
        · exact absurd hbd hd
        · rw [hfold]
          exact hi.1 ⟨bj, hbj2, by rw [hB bj]; exact hbd, hbinc⟩
      · intro hall
        rw [hfold]
        refine hi.2 ?_
        intro bj hbj
        rw [hB bj]
        exact hall bj (List.mem_cons_of_mem bi hbj)

theorem newContacts_mem (bodies : List TBody) (islB : List ℕ) (l : List TContact)
    (nc' : TContact) (h : nc' ∈ newContacts bodies islB l) :
    nc'.enabled = true ∧ nc'.islandFlag = false ∧ nc'.toiFlag = false ∧
    nc'.toiCount = 0 ∧ nc'.toi = 1 ∧
    ∃ nc ∈ l, nc'.a = nc.a ∧ nc'.b = nc.b ∧ nc'.sensor = nc.sensor ∧
      ∃ bi ∈ islB, (tbdy bodies bi).btype = BType.dynamic ∧ (nc.a = bi ∨ nc.b = bi) := by
  unfold newContacts at h
  rw [List.mem_map] at h
  obtain ⟨nc, hmem, hEq⟩ := h
  rw [List.mem_filter] at hmem
  obtain ⟨hl, hcond⟩ := hmem
  subst hEq
  refine ⟨rfl, rfl, rfl, rfl, rfl, nc, hl, rfl, rfl, rfl, ?_⟩
  rw [List.any_eq_true] at hcond
  obtain ⟨bi, hbi, hbool⟩ := hcond
  rw [Bool.and_eq_true] at hbool
  refine ⟨bi, hbi, of_decide_eq_true hbool.1, ?_⟩
  have hor := hbool.2
  rw [Bool.or_eq_true] at hor
  rcases hor with h' | h'
  · exact Or.inl (by simpa using h')
  · exact Or.inr (by simpa using h')

/-! ### TOI loop: one full iteration -/

set_option maxHeartbeats 2000000 in
theorem toiIter_cases (env : TOIEnv) (st : TState) :
    (st.done = true ∧ toiIter env st = st) ∨
    (st.done = false ∧
      toiIter env st =
        { st with
            bodies := (toiScan env st).bodies
            contacts := (toiScan env st).contacts
            betaN := (toiScan env st).betaN
            stepComplete := true
            done := true }) ∨
    (st.done = false ∧
      ∃ ci c, (toiScan env st).minIdx = some ci ∧
        ¬(1 - 10 * cb2_epsilonQ < (toiScan env st).minAlpha) ∧
        (toiScan env st).contacts.get? ci = some c ∧
        ((((env.upd st.updN).1 = false ∨ (env.upd st.updN).2 = false) ∧
          toiIter env st =
            { st with
                bodies := (toiScan env st).bodies
                contacts := (toiScan env st).contacts.set ci
                  { c with
                      enabled := false
                      touching := (env.upd st.updN).2
                      toiFlag := false
                      toiCount := c.toiCount + 1 }
                betaN := (toiScan env st).betaN
                updN := st.updN + 1
                lastMin := (toiScan env st).minAlpha }) ∨
         (¬((env.upd st.updN).1 = false ∨ (env.upd st.updN).2 = false) ∧
          ∃ acc2,
            acc2 = buildBody env (toiScan env st).minAlpha c.b
              (buildBody env (toiScan env st).minAlpha c.a
                ⟨islandTB (islandTB (wakeTB (wakeTB (advanceTB (advanceTB
                      (toiScan env st).bodies c.a (toiScan env st).minAlpha) c.b
                      (toiScan env st).minAlpha) c.a) c.b) c.a true) c.b true,
                  (toiScan env st).contacts.set ci
                    { c with
                        enabled := (env.upd st.updN).1
                        touching := (env.upd st.updN).2
                        toiFlag := false
                        toiCount := c.toiCount + 1
                        islandFlag := true },
                  [c.a, c.b], [ci], st.updN + 1, false⟩) ∧
            (toiIter env st).bodies =
                (invalidateIsland acc2.bodies acc2.contacts acc2.islB).1 ∧
            (toiIter env st).contacts =
                (invalidateIsland acc2.bodies acc2.contacts acc2.islB).2 ++
                  newContacts (invalidateIsland acc2.bodies acc2.contacts acc2.islB).1
                    acc2.islB (env.news st.newsN) ∧
            (toiIter env st).lastMin = (toiScan env st).minAlpha))) := by
  by_cases hdone : st.done = true
  · exact Or.inl ⟨hdone, by unfold toiIter; rw [if_pos hdone]⟩
  have hdf : st.done = false := Bool.eq_false_iff.mpr (fun he => hdone he)
  cases hmin : (toiScan env st).minIdx with
  | none =>
    refine Or.inr (Or.inl ⟨hdf, ?_⟩)
    unfold toiIter
    simp only [if_neg hdone, hmin]
  | some ci =>
    by_cases hthr : 1 - 10 * cb2_epsilonQ < (toiScan env st).minAlpha
    · refine Or.inr (Or.inl ⟨hdf, ?_⟩)
      unfold toiIter
      simp only [if_neg hdone, hmin, if_pos hthr]
    cases hgci : (toiScan env st).contacts.get? ci with
    | none =>
      refine Or.inr (Or.inl ⟨hdf, ?_⟩)
      unfold toiIter
      simp only [if_neg hdone, hmin, if_neg hthr, hgci]
    | some c =>
      refine Or.inr (Or.inr ⟨hdf, ci, c, rfl, hthr, hgci, ?_⟩)
      by_cases hu : (env.upd st.updN).1 = false ∨ (env.upd st.updN).2 = false
      · refine Or.inl ⟨hu, ?_⟩
        unfold toiIter
        simp only [if_neg hdone, hmin, if_neg hthr, hgci, if_pos hu]
      · refine Or.inr ⟨hu, _, rfl, ?_, ?_, ?_⟩ <;>
          unfold toiIter <;>
          simp only [if_neg hdone, hmin, if_neg hthr, hgci, if_neg hu] <;>
          by_cases hss : st.subStepping = true <;>
          simp [hss]

/-- Facts carried by every contact slot of the scan result: endpoints are
the entry contact's, hence in range and with a dynamic endpoint; a cached
slot has its TOI in `[0,1]`. -/
theorem scanContactFacts (env : TOIEnv) (st : TState) (hI : TInv st)
    (hSP : SP env st (toiScan env st)) :
    ∀ k c2, (toiScan env st).contacts.get? k = some c2 →
      ((tbdy (toiScan env st).bodies c2.a).btype = BType.dynamic ∨
        (tbdy (toiScan env st).bodies c2.b).btype = BType.dynamic) ∧
      (c2.a < (toiScan env st).bodies.length ∧ c2.b < (toiScan env st).bodies.length) ∧
      (c2.toiFlag = true → 0 ≤ c2.toi ∧ c2.toi ≤ 1) := by
  intro k c2 hk
  rcases hSP.crel k with hcr |
      ⟨c0, c', hc0, hc', ha, hb, -, -, -, -, -, -, -, -, hlo2, hhi2⟩
  · have hco : st.contacts.get? k = some c2 := hcr ▸ hk
    have hmem : c2 ∈ st.contacts := List.mem_iff_get?.mpr ⟨k, hco⟩
    refine ⟨?_, ?_, fun hf => hI.toiBounds c2 hmem hf⟩
    · rw [(hSP.bpres c2.a).2.1, (hSP.bpres c2.b).2.1]
      exact hI.dynEnd c2 hmem
    · rw [hSP.blen]
      exact hI.endLt c2 hmem
  · have hcc : c' = c2 := Option.some.inj (hc'.symm.trans hk)
    subst hcc
    have hmem : c0 ∈ st.contacts := List.mem_iff_get?.mpr ⟨k, hc0⟩
    refine ⟨?_, ?_, fun hf => ⟨hlo2, hhi2⟩⟩
    · rw [ha, hb, (hSP.bpres c0.a).2.1, (hSP.bpres c0.b).2.1]
      exact hI.dynEnd c0 hmem
    · rw [ha, hb, hSP.blen]
      exact hI.endLt c0 hmem

theorem stall_TInv (env : TOIEnv) (st : TState) (hI : TInv st)
    (hSP : SP env st (toiScan env st))
    (hDone : ∀ ci ∈ List.range st.contacts.length, ScanDone ci (toiScan env st)) :
    TInv { st with
        bodies := (toiScan env st).bodies
        contacts := (toiScan env st).contacts
        betaN := (toiScan env st).betaN
        stepComplete := true
        done := true } := by
  have hidx : ∀ k c2, (toiScan env st).contacts.get? k = some c2 →
      ScanDone k (toiScan env st) := by
    intro k c2 hk
    refine hDone k (List.mem_range.mpr ?_)
    have hlt := (List.get?_eq_some.mp hk).1
    rwa [hSP.clen] at hlt
  refine ⟨?_, ?_, hI.minLo, hI.minHi, hSP.alo, hSP.ahi, ?_, ?_, ?_⟩
  · intro c2 hc2 hen2 hcnt2 hfl2
    obtain ⟨k, hk⟩ := List.mem_iff_get?.mp hc2
    exact le_trans hSP.mlo ((hidx k c2 hk).1 c2 hk hen2 hcnt2 hfl2)
  · intro c2 hc2 hen2 hcnt2 hfl2 hsen2 hact2 hcol2
    obtain ⟨k, hk⟩ := List.mem_iff_get?.mp hc2
    exact ((hidx k c2 hk).2 c2 hk hen2 hcnt2 hfl2 hsen2 hact2 hcol2).elim
  · intro c2 hc2 hfl2
    obtain ⟨k, hk⟩ := List.mem_iff_get?.mp hc2
    exact (scanContactFacts env st hI hSP k c2 hk).2.2 hfl2
  · intro c2 hc2
    obtain ⟨k, hk⟩ := List.mem_iff_get?.mp hc2
    exact (scanContactFacts env st hI hSP k c2 hk).1
  · intro c2 hc2
    obtain ⟨k, hk⟩ := List.mem_iff_get?.mp hc2
    exact (scanContactFacts env st hI hSP k c2 hk).2.1

theorem restore_TInv (env : TOIEnv) (st : TState) (hI : TInv st)
    (hSP : SP env st (toiScan env st))
    (hDone : ∀ k ∈ List.range st.contacts.length, ScanDone k (toiScan env st))
    (ci : ℕ) (c : TContact) (hgci : (toiScan env st).contacts.get? ci = some c) :
    TInv { st with
        bodies := (toiScan env st).bodies
        contacts := (toiScan env st).contacts.set ci
          { c with
              enabled := false
              touching := (env.upd st.updN).2
              toiFlag := false
              toiCount := c.toiCount + 1 }
        betaN := (toiScan env st).betaN
        updN := st.updN + 1
        lastMin := (toiScan env st).minAlpha } := by
  have hciLt : ci < (toiScan env st).contacts.length := (List.get?_eq_some.mp hgci).1
  have hidx : ∀ k c2, (toiScan env st).contacts.get? k = some c2 →
      ScanDone k (toiScan env st) := by
    intro k c2 hk
    refine hDone k (List.mem_range.mpr ?_)
    have hlt := (List.get?_eq_some.mp hk).1
    rwa [hSP.clen] at hlt
  have hsplit : ∀ c2, c2 ∈ (toiScan env st).contacts.set ci
      { c with
          enabled := false
          touching := (env.upd st.updN).2
          toiFlag := false
          toiCount := c.toiCount + 1 } →
      c2 = { c with
          enabled := false
          touching := (env.upd st.updN).2
          toiFlag := false
          toiCount := c.toiCount + 1 } ∨
      ∃ k, (toiScan env st).contacts.get? k = some c2 := by
    intro c2 hc2
    obtain ⟨k, hk⟩ := List.mem_iff_get?.mp hc2
    by_cases hkci : k = ci
    · subst hkci
      rw [List.get?_set_eq_of_lt _ hciLt] at hk
      exact Or.inl (Option.some.inj hk.symm)
    · rw [List.get?_set_ne _ _ (fun he => hkci he.symm)] at hk
      exact Or.inr ⟨k, hk⟩
  refine ⟨?_, ?_, le_trans hI.minLo hSP.mlo, hSP.mhi, hSP.alo, hSP.ahi, ?_, ?_, ?_⟩
  · intro c2 hc2 hen2 hcnt2 hfl2
    rcases hsplit c2 hc2 with rfl | ⟨k, hk⟩
    · exact Bool.noConfusion hen2
    · exact (hidx k c2 hk).1 c2 hk hen2 hcnt2 hfl2
  · intro c2 hc2 hen2 hcnt2 hfl2 hsen2 hact2 hcol2
    rcases hsplit c2 hc2 with rfl | ⟨k, hk⟩
    · exact Bool.noConfusion hen2
    · exact ((hidx k c2 hk).2 c2 hk hen2 hcnt2 hfl2 hsen2 hact2 hcol2).elim
  · intro c2 hc2 hfl2
    rcases hsplit c2 hc2 with rfl | ⟨k, hk⟩
    · exact Bool.noConfusion hfl2
    · exact (scanContactFacts env st hI hSP k c2 hk).2.2 hfl2
  · intro c2 hc2
    rcases hsplit c2 hc2 with rfl | ⟨k, hk⟩
    · exact (scanContactFacts env st hI hSP ci c hgci).1
    · exact (scanContactFacts env st hI hSP k c2 hk).1
  · intro c2 hc2
    rcases hsplit c2 hc2 with rfl | ⟨k, hk⟩
    · exact (scanContactFacts env st hI hSP ci c hgci).2.1
    · exact (scanContactFacts env st hI hSP k c2 hk).2.1

set_option maxHeartbeats 1000000 in
theorem proceed_BP (env : TOIEnv) (st : TState) (hI : TInv st)
    (hSP : SP env st (toiScan env st))
    (ci : ℕ) (c : TContact) (hgci : (toiScan env st).contacts.get? ci = some c) :
    BP st (toiScan env st) (toiScan env st).minAlpha c.a c.b
      (buildBody env (toiScan env st).minAlpha c.b
        (buildBody env (toiScan env st).minAlpha c.a
          ⟨islandTB (islandTB (wakeTB (wakeTB (advanceTB (advanceTB
                (toiScan env st).bodies c.a (toiScan env st).minAlpha) c.b
                (toiScan env st).minAlpha) c.a) c.b) c.a true) c.b true,
            (toiScan env st).contacts.set ci
              { c with
                  enabled := (env.upd st.updN).1
                  touching := (env.upd st.updN).2
                  toiFlag := false
                  toiCount := c.toiCount + 1
                  islandFlag := true },
            [c.a, c.b], [ci], st.updN + 1, false⟩)) := by
  have hciLt : ci < (toiScan env st).contacts.length := (List.get?_eq_some.mp hgci).1
  have hfc := scanContactFacts env st hI hSP ci c hgci
  have halt : c.a < (toiScan env st).bodies.length := hfc.2.1.1
  have hblt : c.b < (toiScan env st).bodies.length := hfc.2.1.2
  set m := (toiScan env st).minAlpha with hmdef
  set B0 := (toiScan env st).bodies with hB0def
  set A1 := advanceTB B0 c.a m with hA1def
  set A2 := advanceTB A1 c.b m with hA2def
  set W1 := wakeTB A2 c.a with hW1def
  set W2 := wakeTB W1 c.b with hW2def
  set I1 := islandTB W2 c.a true with hI1def
  set I2 := islandTB I1 c.b true with hI2def
  have hB3 : ∀ j,
      ((tbdy I2 j).btype = (tbdy B0 j).btype ∧ (tbdy I2 j).bullet = (tbdy B0 j).bullet) ∧
      ((tbdy I2 j).alpha0 = (tbdy B0 j).alpha0 ∨ (tbdy I2 j).alpha0 = m) ∧
      ((tbdy I2 j).awake = true → (tbdy B0 j).awake = true ∨ (j = c.a ∨ j = c.b)) := by
    intro j
    have f1 := advanceTB_fields B0 c.a m j
    have a1 := advanceTB_alpha B0 c.a m j
    have f2 := advanceTB_fields A1 c.b m j
    have a2 := advanceTB_alpha A1 c.b m j
    have f3 := wakeTB_fields A2 c.a j
    have w3 := wakeTB_awake A2 c.a j
    have f4 := wakeTB_fields W1 c.b j
    have w4 := wakeTB_awake W1 c.b j
    have f5 := islandTB_fields W2 c.a true j
    have f6 := islandTB_fields I1 c.b true j
    refine ⟨⟨?_, ?_⟩, ?_, ?_⟩
    · exact ((((f6.2.1.trans f5.2.1).trans f4.2.1).trans f3.2.1).trans f2.2.1).trans f1.2.1
    · exact ((((f6.2.2.1.trans f5.2.2.1).trans f4.2.2.1).trans f3.2.2.1).trans
        f2.2.2.1).trans f1.2.2.1
    · have e : (tbdy I2 j).alpha0 = (tbdy A2 j).alpha0 :=
        (f6.1.trans f5.1).trans (f4.1.trans f3.1)
      rw [e]
      rcases a2 with h2 | h2
      · rw [h2]
        exact a1
      · exact Or.inr h2
    · intro hw
      have e2 : (tbdy I2 j).awake = (tbdy W2 j).awake := f6.2.2.2.trans f5.2.2.2
      rw [e2] at hw
      rcases w4 hw with hw2 | hw2
      · rcases w3 hw2 with hw3 | hw3
        · left
          rw [← f1.1, ← f2.1]
          exact hw3
        · exact Or.inr (Or.inl hw3)
      · exact Or.inr (Or.inr hw2)
  have hB3len : I2.length = B0.length := by
    rw [hI2def, hI1def, hW2def, hW1def, hA2def, hA1def]
    rw [islandTB_length, islandTB_length, wakeTB_length, wakeTB_length,
      advanceTB_length, advanceTB_length]
  have hA2a : ∀ j, (j = c.a ∨ j = c.b) → (tbdy A2 j).alpha0 = m := by
    intro j hj
    by_cases hjb : j = c.b
    · subst hjb
      rw [hA2def]
      refine advanceTB_alpha_self A1 c.b m ?_
      rw [hA1def, advanceTB_length]
      exact hblt
    · have hja : j = c.a := hj.resolve_right hjb
      subst hja
      rw [hA2def, advanceTB, tbdy_setTB_ne A1 c.b _ c.a hjb]
      rw [hA1def]
      exact advanceTB_alpha_self B0 c.a m halt
  have hI2a : ∀ j, (j = c.a ∨ j = c.b) → (tbdy I2 j).alpha0 = m := by
    intro j hj
    have e : (tbdy I2 j).alpha0 = (tbdy A2 j).alpha0 :=
      ((islandTB_fields I1 c.b true j).1.trans (islandTB_fields W2 c.a true j).1).trans
        ((wakeTB_fields W1 c.b j).1.trans (wakeTB_fields A2 c.a j).1)
    rw [e]
    exact hA2a j hj
  have hBP0 : BP st (toiScan env st) m c.a c.b
      ⟨I2, (toiScan env st).contacts.set ci
        { c with
            enabled := (env.upd st.updN).1
            touching := (env.upd st.updN).2
            toiFlag := false
            toiCount := c.toiCount + 1
            islandFlag := true },
        [c.a, c.b], [ci], st.updN + 1, false⟩ := by
    refine ⟨?_, ?_, ?_, ?_, ?_, ?_, ?_, ?_, ?_, ?_⟩
    · exact ((toiScan env st).contacts.length_set ci _).trans hSP.clen
    · exact hB3len.trans hSP.blen
    · intro j; exact (hB3 j).1
    · intro j; exact (hB3 j).2.1
    · intro j hw
      rcases (hB3 j).2.2 hw with hw2 | hw2
      · exact Or.inl hw2
      · right
        rcases hw2 with hw2 | hw2 <;> subst hw2
        · exact List.mem_cons_self _ _
        · exact List.mem_cons_of_mem _ (List.mem_singleton.mpr rfl)
    · intro bi hbi
      have hbi2 : bi = c.a ∨ bi = c.b := by simpa using hbi
      exact hI2a bi hbi2
    · exact List.mem_cons_self _ _
    · exact List.mem_cons_of_mem _ (List.mem_singleton.mpr rfl)
    · intro k c2 hk2
      by_cases hkci : k = ci
      · subst hkci
        rw [List.get?_set_eq_of_lt _ hciLt] at hk2
        cases Option.some.inj hk2
        show c.a < I2.length ∧ c.b < I2.length
        rw [hB3len]
        exact ⟨halt, hblt⟩
      · rw [List.get?_set_ne _ _ (fun he => hkci he.symm)] at hk2
        have hsf := (scanContactFacts env st hI hSP k c2 hk2).2.1
        show c2.a < I2.length ∧ c2.b < I2.length
        rw [hB3len]
        exact hsf
    · intro k
      by_cases hkci : k = ci
      · subst hkci
        right
        refine ⟨c, _, hgci, List.get?_set_eq_of_lt _ hciLt, rfl, rfl, Nat.le_succ _, ?_⟩
        rcases hfc.1 with hdyn | hdyn
        · exact ⟨c.a, List.mem_cons_self _ _, by rw [(hB3 c.a).1.1]; exact hdyn, Or.inl rfl⟩
        · exact ⟨c.b, List.mem_cons_of_mem _ (List.mem_singleton.mpr rfl),
            by rw [(hB3 c.b).1.1]; exact hdyn, Or.inr rfl⟩
      · exact Or.inl (List.get?_set_ne _ _ (fun he => hkci he.symm))
  have hBP1 := buildBody_BP env st (toiScan env st) m c.a c.b c.a _ hBP0 hBP0.cain
  exact buildBody_BP env st (toiScan env st) m c.a c.b c.b _ hBP1 hBP1.cbin

set_option maxHeartbeats 1000000 in
theorem proceed_TInv (env : TOIEnv) (st : TState) (hI : TInv st)
    (hSP : SP env st (toiScan env st))
    (hDone : ∀ k ∈ List.range st.contacts.length, ScanDone k (toiScan env st))
    (hnews : ∀ n nc, nc ∈ env.news n → nc.a < st.bodies.length ∧ nc.b < st.bodies.length)
    (ci : ℕ) (c : TContact) (hgci : (toiScan env st).contacts.get? ci = some c)
    (acc2 : BuildAcc)
    (hacc2 : acc2 = buildBody env (toiScan env st).minAlpha c.b
      (buildBody env (toiScan env st).minAlpha c.a
        ⟨islandTB (islandTB (wakeTB (wakeTB (advanceTB (advanceTB
              (toiScan env st).bodies c.a (toiScan env st).minAlpha) c.b
              (toiScan env st).minAlpha) c.a) c.b) c.a true) c.b true,
          (toiScan env st).contacts.set ci
            { c with
                enabled := (env.upd st.updN).1
                touching := (env.upd st.updN).2
                toiFlag := false
                toiCount := c.toiCount + 1
                islandFlag := true },
          [c.a, c.b], [ci], st.updN + 1, false⟩))
    (s' : TState)
    (hbodies : s'.bodies = (invalidateIsland acc2.bodies acc2.contacts acc2.islB).1)
    (hcontacts : s'.contacts =
      (invalidateIsland acc2.bodies acc2.contacts acc2.islB).2 ++
        newContacts (invalidateIsland acc2.bodies acc2.contacts acc2.islB).1 acc2.islB
          (env.news st.newsN))
    (hlm : s'.lastMin = (toiScan env st).minAlpha) :
    TInv s' ∧ s'.bodies.length = st.bodies.length := by
  have hciLt : ci < (toiScan env st).contacts.length := (List.get?_eq_some.mp hgci).1
  have hfc := scanContactFacts env st hI hSP ci c hgci
  have halt : c.a < (toiScan env st).bodies.length := hfc.2.1.1
  have hblt : c.b < (toiScan env st).bodies.length := hfc.2.1.2
  have hidx : ∀ k c2, (toiScan env st).contacts.get? k = some c2 →
      ScanDone k (toiScan env st) := by
    intro k c2 hk
    refine hDone k (List.mem_range.mpr ?_)
    have hlt := (List.get?_eq_some.mp hk).1
    rwa [hSP.clen] at hlt
  set m := (toiScan env st).minAlpha with hmdef
  set B0 := (toiScan env st).bodies with hB0def
  set A1 := advanceTB B0 c.a m with hA1def
  set A2 := advanceTB A1 c.b m with hA2def
  set W1 := wakeTB A2 c.a with hW1def
  set W2 := wakeTB W1 c.b with hW2def
  set I1 := islandTB W2 c.a true with hI1def
  set I2 := islandTB I1 c.b true with hI2def
  have hmlo : (0:ℚ) ≤ m := le_trans hI.minLo hSP.mlo
  have hBP2 : BP st (toiScan env st) m c.a c.b acc2 := by
    rw [hacc2]
    exact proceed_BP env st hI hSP ci c hgci
  have hprB := fun j => invalidateIsland_bodies acc2.islB acc2.bodies acc2.contacts j
  have hprL := invalidateIsland_len acc2.islB acc2.bodies acc2.contacts
  have hlen' : s'.bodies.length = st.bodies.length := by
    rw [hbodies, hprL.1, hBP2.blen]
  have hislA : ∀ bi ∈ acc2.islB, (tbdy s'.bodies bi).alpha0 = m := by
    intro bi hbi
    rw [hbodies]
    exact ((hprB bi).1).trans (hBP2.bmem bi hbi)
  have hsplitF : ∀ c2, c2 ∈ s'.contacts →
      (∃ k c2x, acc2.contacts.get? k = some c2x ∧
        ((c2 = c2x ∧ ∀ bi ∈ acc2.islB,
            ¬((tbdy acc2.bodies bi).btype = BType.dynamic ∧ (c2x.a = bi ∨ c2x.b = bi))) ∨
         (c2 = { c2x with toiFlag := false, islandFlag := false } ∧
          ∃ bi ∈ acc2.islB, (tbdy acc2.bodies bi).btype = BType.dynamic ∧
            (c2x.a = bi ∨ c2x.b = bi)))) ∨
      c2 ∈ newContacts (invalidateIsland acc2.bodies acc2.contacts acc2.islB).1 acc2.islB
        (env.news st.newsN) := by
    intro c2 hc2
    rw [hcontacts] at hc2
    rcases List.mem_append.mp hc2 with hpr | hnew
    · left
      obtain ⟨k, hk⟩ := List.mem_iff_get?.mp hpr
      have hklt : k < acc2.contacts.length := by
        have hlt := (List.get?_eq_some.mp hk).1
        rwa [hprL.2] at hlt
      obtain ⟨c2x, hc2x⟩ : ∃ x, acc2.contacts.get? k = some x := ⟨_, List.get?_eq_get hklt⟩
      have hic := invalidateIsland_contacts acc2.islB acc2.bodies acc2.contacts k c2x hc2x
      by_cases hcond : ∃ bi ∈ acc2.islB, (tbdy acc2.bodies bi).btype = BType.dynamic ∧
          (c2x.a = bi ∨ c2x.b = bi)
      · have hres := hic.1 hcond
        exact ⟨k, c2x, hc2x, Or.inr ⟨(Option.some.inj (hres.symm.trans hk)).symm, hcond⟩⟩
      · have hall : ∀ bi ∈ acc2.islB, ¬((tbdy acc2.bodies bi).btype = BType.dynamic ∧
            (c2x.a = bi ∨ c2x.b = bi)) := fun bi hbi hcontra => hcond ⟨bi, hbi, hcontra⟩
        have hres := hic.2 hall
        exact ⟨k, c2x, hc2x, Or.inl ⟨(Option.some.inj (hres.symm.trans hk)).symm, hall⟩⟩
    · exact Or.inr hnew
  have hbtP : ∀ j, (tbdy s'.bodies j).btype = (tbdy B0 j).btype := by
    intro j
    rw [hbodies]
    exact ((hprB j).2.2.1).trans (hBP2.bpres j).1
  have hactP : ∀ j, tactiveB s'.bodies j = true →
      tactiveB B0 j = true ∨ j ∈ acc2.islB := by
    intro j hj
    unfold tactiveB at hj
    rw [Bool.and_eq_true] at hj
    obtain ⟨hw, hbt⟩ := hj
    rw [hbodies] at hw hbt
    rw [(hprB j).2.1] at hw
    rcases hBP2.bawake j hw with hw2 | hw2
    · left
      unfold tactiveB
      rw [Bool.and_eq_true]
      refine ⟨hw2, ?_⟩
      rw [(hprB j).2.2.1, (hBP2.bpres j).1] at hbt
      exact hbt
    · exact Or.inr hw2
  have hcolP : ∀ j, tcollideB s'.bodies j = tcollideB B0 j := by
    intro j
    rw [hbodies]
    have e1 := tcollideB_congr acc2.bodies
      (invalidateIsland acc2.bodies acc2.contacts acc2.islB).1 j
      ((hprB j).2.2.2) ((hprB j).2.2.1)
    have e2 := tcollideB_congr B0 acc2.bodies j (hBP2.bpres j).2 (hBP2.bpres j).1
    exact e1.trans e2
  have hsc2 : ∀ k c2x, acc2.contacts.get? k = some c2x →
      (∀ bi ∈ acc2.islB, ¬((tbdy acc2.bodies bi).btype = BType.dynamic ∧
        (c2x.a = bi ∨ c2x.b = bi))) →
      (toiScan env st).contacts.get? k = some c2x := by
    intro k c2x hk hnone
    rcases hBP2.bcrel k with hcr | ⟨csc, c2y, hsc, hac, ha2, hb2, -, bi, hbi, hbd, hbinc⟩
    · rw [← hcr]; exact hk
    · have hcc : c2y = c2x := Option.some.inj (hac.symm.trans hk)
      subst hcc
      exact absurd ⟨hbd, hbinc⟩ (hnone bi hbi)
  have hend2 : ∀ k c2x, acc2.contacts.get? k = some c2x →
      ∃ csc, (toiScan env st).contacts.get? k = some csc ∧ c2x.a = csc.a ∧ c2x.b = csc.b := by
    intro k c2x hk
    rcases hBP2.bcrel k with hcr | ⟨csc, c2y, hsc, hac, ha2, hb2, -, -⟩
    · exact ⟨c2x, hcr ▸ hk, rfl, rfl⟩
    · have hcc : c2y = c2x := Option.some.inj (hac.symm.trans hk)
      subst hcc
      exact ⟨csc, hsc, ha2, hb2⟩
  refine ⟨⟨?_, ?_, ?_, ?_, ?_, ?_, ?_, ?_, ?_⟩, hlen'⟩
  · intro c2 hc2 hen2 hcnt2 hfl2
    rw [hlm]
    rcases hsplitF c2 hc2 with ⟨k, c2x, hk, hcase⟩ | hnew
    · rcases hcase with ⟨rfl, hnone⟩ | ⟨rfl, -⟩
      · have hsck := hsc2 k c2 hk hnone
        exact (hidx k c2 hsck).1 c2 hsck hen2 hcnt2 hfl2
      · exact Bool.noConfusion hfl2
    · have hmem := newContacts_mem _ _ _ c2 hnew
      rw [hmem.2.2.1] at hfl2
      exact Bool.noConfusion hfl2
  · intro c2 hc2 hen2 hcnt2 hfl2 hsen2 hact2 hcol2
    rw [hlm]
    rcases hsplitF c2 hc2 with ⟨k, c2x, hk, hcase⟩ | hnew
    · rcases hcase with ⟨rfl, hnone⟩ | ⟨rfl, bi, hbi, hbd, hbinc⟩
      · by_cases hmemI : c2.a ∈ acc2.islB ∨ c2.b ∈ acc2.islB
        · rcases hmemI with hmi | hmi
          · have hia := hislA c2.a hmi
            calc m = (tbdy s'.bodies c2.a).alpha0 := hia.symm
              _ ≤ max (tbdy s'.bodies c2.a).alpha0 (tbdy s'.bodies c2.b).alpha0 :=
                le_max_left _ _
          · have hia := hislA c2.b hmi
            calc m = (tbdy s'.bodies c2.b).alpha0 := hia.symm
              _ ≤ max (tbdy s'.bodies c2.a).alpha0 (tbdy s'.bodies c2.b).alpha0 :=
                le_max_right _ _
        · have hsck := hsc2 k c2 hk hnone
          have hact3 : tactiveB B0 c2.a = true ∨ tactiveB B0 c2.b = true := by
            rcases hact2 with h' | h'
            · rcases hactP c2.a h' with h'' | h''
              · exact Or.inl h''
              · exact absurd (Or.inl h'') hmemI
            · rcases hactP c2.b h' with h'' | h''
              · exact Or.inr h''
              · exact absurd (Or.inr h'') hmemI
          have hcol3 : tcollideB B0 c2.a = true ∨ tcollideB B0 c2.b = true := by
            rcases hcol2 with h' | h'
            · exact Or.inl ((hcolP c2.a) ▸ h')
            · exact Or.inr ((hcolP c2.b) ▸ h')
          exact ((hidx k c2 hsck).2 c2 hsck hen2 hcnt2 hfl2 hsen2 hact3 hcol3).elim
      · have hia := hislA bi hbi
        rcases hbinc with hbinc | hbinc
        · subst hbinc
          calc m = (tbdy s'.bodies c2x.a).alpha0 := hia.symm
            _ ≤ max (tbdy s'.bodies c2x.a).alpha0 (tbdy s'.bodies c2x.b).alpha0 :=
              le_max_left _ _
        · subst hbinc
          calc m = (tbdy s'.bodies c2x.b).alpha0 := hia.symm
            _ ≤ max (tbdy s'.bodies c2x.a).alpha0 (tbdy s'.bodies c2x.b).alpha0 :=
              le_max_right _ _
    · have hmem := newContacts_mem _ _ _ c2 hnew
      obtain ⟨-, -, -, -, -, nc, hncl, hna, hnb, -, bi, hbi, -, hbinc⟩ := hmem
      have hia := hislA bi hbi
      rcases hbinc with hbinc | hbinc
      · rw [hna, hbinc]
        calc m = (tbdy s'.bodies bi).alpha0 := hia.symm
          _ ≤ max (tbdy s'.bodies bi).alpha0 (tbdy s'.bodies c2.b).alpha0 := le_max_left _ _
      · rw [hnb, hbinc]
        calc m = (tbdy s'.bodies bi).alpha0 := hia.symm
          _ ≤ max (tbdy s'.bodies c2.a).alpha0 (tbdy s'.bodies bi).alpha0 := le_max_right _ _
  · rw [hlm]; exact hmlo
  · rw [hlm]; exact hSP.mhi
  · intro i
    rw [hbodies, (hprB i).1]
    rcases hBP2.balpha i with ha | ha
    · rw [ha]; exact hSP.alo i
    · rw [ha]; exact hmlo
  · intro i
    rw [hbodies, (hprB i).1]
    rcases hBP2.balpha i with ha | ha
    · rw [ha]; exact hSP.ahi i
    · rw [ha]; exact hSP.mhi
  · intro c2 hc2 hfl2
    rcases hsplitF c2 hc2 with ⟨k, c2x, hk, hcase⟩ | hnew
    · rcases hcase with ⟨rfl, hnone⟩ | ⟨rfl, -⟩
      · exact (scanContactFacts env st hI hSP k c2 (hsc2 k c2 hk hnone)).2.2 hfl2
      · exact Bool.noConfusion hfl2
    · have hmem := newContacts_mem _ _ _ c2 hnew
      rw [hmem.2.2.1] at hfl2
      exact Bool.noConfusion hfl2
  · intro c2 hc2
    rcases hsplitF c2 hc2 with ⟨k, c2x, hk, hcase⟩ | hnew
    · obtain ⟨csc, hsck, hax, hbx⟩ := hend2 k c2x hk
      have hdy := (scanContactFacts env st hI hSP k csc hsck).1
      have hgoal : (tbdy s'.bodies c2x.a).btype = BType.dynamic ∨
          (tbdy s'.bodies c2x.b).btype = BType.dynamic := by
        rw [hbtP c2x.a, hbtP c2x.b, hax, hbx]
        exact hdy
      rcases hcase with ⟨rfl, -⟩ | ⟨rfl, -⟩
      · exact hgoal
      · exact hgoal
    · have hmem := newContacts_mem _ _ _ c2 hnew
      obtain ⟨-, -, -, -, -, nc, -, hna, hnb, -, bi, -, hdynb, hbinc⟩ := hmem
      rcases hbinc with hbinc | hbinc
      · left
        rw [hna, hbinc, hbodies]
        exact hdynb
      · right
        rw [hnb, hbinc, hbodies]
        exact hdynb
  · intro c2 hc2
    rcases hsplitF c2 hc2 with ⟨k, c2x, hk, hcase⟩ | hnew
    · obtain ⟨csc, hsck, hax, hbx⟩ := hend2 k c2x hk
      have hltx := (scanContactFacts env st hI hSP k csc hsck).2.1
      have hgoal : c2x.a < s'.bodies.length ∧ c2x.b < s'.bodies.length := by
        rw [hlen', hax, hbx, ← hSP.blen]
        exact hltx
      rcases hcase with ⟨rfl, -⟩ | ⟨rfl, -⟩
      · exact hgoal
      · exact hgoal
    · have hmem := newContacts_mem _ _ _ c2 hnew
      obtain ⟨-, -, -, -, -, nc, hncl, hna, hnb, -, -⟩ := hmem
      have hn := hnews st.newsN nc hncl
      rw [hna, hnb, hlen']
      exact hn

theorem toiIter_main (env : TOIEnv) (st : TState)
    (hβ : ∀ n, 0 ≤ env.beta n ∧ env.beta n ≤ 1)
    (hnews : ∀ n nc, nc ∈ env.news n → nc.a < st.bodies.length ∧ nc.b < st.bodies.length)
    (hI : TInv st) :
    TInv (toiIter env st) ∧ st.lastMin ≤ (toiIter env st).lastMin ∧
    (toiIter env st).bodies.length = st.bodies.length := by
  obtain ⟨hSP, hDone⟩ := toiScan_main env st hβ hI
  rcases toiIter_cases env st with ⟨-, heq⟩ | ⟨-, heq⟩ |
      ⟨-, ci, c, hmin, hthr, hgci,
        ⟨hu, heq⟩ | ⟨hu, acc2, hacc2, hbodies, hcontacts, hlm⟩⟩
  · rw [heq]
    exact ⟨hI, le_refl _, rfl⟩
  · rw [heq]
    exact ⟨stall_TInv env st hI hSP hDone, le_refl _, hSP.blen⟩
  · rw [heq]
    exact ⟨restore_TInv env st hI hSP hDone ci c hgci, hSP.mlo, hSP.blen⟩
  · have hp := proceed_TInv env st hI hSP hDone hnews ci c hgci acc2 hacc2
      (toiIter env st) hbodies hcontacts hlm
    refine ⟨hp.1, ?_, hp.2⟩
    rw [hlm]
    exact hSP.mlo

theorem toiIterN_succ (env : TOIEnv) :
    ∀ (k : ℕ) (st : TState), toiIterN env (k + 1) st = toiIter env (toiIterN env k st) := by
  intro k
  induction k with
  | zero => intro st; rfl
  | succ k ih => intro st; exact ih (toiIter env st)

theorem toiIterN_main (env : TOIEnv) (st0 : TState)
    (hβ : ∀ n, 0 ≤ env.beta n ∧ env.beta n ≤ 1)
    (hnews : ∀ n nc, nc ∈ env.news n → nc.a < st0.bodies.length ∧ nc.b < st0.bodies.length)
    (hI : TInv st0) :
    ∀ k, TInv (toiIterN env k st0) ∧
      (toiIterN env k st0).bodies.length = st0.bodies.length ∧
      (toiIterN env k st0).lastMin ≤ (toiIterN env (k + 1) st0).lastMin := by
  have hmain : ∀ k, TInv (toiIterN env k st0) ∧
      (toiIterN env k st0).bodies.length = st0.bodies.length := by
    intro k
    induction k with
    | zero => exact ⟨hI, rfl⟩
    | succ k ih =>
      rw [toiIterN_succ]
      have hn2 : ∀ n nc, nc ∈ env.news n →
          nc.a < (toiIterN env k st0).bodies.length ∧
          nc.b < (toiIterN env k st0).bodies.length := by
        intro n nc hnc
        rw [ih.2]
        exact hnews n nc hnc
      have hstep := toiIter_main env (toiIterN env k st0) hβ hn2 ih.1
      exact ⟨hstep.1, hstep.2.2.trans ih.2⟩
  intro k
  obtain ⟨hIk, hlen⟩ := hmain k
  refine ⟨hIk, hlen, ?_⟩
  rw [toiIterN_succ]
  have hn2 : ∀ n nc, nc ∈ env.news n →
      nc.a < (toiIterN env k st0).bodies.length ∧
      nc.b < (toiIterN env k st0).bodies.length := by
    intro n nc hnc
    rw [hlen]
    exact hnews n nc hnc
  exact (toiIter_main env (toiIterN env k st0) hβ hn2 hIk).2.1

theorem solveTOIInit_TInv (st0 : TState)
    (hdyn : ∀ c ∈ st0.contacts, (tbdy st0.bodies c.a).btype = BType.dynamic ∨
      (tbdy st0.bodies c.b).btype = BType.dynamic)
    (hend : ∀ c ∈ st0.contacts, c.a < st0.bodies.length ∧ c.b < st0.bodies.length) :
    TInv (solveTOIInit st0) := by
  have hb : ∀ j, (tbdy (solveTOIInit st0).bodies j).alpha0 = 0 ∧
      (tbdy (solveTOIInit st0).bodies j).btype = (tbdy st0.bodies j).btype := by
    intro j
    have hg : (solveTOIInit st0).bodies.get? j =
        (st0.bodies.get? j).map fun b => { b with islandFlag := false, alpha0 := 0 } :=
      List.get?_map _ _ _
    rw [tbdy_def, tbdy_def, hg]
    cases st0.bodies.get? j with
    | none => exact ⟨rfl, rfl⟩
    | some b => exact ⟨rfl, rfl⟩
  have hc : ∀ c' ∈ (solveTOIInit st0).contacts, ∃ c ∈ st0.contacts,
      c'.a = c.a ∧ c'.b = c.b ∧ c'.toiFlag = false ∧ c'.toiCount = 0 := by
    intro c' hc'
    have hm : c' ∈ st0.contacts.map fun c =>
        { c with toiFlag := false, islandFlag := false, toiCount := 0, toi := 1 } := hc'
    rw [List.mem_map] at hm
    obtain ⟨c, hcm, hEq⟩ := hm
    subst hEq
    exact ⟨c, hcm, rfl, rfl, rfl, rfl⟩
  have hblen : (solveTOIInit st0).bodies.length = st0.bodies.length :=
    List.length_map _ _
  refine ⟨?_, ?_, le_refl 0, zero_le_one, ?_, ?_, ?_, ?_, ?_⟩
  · intro c2 hc2 hen2 hcnt2 hfl2
    obtain ⟨c, -, -, -, hfl, -⟩ := hc c2 hc2
    rw [hfl] at hfl2
    exact Bool.noConfusion hfl2
  · intro c2 hc2 hen2 hcnt2 hfl2 hsen2 hact2 hcol2
    have h0a : (0:ℚ) ≤ (tbdy (solveTOIInit st0).bodies c2.a).alpha0 :=
      le_of_eq (hb c2.a).1.symm
    exact le_trans h0a (le_max_left _ _)
  · intro i
    rw [(hb i).1]
  · intro i
    rw [(hb i).1]
    exact zero_le_one
  · intro c2 hc2 hfl2
    obtain ⟨c, -, -, -, hfl, -⟩ := hc c2 hc2
    rw [hfl] at hfl2
    exact Bool.noConfusion hfl2
  · intro c2 hc2
    obtain ⟨c, hcm, ha, hbq, -, -⟩ := hc c2 hc2
    rw [ha, hbq, (hb c.a).2, (hb c.b).2]
    exact hdyn c hcm
  · intro c2 hc2
    obtain ⟨c, hcm, ha, hbq, -, -⟩ := hc c2 hc2
    rw [ha, hbq, hblen]
    exact hend c hcm

theorem toiScan_skip_over (env : TOIEnv) (st : TState)
    (hβ : ∀ n, 0 ≤ env.beta n ∧ env.beta n ≤ 1) (hI : TInv st) (k : ℕ) (c : TContact)
    (hk : st.contacts.get? k = some c) (hover : cb2_maxSubSteps < c.toiCount) :
    (toiScan env st).contacts.get? k = some c ∧ (toiScan env st).minIdx ≠ some k := by
  obtain ⟨hSP, -⟩ := toiScan_main env st hβ hI
  have h1 : (toiScan env st).contacts.get? k = some c := by
    rcases hSP.crel k with hcr |
        ⟨c0, c', hc0, hc', -, -, -, -, -, -, -, hcle, -, -, -, -⟩
    · rw [hcr]; exact hk
    · have hcc : c0 = c := Option.some.inj (hc0.symm.trans hk)
      subst hcc
      exact absurd hcle (Nat.not_le_of_lt hover)
  refine ⟨h1, ?_⟩
  intro hsel
  obtain ⟨c', hg', -, hcnt', -, -⟩ := hSP.sel k hsel
  have hcc : c' = c := Option.some.inj (hg'.symm.trans h1)
  subst hcc
  exact absurd hcnt' (Nat.not_le_of_lt hover)

theorem toiIter_count_mono (env : TOIEnv) (st : TState)
    (hβ : ∀ n, 0 ≤ env.beta n ∧ env.beta n ≤ 1) (hI : TInv st) :
    ∀ k c, st.contacts.get? k = some c →
      ∃ c', (toiIter env st).contacts.get? k = some c' ∧ c.toiCount ≤ c'.toiCount := by
  obtain ⟨hSP, -⟩ := toiScan_main env st hβ hI
  intro k c hk
  have hscan : ∃ cs, (toiScan env st).contacts.get? k = some cs ∧
      c.toiCount = cs.toiCount := by
    rcases hSP.crel k with hcr |
        ⟨c0, c', hc0, hc', -, -, -, -, -, -, hcnt, -, -, -, -, -⟩
    · exact ⟨c, by rw [hcr]; exact hk, rfl⟩
    · have hcc : c0 = c := Option.some.inj (hc0.symm.trans hk)
      subst hcc
      exact ⟨c', hc', hcnt.symm⟩
  obtain ⟨cs, hks, hcnt⟩ := hscan
  rcases toiIter_cases env st with ⟨-, heq⟩ | ⟨-, heq⟩ |
      ⟨-, ci, cm, hmin, hthr, hgci,
        ⟨hu, heq⟩ | ⟨hu, acc2, hacc2, hbodies2, hcontacts2, hlm2⟩⟩
  · rw [heq]
    exact ⟨c, hk, le_refl _⟩
  · rw [heq]
    exact ⟨cs, hks, le_of_eq hcnt⟩
  · rw [heq]
    by_cases hkci : k = ci
    · subst hkci
      have hciLt : k < (toiScan env st).contacts.length := (List.get?_eq_some.mp hgci).1
      refine ⟨_, List.get?_set_eq_of_lt _ hciLt, ?_⟩
      have hcsm : cs = cm := Option.some.inj (hks.symm.trans hgci)
      subst hcsm
      rw [hcnt]
      exact Nat.le_succ _
    · refine ⟨cs, ?_, le_of_eq hcnt⟩
      rw [List.get?_set_ne _ _ (fun he => hkci he.symm)]
      exact hks
  · have hBP2 : BP st (toiScan env st) (toiScan env st).minAlpha cm.a cm.b acc2 := by
      rw [hacc2]
      exact proceed_BP env st hI hSP ci cm hgci
    have hprL := invalidateIsland_len acc2.islB acc2.bodies acc2.contacts
    have hacc : ∃ c2x, acc2.contacts.get? k = some c2x ∧ cs.toiCount ≤ c2x.toiCount := by
      rcases hBP2.bcrel k with hcr | ⟨csc, c2y, hsc, hac, -, -, hct, -⟩
      · exact ⟨cs, by rw [hcr]; exact hks, le_refl _⟩
      · have hcc : csc = cs := Option.some.inj (hsc.symm.trans hks)
        subst hcc
        exact ⟨c2y, hac, hct⟩
    obtain ⟨c2x, hk2, hct2⟩ := hacc
    have hklt : k < acc2.contacts.length := (List.get?_eq_some.mp hk2).1
    have hklt2 : k < (invalidateIsland acc2.bodies acc2.contacts acc2.islB).2.length := by
      rw [hprL.2]
      exact hklt
    have hic := invalidateIsland_contacts acc2.islB acc2.bodies acc2.contacts k c2x hk2
    by_cases hcond : ∃ bi ∈ acc2.islB, (tbdy acc2.bodies bi).btype = BType.dynamic ∧
        (c2x.a = bi ∨ c2x.b = bi)
    · have hres := hic.1 hcond
      refine ⟨{ c2x with toiFlag := false, islandFlag := false }, ?_, ?_⟩
      · rw [hcontacts2, List.get?_append hklt2]
        exact hres
      · rw [hcnt]
        exact hct2
    · have hall : ∀ bi ∈ acc2.islB, ¬((tbdy acc2.bodies bi).btype = BType.dynamic ∧
          (c2x.a = bi ∨ c2x.b = bi)) := fun bi hbi hcontra => hcond ⟨bi, hbi, hcontra⟩
      have hres := hic.2 hall
      refine ⟨c2x, ?_, ?_⟩
      · rw [hcontacts2, List.get?_append hklt2]
        exact hres
      · rw [hcnt]
        exact hct2

/-- C7: within one call to `SolveTOI`, across successive iterations of the
TOI event loop (cb2World.cpp:599-720), the minimum resolved time-of-impact
fraction selected in each iteration (`minAlpha`, recorded as `lastMin`) is
non-decreasing, it lies in `[0,1]`, and every computed and cached TOI
fraction lies in `[0,1]`.  Proved from the `SolveTOI` entry normalization,
for every oracle whose `cb2TimeOfImpact` fractions lie in `[0,1]` and whose
new contacts join existing bodies, on every world whose contacts link
existing bodies at least one of which is dynamic. -/
theorem toi_minAlpha_monotone_and_bounded (env : TOIEnv) (st0 : TState)
    (hβ : ∀ n, 0 ≤ env.beta n ∧ env.beta n ≤ 1)
    (hnews : ∀ n nc, nc ∈ env.news n → nc.a < st0.bodies.length ∧ nc.b < st0.bodies.length)
    (hdyn : ∀ c ∈ st0.contacts, (tbdy st0.bodies c.a).btype = BType.dynamic ∨
      (tbdy st0.bodies c.b).btype = BType.dynamic)
    (hend : ∀ c ∈ st0.contacts, c.a < st0.bodies.length ∧ c.b < st0.bodies.length) :
    ∀ k,
      (toiIterN env k (solveTOIInit st0)).lastMin ≤
        (toiIterN env (k + 1) (solveTOIInit st0)).lastMin ∧
      (0 ≤ (toiIterN env k (solveTOIInit st0)).lastMin ∧
        (toiIterN env k (solveTOIInit st0)).lastMin ≤ 1) ∧
      ∀ c ∈ (toiIterN env k (solveTOIInit st0)).contacts, c.toiFlag = true →
        0 ≤ c.toi ∧ c.toi ≤ 1 := by
  have hI0 := solveTOIInit_TInv st0 hdyn hend
  have hn0 : ∀ n nc, nc ∈ env.news n → nc.a < (solveTOIInit st0).bodies.length ∧
      nc.b < (solveTOIInit st0).bodies.length := by
    intro n nc hnc
    have hl : (solveTOIInit st0).bodies.length = st0.bodies.length := List.length_map _ _
    rw [hl]
    exact hnews n nc hnc
  intro k
  obtain ⟨hIk, -, hmono⟩ := toiIterN_main env (solveTOIInit st0) hβ hn0 hI0 k
  exact ⟨hmono, ⟨hIk.minLo, hIk.minHi⟩, hIk.toiBounds⟩

theorem toi_minAlpha_monotone_and_bounded_witness :
    ((∀ n, 0 ≤ toiEnvW.beta n ∧ toiEnvW.beta n ≤ 1) ∧
     (∀ n nc, nc ∈ toiEnvW.news n →
       nc.a < toiW.bodies.length ∧ nc.b < toiW.bodies.length) ∧
     (∀ c ∈ toiW.contacts, (tbdy toiW.bodies c.a).btype = BType.dynamic ∨
       (tbdy toiW.bodies c.b).btype = BType.dynamic) ∧
     (∀ c ∈ toiW.contacts, c.a < toiW.bodies.length ∧ c.b < toiW.bodies.length)) ∧
    ((toiIterN toiEnvW 1 (solveTOIInit toiW)).lastMin ≤
        (toiIterN toiEnvW 2 (solveTOIInit toiW)).lastMin ∧
      (0 ≤ (toiIterN toiEnvW 1 (solveTOIInit toiW)).lastMin ∧
        (toiIterN toiEnvW 1 (solveTOIInit toiW)).lastMin ≤ 1) ∧
      ∀ c ∈ (toiIterN toiEnvW 1 (solveTOIInit toiW)).contacts, c.toiFlag = true →
        0 ≤ c.toi ∧ c.toi ≤ 1) :=
  ⟨⟨fun n => ⟨zero_le_one, le_refl 1⟩, fun n nc hnc => absurd hnc (List.not_mem_nil nc),
    by decide, by decide⟩,
   toi_minAlpha_monotone_and_bounded toiEnvW toiW (fun n => ⟨zero_le_one, le_refl 1⟩)
     (fun n nc hnc => absurd hnc (List.not_mem_nil nc)) (by decide) (by decide) 1⟩

/-- The loop invariant holds for the concrete mid-step world `toiW8`. -/
theorem toiW8_TInv : TInv toiW8 := by
  have hone : ∀ c2 : TContact, c2 ∈ toiW8.contacts →
      c2 = ⟨0, 1, true, true, false, false, false, 9, 1⟩ := by
    intro c2 hc2
    simpa [toiW8] using hc2
  refine ⟨?_, ?_, le_refl 0, zero_le_one, ?_, ?_, ?_, ?_, ?_⟩
  · intro c2 hc2 hen2 hcnt2 hfl2
    rw [hone c2 hc2] at hfl2
    exact Bool.noConfusion hfl2
  · intro c2 hc2 hen2 hcnt2 hfl2 hsen2 hact2 hcol2
    rw [hone c2 hc2] at hcnt2
    exact absurd hcnt2 (by decide)
  · intro i
    match i with
    | 0 => exact le_refl 0
    | 1 => exact le_refl 0
    | n + 2 => exact le_refl 0
  · intro i
    match i with
    | 0 => exact zero_le_one
    | 1 => exact zero_le_one
    | n + 2 => exact zero_le_one
  · intro c2 hc2 hfl2
    rw [hone c2 hc2] at hfl2
    exact Bool.noConfusion hfl2
  · intro c2 hc2
    rw [hone c2 hc2]
    exact Or.inl rfl
  · intro c2 hc2
    rw [hone c2 hc2]
    exact ⟨by decide, by decide⟩

/-- C8: a contact whose TOI sub-step counter exceeds `cb2_maxSubSteps` is
skipped by the TOI minimum search (cb2World.cpp:613-617): the scan leaves
its slot untouched, it is never the selected minimum contact, and — since
sub-step counters never decrease — after the full iteration its slot still
holds an over-budget contact, so it stays excluded for the remainder of the
step; the loop simply continues with the other contacts rather than
failing.  Stated over any state satisfying the loop invariant `TInv`, which
holds on entry (`solveTOIInit_TInv`) and is preserved by every iteration
(`toiIter_main`). -/
theorem toi_substep_budget_excludes (env : TOIEnv) (st : TState)
    (hβ : ∀ n, 0 ≤ env.beta n ∧ env.beta n ≤ 1)
    (hI : TInv st) (kx : ℕ) (c : TContact)
    (hk : st.contacts.get? kx = some c)
    (hover : cb2_maxSubSteps < c.toiCount) :
    (toiScan env st).contacts.get? kx = some c ∧
    (toiScan env st).minIdx ≠ some kx ∧
    ∃ c', (toiIter env st).contacts.get? kx = some c' ∧
      cb2_maxSubSteps < c'.toiCount := by
  obtain ⟨h1, h2⟩ := toiScan_skip_over env st hβ hI kx c hk hover
  obtain ⟨c', hk', hcm⟩ := toiIter_count_mono env st hβ hI kx c hk
  exact ⟨h1, h2, c', hk', lt_of_lt_of_le hover hcm⟩

theorem toi_substep_budget_excludes_witness :
    ((∀ n, 0 ≤ toiEnvW.beta n ∧ toiEnvW.beta n ≤ 1) ∧ TInv toiW8 ∧
      toiW8.contacts.get? 0 = some ⟨0, 1, true, true, false, false, false, 9, 1⟩ ∧
      cb2_maxSubSteps < (9 : ℕ)) ∧
    ((toiScan toiEnvW toiW8).contacts.get? 0 =
        some ⟨0, 1, true, true, false, false, false, 9, 1⟩ ∧
      (toiScan toiEnvW toiW8).minIdx ≠ some 0 ∧
      ∃ c', (toiIter toiEnvW toiW8).contacts.get? 0 = some c' ∧
        cb2_maxSubSteps < c'.toiCount) :=
  ⟨⟨fun n => ⟨zero_le_one, le_refl 1⟩, toiW8_TInv, rfl, by decide⟩,
    toi_substep_budget_excludes toiEnvW toiW8 (fun n => ⟨zero_le_one, le_refl 1⟩)
      toiW8_TInv 0 ⟨0, 1, true, true, false, false, false, 9, 1⟩ rfl (by decide)⟩

end CinderBox2D
